import Mathlib

/-!
Shallow embedding of `lib/sync.js` (module resolution, synchronous variant)
===========================================================================

The JavaScript function `resolveSync` and the closures it defines (`loadAsFileSync`,
`loadpkg`, `resolveExportsItem`, `loadAsDirectorySync`, `loadNodeModulesSync`) are
translated to Lean functions over an explicit environment:

* thrown exceptions are values (`Res.throw`), `try`/`catch` is a match on them;
* the filesystem probes and the option hooks are functions of the environment;
* recursion that JavaScript does not bound (`loadpkg` walking up with `path.dirname`,
  `loadAsDirectorySync` following `main`) takes a number, the nested calls the call stack
  has room for; running out of it is the outcome `Res.overflow`, which in Node is a
  `RangeError`: it ends the computation like a throw and a `catch` intercepts it;
* the functions of Node's `path` module and the npm packages the file requires are fields
  of the environment; `Posix` gives executable versions of the path functions;
* the identifier `category`, which `loadAsDirectorySync` reads and nothing in the file
  declares, is a field of the environment too: its binding on the global object, if any.
-/

namespace Resolve

/-! ## Values -/

/-- A thrown JavaScript error: constructor name, `code` property, message. -/
structure JsError where
  name : String
  code : Option String
  message : String
  deriving DecidableEq, Repr

/-- Outcome of running a piece of the program: a value, a thrown error, or the
`RangeError` that Node throws when the call stack is exhausted. -/
inductive Res (α : Type) where
  | ok (a : α)
  | throw (e : JsError)
  | overflow
  deriving DecidableEq, Repr

namespace Res

/-- Sequencing: a throw or a stack exhaustion of the first part ends the computation. -/
def bind {α β : Type} (r : Res α) (f : α → Res β) : Res β :=
  match r with
  | ok a => f a
  | throw e => throw e
  | overflow => overflow

instance : Monad Res where
  pure := Res.ok
  bind := Res.bind

instance : LawfulMonad Res :=
  LawfulMonad.mk' Res (fun x => by cases x <;> rfl) (fun _ _ => rfl)
    (fun x _ _ => by cases x <;> rfl)

/-- The block `try { r } catch (e) { }`: whatever `r` throws, the `RangeError` of an
exhausted stack included, is swallowed and the block completes with `dflt`. -/
def catchAll {α : Type} (r : Res α) (dflt : α) : Res α :=
  match r with
  | ok a => ok a
  | throw _ => ok dflt
  | overflow => ok dflt

/-- Whether the computation exhausted the call stack. -/
def overflows {α : Type} : Res α → Bool
  | overflow => true
  | _ => false

/-- Whether the outcome may be the effect of an exhausted call stack: the exhaustion
itself, or an error with the code `INCORRECT_PACKAGE_MAIN`, which is what the `catch` of the
`main` step turns an exhaustion into. -/
def stackBound {α : Type} : Res α → Bool
  | ok _ => false
  | throw e => e.code == some "INCORRECT_PACKAGE_MAIN"
  | overflow => true

/-- Order of outcomes by the room on the call stack: an outcome that may be the effect of
an exhausted stack can become any outcome once there is more room, any other outcome stays
what it is. -/
def le {α : Type} (a b : Res α) : Prop := a.stackBound = true ∨ a = b

end Res

/-- A value produced by `JSON.parse`. A number is carried as the text that `String(n)`
gives for it (`"7"`, `"0.5"`, `"1e+21"`; zero, also negative zero, is `"0"`): the program
only tests numbers for truthiness and for `typeof`, and converts them to strings. Object
entries are the own properties in enumeration order and their keys are distinct. -/
inductive Json where
  | null
  | bool (b : Bool)
  | num (text : String)
  | str (s : String)
  | arr (xs : List Json)
  | obj (kvs : List (String × Json))
  deriving Repr

namespace Json

/-- JavaScript truthiness of a parsed value. -/
def truthy : Json → Bool
  | null => false
  | bool b => b
  | num text => text != "0"
  | str s => s != ""
  | arr _ => true
  | obj _ => true

/-- Property read `j[k]` for the fixed keys the program uses (`main`, `exports`, `name`),
none of which is a property of a prototype; `none` is `undefined`. -/
def get (j : Json) (k : String) : Option Json :=
  match j with
  | obj kvs => (kvs.find? (fun kv => kv.1 == k)).map (fun kv => kv.2)
  | _ => none

/-- The test `typeof j === 'string'`. -/
def isStr : Json → Bool
  | str _ => true
  | _ => false

/-- The test `Array.isArray(j)`. -/
def isArr : Json → Bool
  | arr _ => true
  | _ => false

end Json

/-- Truthiness of a string-or-`undefined` result: the empty string is falsy. -/
def truthyS : Option String → Bool
  | some s => s != ""
  | none => false

mutual
/-- The text of `String(j)`, which is also the property key `j` stands for, when the
conversion returns (see `Json.convertible`). -/
def propertyKey : Json → String
  | .null => "null"
  | .bool true => "true"
  | .bool false => "false"
  | .num text => text
  | .str s => s
  | .arr xs => joinKeys xs
  | .obj _ => "[object Object]"
/-- The `Array.prototype.join` behind the coercion of an array: `null` entries are empty. -/
def joinKeys : List Json → String
  | [] => ""
  | .null :: [] => ""
  | .null :: y :: rest => "," ++ joinKeys (y :: rest)
  | j :: [] => propertyKey j
  | j :: y :: rest => propertyKey j ++ "," ++ joinKeys (y :: rest)
end

mutual
/-- Whether the conversion of `j` to a string returns. An object converts through
`toString` and `valueOf`: the inherited `toString` gives `[object Object]`, but an own
property `toString` of a parsed object is not callable, and then neither method yields a
primitive. An array converts each of its entries. -/
def Json.convertible : Json → Bool
  | .obj kvs => !(kvs.any (fun kv => kv.1 == "toString"))
  | .arr xs => allConvertible xs
  | _ => true
/-- Whether every entry of an array converts to a string. -/
def allConvertible : List Json → Bool
  | [] => true
  | j :: rest => j.convertible && allConvertible rest
end

/-- Error of a conversion to a string or a property key for which no method is callable. -/
def cannotConvert : JsError :=
  { name := "TypeError", code := none, message := "Cannot convert object to primitive value" }

/-- Conversion to a string of a value that may be `undefined`, as `'' + v` and `item[v]`
perform it. -/
def jsString : Option Json → Res String
  | none => .ok "undefined"
  | some j => if j.convertible then .ok (propertyKey j) else .throw cannotConvert

/-! ## Regular expressions of the file -/

/-- Characters `A-Za-z`. -/
def isAsciiLetter (c : Char) : Bool :=
  (decide ('A' ≤ c) && decide (c ≤ 'Z')) || (decide ('a' ≤ c) && decide (c ≤ 'z'))

/-- Character class `\w`. -/
def isWordChar (c : Char) : Bool :=
  isAsciiLetter c || (decide ('0' ≤ c) && decide (c ≤ '9')) || c == '_'

/-- Character class `[/\\]`. -/
def isSlash (c : Char) : Bool := c == '/' || c == '\\'

/-- Matcher for `/^(?:\.\.?(?:\/|$)|\/|([A-Za-z]:)?[/\\])/` on the characters. -/
def relativePathChars : List Char → Bool
  | ['.'] => true
  | ['.', '.'] => true
  | '.' :: '/' :: _ => true
  | '.' :: '.' :: '/' :: _ => true
  | '/' :: _ => true
  | '\\' :: _ => true
  | c :: ':' :: s :: _ => isAsciiLetter c && isSlash s
  | _ => false

/-- Test `relativePathRegex.test(x)`. -/
def relativePathRegex (x : String) : Bool := relativePathChars x.data

/-- Matcher for `/^\w:[/\\]*$/` on the characters. -/
def windowsDriveChars : List Char → Bool
  | c :: ':' :: rest => isWordChar c && rest.all isSlash
  | _ => false

/-- Test `windowsDriveRegex.test(dir)`. -/
def windowsDriveRegex (dir : String) : Bool := windowsDriveChars dir.data

/-- Matcher for `/[/\\]node_modules[/\\]*$/`, on the reversed characters. -/
def nodeModulesRev (r : List Char) : Bool :=
  match r.dropWhile isSlash with
  | 's' :: 'e' :: 'l' :: 'u' :: 'd' :: 'o' :: 'm' :: '_' :: 'e' :: 'd' :: 'o' :: 'n' :: c :: _ =>
      isSlash c
  | _ => false

/-- Test `nodeModulesRegex.test(dir)`. -/
def nodeModulesRegex (dir : String) : Bool := nodeModulesRev dir.data.reverse

/-- Test `x.slice(-1) === '/'`. -/
def endsWithSlash (x : String) : Bool := x.data.getLast? == some '/'

/-! ## POSIX versions of the `path` functions the file calls -/

namespace Posix

/-- Split at every `/`. -/
def splitSlash : List Char → List (List Char)
  | [] => [[]]
  | c :: cs =>
    match splitSlash cs with
    | [] => [[c]]
    | seg :: rest => if c == '/' then [] :: seg :: rest else (c :: seg) :: rest

/-- Node's `normalizeString`: drop empty and `.` segments, resolve `..` against the
segments kept so far (`acc`, innermost first). -/
def normSegs (allowAboveRoot : Bool) : List (List Char) → List (List Char) → List (List Char)
  | [], acc => acc.reverse
  | seg :: rest, acc =>
    if seg == [] || seg == ['.'] then normSegs allowAboveRoot rest acc
    else if seg == ['.', '.'] then
      match acc with
      | top :: acc' =>
        if top == ['.', '.'] then normSegs allowAboveRoot rest (seg :: acc)
        else normSegs allowAboveRoot rest acc'
      | [] =>
        if allowAboveRoot then normSegs allowAboveRoot rest [seg]
        else normSegs allowAboveRoot rest []
    else normSegs allowAboveRoot rest (seg :: acc)

/-- Join segments with `/`. -/
def joinSlash : List (List Char) → List Char
  | [] => []
  | [s] => s
  | s :: rest => s ++ '/' :: joinSlash rest

/-- Test `path.isAbsolute` on the characters. -/
def isAbs : List Char → Bool
  | '/' :: _ => true
  | _ => false

/-- Function `path.posix.normalize`. -/
def normalize (p : String) : String :=
  if p.data == [] then "." else
  let ab := isAbs p.data
  let trailing := p.data.getLast? == some '/'
  let body := joinSlash (normSegs (!ab) (splitSlash p.data) [])
  let body := if body == [] then (if ab then [] else ['.']) else body
  let body := if trailing && !(body == [] && ab) then body ++ ['/'] else body
  String.mk (if ab then '/' :: body else body)

/-- Function `path.posix.join` with two arguments. -/
def join (a b : String) : String :=
  if a.data == [] then normalize b
  else if b.data == [] then normalize a
  else normalize (String.mk (a.data ++ '/' :: b.data))

/-- Function `path.posix.resolve(a, b)` in a process whose working directory is `cwd`
(an absolute path). -/
def resolve (cwd a b : String) : String :=
  let chosen :=
    if isAbs b.data then b.data
    else if b.data == [] then (if isAbs a.data then a.data
      else if a.data == [] then cwd.data else cwd.data ++ '/' :: a.data)
    else if isAbs a.data then a.data ++ '/' :: b.data
    else if a.data == [] then cwd.data ++ '/' :: b.data
    else cwd.data ++ '/' :: (a.data ++ '/' :: b.data)
  String.mk ('/' :: joinSlash (normSegs false (splitSlash chosen) []))

/-- Function `path.posix.dirname`. -/
def dirname (p : String) : String :=
  match p.data with
  | [] => "."
  | c0 :: rest =>
    let root := c0 == '/'
    match ((rest.reverse.dropWhile (fun c => c == '/')).dropWhile (fun c => c != '/')) with
    | [] => if root then "/" else "."
    | _ :: before =>
      if root && before == [] then "//" else String.mk (c0 :: before.reverse)

/-- Drop the common leading segments of two segment lists. -/
def dropCommon : List (List Char) → List (List Char) → List (List Char) × List (List Char)
  | a :: as, b :: bs => if a == b then dropCommon as bs else (a :: as, b :: bs)
  | as, bs => (as, bs)

/-- Function `path.posix.relative(src, dst)` in a process whose working directory is `cwd`. -/
def relative (cwd src dst : String) : String :=
  let f := normSegs false (splitSlash (resolve cwd src "").data) []
  let t := normSegs false (splitSlash (resolve cwd dst "").data) []
  let (f', t') := dropCommon f t
  String.mk (joinSlash (f'.map (fun _ => ['.', '.']) ++ t'))

end Posix

/-! ## Environment of one call -/

/-- Result of the npm package `validate-exports-object`: `status` is `none` when the
package reports a falsy status. -/
structure ValidateResult where
  status : Option String
  problems : List String

/-- What `resolveSync` reads from outside `sync.js`: the process, Node's `path`, the
filesystem probes in force (option hook or default), and the required packages. -/
structure Env where
  /-- Test `process.platform === 'win32'`. -/
  win32 : Bool
  /-- Constant `path.sep`. -/
  sep : String
  /-- Function `path.resolve(p)`. -/
  pathAbs : String → String
  /-- Function `path.resolve(a, b)`. -/
  pathResolve : String → String → String
  /-- Function `path.join(a, b)`. -/
  pathJoin : String → String → String
  /-- Function `path.dirname(p)`. -/
  pathDirname : String → String
  /-- Function `path.relative(a, b)`. -/
  pathRelative : String → String → String
  /-- Probe `opts.isFile || defaultIsFile`. -/
  isFile : String → Res Bool
  /-- Probe `opts.isDirectory || defaultIsDir`. -/
  isDirectory : String → Res Bool
  /-- Probe `opts.realpathSync || defaultRealpathSync`. -/
  realpathSync : String → Res String
  /-- Call `readPackageSync(readFileSync, pkgfile)`; a `SyntaxError` is a throw whose
  `name` is `"SyntaxError"`. -/
  readPackageSync : String → Res Json
  /-- Package `is-core-module`. -/
  isCore : String → Bool
  /-- Package `node-exports-info/isCategory`, a type guard for strings. -/
  isCategory : String → Bool
  /-- Package `node-exports-info/getCategoriesForRange`. -/
  getCategoriesForRange : String → Res (List String)
  /-- Package `validate-exports-object`. -/
  validateExportsObject : Json → Res ValidateResult
  /-- Call `nodeModulesPaths(start, opts, x)` of `./node-modules-paths`, as `start`, `x`. -/
  nodeModulesPaths : String → String → Res (List String)
  /-- Value `path.dirname(caller())`. -/
  callerDir : String
  /-- Value `process.env.C` when it is a non-empty string. -/
  envC : Option String
  /-- Binding of the identifier `category` that `loadAsDirectorySync` reads. No `var`,
  parameter or function of `sync.js` declares it, so it is looked up on the global object:
  `none` is a process whose global object has no such property, where reading the
  identifier throws a `ReferenceError`. -/
  category : Option String

/-- The `resolution` option after `normalizeOptions`. -/
inductive ResolutionOpt where
  /-- No `resolution` key. -/
  | absent
  /-- Key present with a falsy value. -/
  | falsy
  /-- A non-empty string. -/
  | range (r : String)
  /-- An object; `engines`, `category` are `none` when `undefined`, `conditions` is `none`
  when the key is not `in` the object. -/
  | object (engines category conditions : Option Json)
  /-- Any other truthy value (`true`, a number, a function). -/
  | other

/-- The options object after `normalizeOptions`, minus the probes (see `Env`). -/
structure Opts where
  resolution : ResolutionOpt
  /-- Whether `opts.readFileSync` is set. -/
  hasReadFileSync : Bool
  /-- Whether `opts.readPackageSync` is set. -/
  hasReadPackageSync : Bool
  /-- Hook `opts.packageIterator(x, start, thunk, opts)`; the third argument is what
  `thunk()` evaluates to. -/
  packageIterator : Option (String → String → Res (List String) → Res (List String))
  /-- Hook `opts.packageFilter(pkg, pkgfile, dir)`. -/
  packageFilter : Option (Json → String → String → Res (Option Json))
  /-- Hook `opts.pathFilter(pkg, x, rfile)`. -/
  pathFilter : Option (Json → String → String → Res (Option String))
  /-- Value `opts.extensions` when truthy. -/
  extensions : Option (List String)
  /-- Test `opts.includeCoreModules !== false`. -/
  includeCoreModules : Bool
  /-- Value `opts.basedir` when truthy. -/
  basedir : Option String
  /-- Value `opts.filename` when truthy. -/
  filename : Option String
  /-- Truthiness of `opts.preserveSymlinks`. -/
  preserveSymlinks : Bool

/-- Value of the variable `categories`: an array (entries `none` for `undefined`), or the
boolean `true` that `engines || [cat]` yields for `{ engines: true }`. -/
inductive Categories where
  | list (cs : List (Option String))
  | boolTrue

/-- Error thrown by calling `.includes` on a boolean. -/
def notAFunction : JsError :=
  { name := "TypeError", code := none, message := "categories.includes is not a function" }

/-- Call `categories.includes(c)`. -/
def Categories.includes (cats : Categories) (c : String) : Res Bool :=
  match cats with
  | .list cs => .ok (cs.contains (some c))
  | .boolTrue => .throw notAFunction

/-- Variables of `resolveSync` that its inner functions close over. -/
structure Ctx where
  env : Env
  opts : Opts
  categories : Categories
  conditions : List Json
  extensions : List String
  basedir : String

/-- Constant `cjsConditions`. -/
def cjsConditions : List Json := [.str "require", .str "node", .str "default"]

/-- Constant `cjsExtensions`. -/
def cjsExtensions : List String := [".js"]

/-- Message of the `TypeError` for a bad `resolution` option; the list of categories it
quotes is left out. -/
def categoryMessage : String :=
  "`resolution` must be `true`, a semver range string, `\x7b category \x7d` with a known node “exports” category, or `\x7b engines: true \x7d`"

/-- Function `maybeRealpathSync(realpathSync, x, opts)`. -/
def maybeRealpathSync (env : Env) (opts : Opts) (x : String) : Res String :=
  if !opts.preserveSymlinks then env.realpathSync x else .ok x

/-! ## Errors the file constructs -/

/-- Reading the undeclared identifier `category`. -/
def categoryNotDefined : JsError :=
  { name := "ReferenceError", code := none, message := "category is not defined" }

/-- Operator `in` applied to a primitive. -/
def inOperatorError : JsError :=
  { name := "TypeError", code := none,
    message := "Cannot use 'in' operator to search for 'exports' in a primitive" }

/-- Reading `result.problems` while `result` is `undefined`. -/
def undefinedProblems : JsError :=
  { name := "TypeError", code := none,
    message := "Cannot read properties of undefined (reading 'problems')" }

/-- Error `notInExportsError`. -/
def notInExportsError (relativeX pkgfile : String) : JsError :=
  { name := "Error", code := some "ERR_PACKAGE_PATH_NOT_EXPORTED",
    message := "Package subpath '" ++ relativeX ++ "' is not defined by \"exports\" in '"
      ++ pkgfile ++ "\"" }

/-- Error `mainError`, for the text that `pkg.name` converts to. -/
def mainError (name : String) : JsError :=
  { name := "TypeError", code := some "INVALID_PACKAGE_MAIN",
    message := "package “" ++ name ++ "” `main` must be a string" }

/-- Error `incorrectMainError`. -/
def incorrectMainError (mainPath : String) : JsError :=
  { name := "Error", code := some "INCORRECT_PACKAGE_MAIN",
    message := "Cannot find module '" ++ mainPath
      ++ "'. Please verify that the package.json has a valid \"main\" entry" }

/-- Error `dirError`. -/
def dirError (basedir : String) (preserveSymlinks : Bool) : JsError :=
  { name := "TypeError", code := some "INVALID_BASEDIR",
    message := "Provided basedir \"" ++ basedir ++ "\" is not a directory"
      ++ (if preserveSymlinks then "" else ", or a symlink to a directory") }

/-- Error `err` at the end of `resolveSync`. -/
def moduleNotFound (x parent : String) : JsError :=
  { name := "Error", code := some "MODULE_NOT_FOUND",
    message := "Cannot find module '" ++ x ++ "' from '" ++ parent ++ "'" }

/-- A `TypeError` without a code. -/
def typeError (message : String) : JsError :=
  { name := "TypeError", code := none, message := message }

/-! ## The inner functions of `resolveSync` -/

/-- The object `{ pkg: pkg, dir: dir }` that `loadpkg` returns. -/
structure PkgInfo where
  pkg : Option Json
  dir : String

/-- The statement `if (pkg && opts.packageFilter) pkg = opts.packageFilter(pkg, pkgfile, dir)`. -/
def applyPackageFilter (opts : Opts) (pkg : Option Json) (pkgfile dir : String) :
    Res (Option Json) :=
  match pkg, opts.packageFilter with
  | some j, some f => if j.truthy then f j pkgfile dir else .ok pkg
  | _, _ => .ok pkg

/-- The `try`/`catch` of `loadpkg` around `readPackageSync`: only a `SyntaxError` is
swallowed, leaving `pkg` undefined. -/
def readOrSyntaxError (env : Env) (pkgfile : String) : Res (Option Json) :=
  match env.readPackageSync pkgfile with
  | .ok j => .ok (some j)
  | .throw e => if e.name == "SyntaxError" then .ok none else .throw e
  | .overflow => .overflow

/-- Function `loadpkg(dir)`; the first argument is the number of nested calls of `loadpkg`
the call stack has room for. -/
def loadpkg (c : Ctx) : Nat → String → Res (Option PkgInfo)
  | 0, _ => .overflow
  | fuel + 1, dir =>
    if dir == "" || dir == "/" then .ok none
    else if c.env.win32 && windowsDriveRegex dir then .ok none
    else if nodeModulesRegex dir then .ok none
    else do
      let isDir ← c.env.isDirectory dir
      let base ← if isDir then maybeRealpathSync c.env c.opts dir else pure dir
      let pkgfile := c.env.pathJoin base "package.json"
      let found ← c.env.isFile pkgfile
      if !found then loadpkg c fuel (c.env.pathDirname dir)
      else do
        let pkg ← readOrSyntaxError c.env pkgfile
        let pkg ← applyPackageFilter c.opts pkg pkgfile dir
        pure (some { pkg := pkg, dir := dir })

/-- The `pathFilter` step of `loadAsFileSync`: the path to probe. -/
def applyPathFilter (c : Ctx) (info : Option PkgInfo) (x : String) : Res String :=
  match info, c.opts.pathFilter with
  | some i, some pathFilter =>
    match i.pkg with
    | some j =>
      if i.dir != "" && j.truthy then do
        let rfile := c.env.pathRelative i.dir x
        let r ← pathFilter j x rfile
        match r with
        | some r' => if r' != "" then pure (c.env.pathResolve i.dir r') else pure x
        | none => pure x
      else pure x
    | none => pure x
  | _, _ => pure x

/-- The `for` loop of `loadAsFileSync` over the extensions. -/
def tryExtensions (env : Env) (x : String) : List String → Res (Option String)
  | [] => .ok none
  | e :: es => do
    let found ← env.isFile (x ++ e)
    if found then pure (some (x ++ e)) else tryExtensions env x es

/-- Function `loadAsFileSync(x)`. -/
def loadAsFileSync (c : Ctx) (fuel : Nat) (x : String) : Res (Option String) := do
  let pkg ← loadpkg c fuel (c.env.pathDirname x)
  let x ← applyPathFilter c pkg x
  let found ← c.env.isFile x
  if found then pure (some x) else tryExtensions c.env x c.extensions

/-- Loop that stops at the first truthy result of `f`. -/
def firstTruthy {α : Type} (f : α → Res (Option String)) : List α → Res (Option String)
  | [] => .ok none
  | k :: ks => do
    let r ← f k
    if truthyS r then pure r else firstTruthy f ks

/-- The values `conditions[ci]` that the loop `for (ci = 0; ... ci <= conditions.length;
...)` uses as keys of `item`: one per condition, then `conditions[conditions.length]`,
which is `undefined`. -/
def conditionSlots (conditions : List Json) : List (Option Json) :=
  conditions.map some ++ [none]

/-- Test `result.problems.length > 0 || !result.status || result.status === 'empty'`. -/
def ValidateResult.rejected (r : ValidateResult) : Bool :=
  decide (r.problems.length > 0) ||
    (match r.status with
     | none => true
     | some st => st == "" || st == "empty")

/-- Test `result.status && result.status !== 'empty'`. -/
def ValidateResult.usable (r : ValidateResult) : Bool :=
  match r.status with
  | none => false
  | some st => st != "" && st != "empty"

/-- Test `key[key.length - 1] === path.sep || key[key.length - 1] === '/'`. -/
def keyEndsInSep (sep key : String) : Bool :=
  match key.data.getLast? with
  | some ch => String.mk [ch] == sep || ch == '/'
  | none => false

/-- Call `resolveExportsItem(pkgDir, undefined, x)`: the third branch still evaluates
`categories.includes('broken')` before it looks at `item`. -/
def resolveExportsUndefined (c : Ctx) : Res (Option String) := do
  let _ ← c.categories.includes "broken"
  pure none

/-- Call `resolveExportsItem(pkgDir, Object.prototype, x)`. `Object.prototype` is what
`item['__proto__']` is for a parsed object `item` without an own key of that name. It is an
object without enumerable keys, and the validator is given it as the empty object. When
the validator answers `conditions`, each `Object.prototype[conditions[ci]]` is a function,
`null` or `undefined`, for which the recursive call returns nothing. -/
def resolveExportsPrototype (c : Ctx) (pkgDir x : String) : Res (Option String) := do
  let broken ← c.categories.includes "broken"
  if broken then pure none
  else do
    let result ← c.env.validateExportsObject (.obj [])
    let relativeX :=
      if c.env.pathRelative x c.basedir != "" then c.env.pathRelative x c.basedir else "."
    if result.rejected then
      .throw (notInExportsError relativeX (c.env.pathJoin pkgDir "package.json"))
    else if result.status == some "conditions" then
      firstTruthy (fun slot => (jsString slot).bind (fun _ => resolveExportsUndefined c))
        (conditionSlots c.conditions)
    else pure none

mutual
/-- Function `resolveExportsItem(pkgDir, item, x)` for an `item` that is not `undefined`. -/
def resolveExportsItem (c : Ctx) (fuel : Nat) (pkgDir x : String) : Json → Res (Option String)
  | .str s => do
    let f ← loadAsFileSync c fuel (c.env.pathJoin pkgDir s)
    if truthyS f then pure f else pure none
  | .arr xs => resolveExportsArray c fuel pkgDir x xs
  | .obj kvs => do
    let broken ← c.categories.includes "broken"
    if broken then pure none
    else do
      let result ← c.env.validateExportsObject (.obj kvs)
      let relativeX :=
        if c.env.pathRelative x c.basedir != "" then c.env.pathRelative x c.basedir else "."
      if result.rejected then
        .throw (notInExportsError relativeX (c.env.pathJoin pkgDir "package.json"))
      else if result.status == some "conditions" then
        firstTruthy (fun slot => (jsString slot).bind (fun key =>
          resolveExportsKey c fuel pkgDir x key kvs)) (conditionSlots c.conditions)
      else if result.status == some "files" then
        resolveExportsFiles c fuel pkgDir x kvs
      else pure none
  | .null => resolveExportsUndefined c
  | .bool _ => resolveExportsUndefined c
  | .num _ => resolveExportsUndefined c
/-- The `for` loop over an array item. -/
def resolveExportsArray (c : Ctx) (fuel : Nat) (pkgDir x : String) :
    List Json → Res (Option String)
  | [] => .ok none
  | item :: rest => do
    let itemResult ← resolveExportsItem c fuel pkgDir x item
    if truthyS itemResult then pure itemResult
    else resolveExportsArray c fuel pkgDir x rest
/-- Call `resolveExportsItem(pkgDir, item[key], x)` for an object `item` with the given
own entries. A key that is not an own one is read from `Object.prototype`: the key
`__proto__` gives `Object.prototype` itself, any other key a function or `undefined`, for
which the call does what it does for `undefined`. -/
def resolveExportsKey (c : Ctx) (fuel : Nat) (pkgDir x key : String) :
    List (String × Json) → Res (Option String)
  | [] =>
    if key == "__proto__" then resolveExportsPrototype c pkgDir x
    else resolveExportsUndefined c
  | kv :: rest =>
    if kv.1 == key then resolveExportsItem c fuel pkgDir x kv.2
    else resolveExportsKey c fuel pkgDir x key rest
/-- The `for (var key in item)` loop of the `files` branch over the remaining entries. -/
def resolveExportsFiles (c : Ctx) (fuel : Nat) (pkgDir x : String) :
    List (String × Json) → Res (Option String)
  | [] => .ok none
  | kv :: rest =>
    let isMatch :=
      if kv.1 == "." then x == pkgDir ++ c.env.sep else c.env.pathJoin pkgDir kv.1 == x
    if !isMatch then resolveExportsFiles c fuel pkgDir x rest
    else do
      let skip ←
        if keyEndsInSep c.env.sep kv.1 then do
          let a ← c.categories.includes "broken-dir-slash-conditions"
          if a then pure true else c.categories.includes "pattern-trailers-no-dir-slash"
        else pure false
      if skip then resolveExportsFiles c fuel pkgDir x rest
      else do
        let keyResult ← resolveExportsItem c fuel pkgDir x kv.2
        if truthyS keyResult then pure keyResult
        else resolveExportsFiles c fuel pkgDir x rest
end

/-- Test `'exports' in pkg` for a truthy `pkg`, with the value of `pkg.exports` when the
test holds. -/
def exportsOf (pkg : Json) : Res (Option Json) :=
  match pkg with
  | .obj kvs => .ok ((kvs.find? (fun kv => kv.1 == "exports")).map (fun kv => kv.2))
  | .arr _ => .ok none
  | _ => .throw inOperatorError

/-- The condition `category !== 'pre-exports' && pkg && 'exports' in pkg`, evaluated left
to right: `some (category, pkg.exports)` when it holds. -/
def exportsGate (env : Env) (pkg : Option Json) : Res (Option (String × Json)) :=
  match env.category with
  | none => .throw categoryNotDefined
  | some category =>
    if category != "pre-exports" then
      match pkg with
      | some j =>
        if j.truthy then (exportsOf j).bind (fun e => .ok (e.map (fun v => (category, v))))
        else .ok none
      | none => .ok none
    else .ok none

/-- Value `path.relative(x, basedir) || '.'`. -/
def relativeOrDot (c : Ctx) (x : String) : String :=
  if c.env.pathRelative x c.basedir != "" then c.env.pathRelative x c.basedir else "."

/-- Lines from `if (category !== 'broken')` to the `throw` that ends the exports block. -/
def exportsTail (c : Ctx) (fuel : Nat) (category pkgDir pkgfile x : String) (e : Json) :
    Res (Option String) :=
  if category != "broken" then do
    let result ← c.env.validateExportsObject e
    if result.usable then do
      let objResolved ← resolveExportsItem c fuel pkgDir x e
      if truthyS objResolved then pure objResolved
      else .throw (notInExportsError (relativeOrDot c x) pkgfile)
    else .throw (notInExportsError (relativeOrDot c x) pkgfile)
  else .throw undefinedProblems

/-- The block guarded by the exports condition, for `pkg.exports` equal to `e`. The call
inside `console.error` comes first, then the one whose value is used. -/
def exportsBlock (c : Ctx) (fuel : Nat) (category pkgDir pkgfile x : String) (e : Json) :
    Res (Option String) :=
  if e.isStr || e.isArr then
    if x != pkgDir && x != pkgDir ++ c.env.sep then .ok none
    else do
      let _ ← resolveExportsItem c fuel pkgDir x e
      let resolved ← resolveExportsItem c fuel pkgDir x e
      if truthyS resolved then pure resolved
      else exportsTail c fuel category pkgDir pkgfile x e
  else exportsTail c fuel category pkgDir pkgfile x e

/-- The `try` block of the `main` step: the value returned from inside it, or `none` when
control falls out of its end. `asDirectory` is the recursive call. -/
def mainAttempt (c : Ctx) (fuel : Nat) (asDirectory : String → Res (Option String))
    (x main : String) : Res (Option String) := do
  let mainPath := c.env.pathResolve x main
  let m ← loadAsFileSync c fuel mainPath
  if truthyS m then pure m
  else do
    let n ← asDirectory mainPath
    if truthyS n then pure n
    else do
      let checkIndex ← loadAsFileSync c fuel (c.env.pathResolve x "index")
      if truthyS checkIndex then pure checkIndex else pure none

/-- Value of `pkg.main` after `if (pkg.main === '.' || pkg.main === './') pkg.main = 'index'`. -/
def normalizedMain (main : String) : String :=
  if main == "." || main == "./" then "index" else main

/-- The block `if (pkg && pkg.main) { ... }` for a truthy `pkg.main`. The `catch (e) { }`
after the `try` swallows whatever the attempt throws, the `RangeError` of an exhausted
stack included. The message of `mainError` is built by converting `pkg.name` to a string,
which can throw. -/
def mainBlock (c : Ctx) (fuel : Nat) (asDirectory : String → Res (Option String))
    (x : String) (pkg main : Json) : Res (Option String) :=
  match main with
  | .str main0 =>
    match mainAttempt c fuel asDirectory x (normalizedMain main0) with
    | .ok (some m) => .ok (some m)
    | .ok none => .throw (incorrectMainError (c.env.pathResolve x (normalizedMain main0)))
    | .throw _ => .throw (incorrectMainError (c.env.pathResolve x (normalizedMain main0)))
    | .overflow => .throw (incorrectMainError (c.env.pathResolve x (normalizedMain main0)))
  | _ => (jsString (pkg.get "name")).bind (fun name => .throw (mainError name))

/-- The statements of `loadAsDirectorySync(x)` inside `if (isFile(pkgfile))` that follow
the `packageFilter` step, for the value `pkg` has there: the exports block, else the
`main` block, else the fall to the last line. `asDirectory` is the recursive call. -/
def afterManifest (c : Ctx) (fuel : Nat) (asDirectory : String → Res (Option String))
    (x pkgDir pkgfile : String) (pkg : Option Json) : Res (Option String) := do
  let gate ← exportsGate c.env pkg
  match gate with
  | some (category, e) => exportsBlock c fuel category pkgDir pkgfile x e
  | none =>
    match pkg with
    | some j =>
      match j.get "main" with
      | some main =>
        if j.truthy && main.truthy then mainBlock c fuel asDirectory x j main
        else loadAsFileSync c fuel (c.env.pathJoin x "/index")
      | none => loadAsFileSync c fuel (c.env.pathJoin x "/index")
    | none => loadAsFileSync c fuel (c.env.pathJoin x "/index")

/-- The statement `try { var pkg = readPackageSync(readFileSync, pkgfile); } catch (e) {}`:
the value of `pkg` after it. -/
def readOrUndefined (env : Env) (pkgfile : String) : Res (Option Json) :=
  ((env.readPackageSync pkgfile).bind (fun j => .ok (some j))).catchAll none

/-- Function `loadAsDirectorySync(x)`; the second number is the number of nested calls of
`loadAsDirectorySync` the call stack has room for. -/
def loadAsDirectorySync (c : Ctx) (fuel : Nat) : Nat → String → Res (Option String)
  | 0, _ => .overflow
  | depth + 1, x => do
    let isDir ← c.env.isDirectory x
    let pkgDir ← if isDir then maybeRealpathSync c.env c.opts x else pure x
    let pkgfile := c.env.pathJoin pkgDir "/package.json"
    let found ← c.env.isFile pkgfile
    if found then do
      let pkg ← readOrUndefined c.env pkgfile
      let pkg ← applyPackageFilter c.opts pkg pkgfile x
      afterManifest c fuel (loadAsDirectorySync c fuel depth) x pkgDir pkgfile pkg
    else loadAsFileSync c fuel (c.env.pathJoin x "/index")

/-- Function `getPackageCandidates(x, start, opts)`. -/
def getPackageCandidates (env : Env) (x start : String) : Res (List String) := do
  let dirs ← env.nodeModulesPaths start x
  pure (dirs.map (fun d => env.pathJoin d x))

/-- The `for` loop of `loadNodeModulesSync` over the candidates. -/
def candidatesLoop (c : Ctx) (fuel depth : Nat) : List String → Res (Option String)
  | [] => .ok none
  | dir :: rest => do
    let parentIsDir ← c.env.isDirectory (c.env.pathDirname dir)
    if parentIsDir then do
      let m ← loadAsFileSync c fuel dir
      if truthyS m then pure m
      else do
        let n ← loadAsDirectorySync c fuel depth dir
        if truthyS n then pure n else candidatesLoop c fuel depth rest
    else candidatesLoop c fuel depth rest

/-- The value of `dirs` in `loadNodeModulesSync`: what the `packageIterator` hook returns,
or `thunk()` without the hook. -/
def candidateDirs (c : Ctx) (x start : String) : Res (List String) :=
  match c.opts.packageIterator with
  | some packageIterator => packageIterator x start (getPackageCandidates c.env x start)
  | none => getPackageCandidates c.env x start

/-- Function `loadNodeModulesSync(x, start)`. -/
def loadNodeModulesSync (c : Ctx) (fuel depth : Nat) (x start : String) :
    Res (Option String) := do
  let dirs ← candidateDirs c x start
  candidatesLoop c fuel depth dirs

/-! ## The exported function -/

/-- Test `isCategory(cat)` on a value of unknown type. -/
def isCategoryJ (env : Env) : Json → Bool
  | .str s => env.isCategory s
  | _ => false

/-- Test `engines === true`. -/
def isTrueJ : Json → Bool
  | .bool true => true
  | _ => false

/-- Entry of `[cat]`: a value that passed `isCategory` is a string. -/
def categoryEntry : Option Json → Option String
  | some (.str s) => some s
  | _ => none

/-- The block `if ('resolution' in opts) { ... }` with the two defaults before it: the
values of `categories` and `conditions` it leaves. -/
def readResolution (env : Env) : ResolutionOpt → Res (Categories × List Json)
  | .absent => .ok (.list [some "pre-exports"], cjsConditions)
  | .falsy => .throw (typeError categoryMessage)
  | .range r => do
    let cs ← env.getCategoriesForRange r
    pure (.list (cs.map some), cjsConditions)
  | .other => .ok (.list [some "pre-exports"], cjsConditions)
  | .object engines cat conditions =>
    if (engines.isSome && cat.isSome)
        || (cat.isSome && !(cat.any (isCategoryJ env)))
        || (engines.isSome && !(engines.any isTrueJ)) then
      .throw (typeError categoryMessage)
    else
      let categories : Categories :=
        if engines.isSome then .boolTrue else .list [categoryEntry cat]
      match conditions with
      | none => .ok (categories, cjsConditions)
      | some cv => do
        let unsupported ←
          if cat.isSome then do
            let a ← categories.includes "pre-exports"
            if a then pure true else categories.includes "broken"
          else pure false
        if unsupported then
          .throw (typeError
            "`conditions` is not supported for the `pre-exports` or `broken` categories")
        else
          match cv with
          | .arr cs => pure (categories, cs)
          | _ => .throw (typeError "`conditions` must be an array of strings")

/-- The variables the inner functions close over, from the options and the outcome of the
`resolution` block. -/
def mkCtx (env : Env) (options : Opts) (categories : Categories) (conditions : List Json) :
    Ctx :=
  { env := env
    opts := options
    categories := categories
    conditions := conditions
    extensions := options.extensions.getD cjsExtensions
    basedir := options.basedir.getD env.callerDir }

/-- The path `res` of the relative branch: `path.resolve(absoluteStart, x)`, with `/`
appended when `x` is `.`, `..` or ends in `/`. -/
def relativeTarget (env : Env) (absoluteStart x : String) : String :=
  if x == "." || x == ".." || endsWithSlash x then env.pathResolve absoluteStart x ++ "/"
  else env.pathResolve absoluteStart x

/-- The expression `loadAsFileSync(x) || loadAsDirectorySync(x)`. -/
def fileOrDirectory (c : Ctx) (fuel depth : Nat) (x : String) : Res (Option String) := do
  let m ← loadAsFileSync c fuel x
  if truthyS m then pure m else loadAsDirectorySync c fuel depth x

/-- The branch `if (relativePathRegex.test(x)) { ... }` up to the value of `m`. -/
def relativeBranch (c : Ctx) (fuel depth : Nat) (absoluteStart x : String) :
    Res (Option String) :=
  fileOrDirectory c fuel depth (relativeTarget c.env absoluteStart x)

/-- The statements `if (m) return maybeRealpathSync(realpathSync, m, opts);` and, when `m`
is falsy, the `throw` of `MODULE_NOT_FOUND` that the branches fall through to. -/
def finish (env : Env) (options : Opts) (x parent : String) (m : Option String) : Res String :=
  match m with
  | some p => if p != "" then maybeRealpathSync env options p else .throw (moduleNotFound x parent)
  | none => .throw (moduleNotFound x parent)

/-- Value of `opts.resolution` after `if (process.env.C) opts.resolution = { category:
process.env.C }`. -/
def effectiveResolution (env : Env) (options : Opts) : ResolutionOpt :=
  match env.envC with
  | some cName => .object none (some (.str cName)) none
  | none => options.resolution

/-- The condition `opts.basedir && !isDirectory(absoluteStart)`. -/
def basedirInvalid (env : Env) (options : Opts) (absoluteStart : String) : Res Bool :=
  match options.basedir with
  | some _ => (env.isDirectory absoluteStart).bind (fun d => .ok (!d))
  | none => .ok false

/-- Function `resolveSync(x, options)` for a string `x` and normalized options. The two
numbers bound the walk of `loadpkg` and the depth of `loadAsDirectorySync`. -/
def resolveSync (env : Env) (options : Opts) (fuel depth : Nat) (x : String) : Res String := do
  let (categories, conditions) ← readResolution env (effectiveResolution env options)
  if options.hasReadFileSync && options.hasReadPackageSync then
    .throw (typeError "`readFileSync` and `readPackageSync` are mutually exclusive.")
  else do
    let basedir := options.basedir.getD env.callerDir
    let parent := options.filename.getD basedir
    let absoluteStart ← maybeRealpathSync env options (env.pathAbs basedir)
    let invalid ← basedirInvalid env options absoluteStart
    if invalid then
      .throw (dirError basedir options.preserveSymlinks)
    else
      let c := mkCtx env options categories conditions
      if relativePathRegex x then do
        let m ← relativeBranch c fuel depth absoluteStart x
        finish env options x parent m
      else if options.includeCoreModules && env.isCore x then pure x
      else do
        let n ← loadNodeModulesSync c fuel depth x absoluteStart
        finish env options x parent n

/-! ## A concrete environment: a POSIX process over a finite filesystem -/

/-- A filesystem without symbolic links: the regular files, the directories, and what the
`package.json` files parse to (a file missing from `manifests` is not valid JSON). -/
structure World where
  files : List String
  dirs : List String
  manifests : List (String × Json)

/-- The ancestors of an absolute path, the path itself first, `/` last; the number
bounds the walk. -/
def ancestors : Nat → String → List String
  | 0, _ => []
  | n + 1, p => if p == "/" then ["/"] else p :: ancestors n (Posix.dirname p)

/-- Names of the eight categories of `node-exports-info`. -/
def categoryNames : List String :=
  ["pre-exports", "broken", "experimental", "conditions", "broken-dir-slash-conditions",
   "patterns", "pattern-trailers", "pattern-trailers-no-dir-slash"]

/-- Modelled from the spec: the manifest-exports validator is an npm package outside the
repository; section 6 gives its contract (a status among empty, conditions, files, or none
with a list of problems). This stand-in classifies an object by its keys: all keys start
with `.` (files), none does (conditions), mixed (a problem), no key (empty). -/
def classifyExports : Json → ValidateResult
  | .obj [] => { status := some "empty", problems := [] }
  | .obj kvs =>
    if kvs.all (fun kv => kv.1.data.head? == some '.') then
      { status := some "files", problems := [] }
    else if kvs.all (fun kv => kv.1.data.head? != some '.') then
      { status := some "conditions", problems := [] }
    else { status := none, problems := ["mixed keys"] }
  | _ => { status := none, problems := ["not an object"] }

/-- Modelled from the spec: `./node-modules-paths` is not among the sources; section 4.5
describes its result as the `node_modules` directories of the ancestors of `start`,
nearest first. -/
def ancestorNodeModules (start : String) : List String :=
  (ancestors (start.length + 1) start).map (fun d => Posix.join d "node_modules")

/-- A path without its trailing slashes, as `stat` and `realpath` read it; `/` stays. -/
def stripTrailing (p : String) : String :=
  match p.data.reverse.dropWhile (fun ch => ch == '/') with
  | [] => if p.data == [] then "" else "/"
  | r => String.mk r.reverse

/-- The environment of a POSIX process with working directory `/`, no `C` variable, the
default probes over `w`, and the given binding of the global `category`. -/
def posixEnv (w : World) (category : Option String) : Env :=
  { win32 := false
    sep := "/"
    pathAbs := fun p => Posix.resolve "/" p ""
    pathResolve := Posix.resolve "/"
    pathJoin := Posix.join
    pathDirname := Posix.dirname
    pathRelative := Posix.relative "/"
    isFile := fun p => .ok (w.files.contains p)
    isDirectory := fun p => .ok (w.dirs.contains (stripTrailing p))
    realpathSync := fun p =>
      if w.dirs.contains (stripTrailing p) then .ok (stripTrailing p)
      else if p != stripTrailing p && w.files.contains (stripTrailing p) then
        .throw { name := "Error", code := some "ENOTDIR", message := "not a directory" }
      else .ok p
    readPackageSync := fun p =>
      match w.manifests.find? (fun kv => kv.1 == p) with
      | some kv => .ok kv.2
      | none => .throw { name := "SyntaxError", code := none, message := "Unexpected token" }
    isCore := fun x => ["fs", "path", "http", "os", "util"].contains x
    isCategory := fun s => categoryNames.contains s
    getCategoriesForRange := fun _ => .ok categoryNames
    validateExportsObject := fun j => .ok (classifyExports j)
    nodeModulesPaths := fun start _ => .ok (ancestorNodeModules start)
    callerDir := "/"
    envC := none
    category := category }

/-- Options that set only `basedir`; `resolution` is absent. -/
def defaultOpts (basedir : String) : Opts :=
  { resolution := .absent
    hasReadFileSync := false
    hasReadPackageSync := false
    packageIterator := none
    packageFilter := none
    pathFilter := none
    extensions := none
    includeCoreModules := true
    basedir := some basedir
    filename := none
    preserveSymlinks := false }

/-- The environment `env` with other file and manifest probes and another enumeration of
`node_modules` directories. -/
def Env.withLookups (env : Env) (isFile1 : String → Res Bool) (read1 : String → Res Json)
    (paths1 : String → String → Res (List String)) : Env :=
  { env with isFile := isFile1, readPackageSync := read1, nodeModulesPaths := paths1 }

/-- The environment `env` with another enumeration of `node_modules` directories. -/
def Env.withPaths (env : Env) (paths1 : String → String → Res (List String)) : Env :=
  { env with nodeModulesPaths := paths1 }

/-- The options with another `packageIterator` hook, or none. -/
def Opts.withIterator (opts : Opts)
    (iter1 : Option (String → String → Res (List String) → Res (List String))) : Opts :=
  { opts with packageIterator := iter1 }

/-- The closure variables with another candidate search: enumeration and iterator hook. -/
def Ctx.withSearch (c : Ctx) (paths1 : String → String → Res (List String))
    (iter1 : Option (String → String → Res (List String) → Res (List String))) : Ctx :=
  { c with env := c.env.withPaths paths1, opts := c.opts.withIterator iter1 }

/-- Options that name one category through `resolution: { category }`. -/
def categoryOpts (category basedir : String) : Opts :=
  { defaultOpts basedir with resolution := .object none (some (.str category)) none }

/-- Directory `/proj` with `package.json` = `{"main": "./lib/x.js"}` and `lib/x.js`. -/
def mainWorld : World :=
  { files := ["/proj/package.json", "/proj/lib/x.js"]
    dirs := ["/", "/proj", "/proj/lib"]
    manifests := [("/proj/package.json", .obj [("main", .str "./lib/x.js")])] }

/-- Package `/app/node_modules/pkg` whose manifest is
`{"exports": {".": "./a.js", "./b": "./b.js"}}`, with `a.js` and `b.js`. -/
def exportsWorld : World :=
  { files := ["/app/node_modules/pkg/package.json", "/app/node_modules/pkg/a.js",
              "/app/node_modules/pkg/b.js"]
    dirs := ["/", "/app", "/app/node_modules", "/app/node_modules/pkg"]
    manifests := [("/app/node_modules/pkg/package.json",
      .obj [("exports", .obj [(".", .str "./a.js"), ("./b", .str "./b.js")])])] }

/-- The package of `exportsWorld` with one more file, `c.js`, that the exports map does
not name. -/
def exportsWorldWithC : World :=
  { exportsWorld with files := exportsWorld.files ++ ["/app/node_modules/pkg/c.js"] }

/-- Directory `/proj` as in `mainWorld`, its manifest carrying a malformed `exports`:
`{"main": "./lib/x.js", "exports": 42}`. -/
def malformedExportsWorld : World :=
  { mainWorld with
    manifests := [("/proj/package.json",
      .obj [("main", .str "./lib/x.js"), ("exports", .num "42")])] }

/-- A candidate that the loop of `loadNodeModulesSync` passes over: its parent is not a
directory, or `loadAsFileSync(dir) || loadAsDirectorySync(dir)` comes back falsy. -/
def candidateEmpty (c : Ctx) (fuel depth : Nat) (dir : String) : Bool :=
  match c.env.isDirectory (c.env.pathDirname dir) with
  | .ok false => true
  | .ok true =>
    match fileOrDirectory c fuel depth dir with
    | .ok m => !truthyS m
    | _ => false
  | _ => false

/-- Two copies of `pkg`: `/a/b/node_modules/pkg` has `package.json` = `{"main": "nope"}`
and nothing else, `/a/node_modules/pkg` has `index.js`. -/
def shadowWorld : World :=
  { files := ["/a/b/node_modules/pkg/package.json", "/a/node_modules/pkg/index.js"]
    dirs := ["/", "/a", "/a/b", "/a/b/node_modules", "/a/b/node_modules/pkg",
             "/a/node_modules", "/a/node_modules/pkg"]
    manifests := [("/a/b/node_modules/pkg/package.json", .obj [("main", .str "nope")])] }

/-- Two copies of `pkg`, each with an `index.js`, under `/a/b/node_modules` and under
`/a/node_modules`. -/
def twoCopiesWorld : World :=
  { files := ["/a/b/node_modules/pkg/index.js", "/a/node_modules/pkg/index.js"]
    dirs := ["/", "/a", "/a/b", "/a/b/node_modules", "/a/b/node_modules/pkg",
             "/a/node_modules", "/a/node_modules/pkg"]
    manifests := [] }

/-- Directory `/b` with a file `dir.js` next to a directory `dir` that holds `index.js`. -/
def dirAndFileWorld : World :=
  { files := ["/b/dir.js", "/b/dir/index.js"]
    dirs := ["/", "/b", "/b/dir"]
    manifests := [] }

/-- Directory `/pkg` whose `package.json` is `{"main": v}`, with the listed extra files. -/
def mainValueWorld (v : Json) (extra : List String) : World :=
  { files := "/pkg/package.json" :: extra
    dirs := ["/", "/pkg"]
    manifests := [("/pkg/package.json", .obj [("main", v)])] }

/-- A filesystem without files, seen from the working directory: the relative path `.` is a
directory. -/
def relativeWorld : World :=
  { files := []
    dirs := ["/", "."]
    manifests := [] }

/-- Directory `/pkg` whose `package.json` is `{"name": name, "main": v}`, with the listed
extra files. -/
def namedMainWorld (name v : Json) (extra : List String) : World :=
  { files := "/pkg/package.json" :: extra
    dirs := ["/", "/pkg"]
    manifests := [("/pkg/package.json", .obj [("name", name), ("main", v)])] }

/-- The package of `exportsWorld` with the `./b` key mapped into a subdirectory:
`{"exports": {".": "./a.js", "./b": "./lib/b.js"}}`, with `a.js` and `lib/b.js`. -/
def exportsLibWorld : World :=
  { files := ["/app/node_modules/pkg/package.json", "/app/node_modules/pkg/a.js",
              "/app/node_modules/pkg/lib/b.js"]
    dirs := ["/", "/app", "/app/node_modules", "/app/node_modules/pkg",
             "/app/node_modules/pkg/lib"]
    manifests := [("/app/node_modules/pkg/package.json",
      .obj [("exports", .obj [(".", .str "./a.js"), ("./b", .str "./lib/b.js")])])] }

/-- A manifest with its `exports` field removed. -/
def eraseExports : Json → Json
  | .obj kvs => .obj (kvs.filter (fun kv => kv.1 != "exports"))
  | j => j

/-- Reading a manifest and dropping its `exports` field. -/
def readWithoutExports (env : Env) (pkgfile : String) : Res Json :=
  (env.readPackageSync pkgfile).bind (fun j => .ok (eraseExports j))

/-- The environment in which every manifest is read without its `exports` field. -/
def Env.withoutExports (env : Env) : Env :=
  { env with readPackageSync := readWithoutExports env }

/-- The closure variables over `Env.withoutExports`. -/
def Ctx.withoutExports (c : Ctx) : Ctx :=
  { c with env := c.env.withoutExports }

/-- The result of `loadpkg` with the `exports` field removed from the manifest. -/
def PkgInfo.withoutExports (info : PkgInfo) : PkgInfo :=
  { info with pkg := info.pkg.map eraseExports }

/-- The probe `realpathSync` of an environment in which `link` is a symbolic link to the
directory `target`. -/
def linkRealpath (env : Env) (link target : String) (p : String) : Res String :=
  if stripTrailing p == link then .ok target else env.realpathSync p

/-- The environment `env` with `link` a symbolic link to the directory `target`. -/
def Env.withLink (env : Env) (link target : String) : Env :=
  { env with realpathSync := linkRealpath env link target }

/-- A manifest reader that fails with `EACCES`, as `fs.readFileSync` does on a file the
process may not read. -/
def deniedRead (_pkgfile : String) : Res Json :=
  .throw { name := "Error", code := some "EACCES", message := "permission denied" }

/-- The environment `env` with another manifest reader. -/
def Env.withRead (env : Env) (read1 : String → Res Json) : Env :=
  { env with readPackageSync := read1 }

/-- Package `/store/pkg` with `package.json` = `{"exports": "./a.js", "main": "./b.js"}`,
`a.js` and `b.js`; `/app/node_modules/pkg` is a directory entry that points to it. -/
def storeWorld : World :=
  { files := ["/store/pkg/package.json", "/store/pkg/a.js", "/store/pkg/b.js"]
    dirs := ["/", "/app", "/app/node_modules", "/app/node_modules/pkg", "/store", "/store/pkg"]
    manifests := [("/store/pkg/package.json",
      .obj [("exports", .str "./a.js"), ("main", .str "./b.js")])] }

/-- Directory `/pkg` with `a.js`, `b.js` and a manifest `{"exports": e, "main": "./b.js"}`. -/
def exportsMainWorld (e : Json) : World :=
  { files := ["/pkg/package.json", "/pkg/a.js", "/pkg/b.js"]
    dirs := ["/", "/pkg"]
    manifests := [("/pkg/package.json", .obj [("exports", e), ("main", .str "./b.js")])] }

/-- Directory `/a` with a valid manifest and a file `x.js`; its subdirectory `/a/b` has a
`package.json` that is not valid JSON and a file `y.js`. -/
def brokenJsonWorld : World :=
  { files := ["/a/package.json", "/a/x.js", "/a/b/package.json", "/a/b/y.js"]
    dirs := ["/", "/a", "/a/b"]
    manifests := [("/a/package.json", .obj [("name", .str "a")])] }

/-- Options of `categoryOpts` with a `conditions` entry. -/
def conditionsOpts (category basedir : String) (conditions : Json) : Opts :=
  { defaultOpts basedir with resolution := .object none (some (.str category)) (some conditions) }

/-- Package directory `/p` with the files `d.js`, `u.js`, `i.js`. -/
def targetsWorld : World :=
  { files := ["/p/d.js", "/p/u.js", "/p/i.js"]
    dirs := ["/", "/p", "/p/dir"]
    manifests := [] }

/-- Closure variables over `targetsWorld` for one category and the default conditions. -/
def targetsCtx (category : String) : Ctx :=
  mkCtx (posixEnv targetsWorld none) (categoryOpts category "/") (.list [some category])
    cjsConditions

/-- Directories `/a` and `/b` whose manifests name each other as `main`. -/
def cycleWorld : World :=
  { files := ["/a/package.json", "/b/package.json"]
    dirs := ["/", "/a", "/b"]
    manifests := [("/a/package.json", .obj [("main", .str "../b")]),
                  ("/b/package.json", .obj [("main", .str "../a")])] }

/-- The environment `env` with another `realpathSync`. -/
def Env.withRealpath (env : Env) (realpath1 : String → Res String) : Env :=
  { env with realpathSync := realpath1 }

/-- The environment of `posixEnv` with a `realpathSync` that only strips trailing slashes. -/
def calmEnv (w : World) (category : Option String) : Env :=
  (posixEnv w category).withRealpath (fun p => .ok (stripTrailing p))

/-- The values of `code` that the interface of the entry point lists. -/
def documentedCodes : List String :=
  ["MODULE_NOT_FOUND", "INVALID_BASEDIR", "ERR_PACKAGE_PATH_NOT_EXPORTED",
   "INVALID_PACKAGE_MAIN", "INCORRECT_PACKAGE_MAIN"]

/-- Whether the error carries one of the listed codes. -/
def JsError.documented (e : JsError) : Bool :=
  match e.code with
  | some code => documentedCodes.contains code
  | none => false

/-- Every error object the run throws carries one of the listed codes. The `RangeError` of
an exhausted call stack is the outcome `overflow`, not a `throw`, and carries no code: this
property leaves it aside. -/
def Res.throwsListed {α : Type} (r : Res α) : Prop :=
  ∀ e, r = .throw e → e.documented = true

/-- The run throws no error object: it returns, or it exhausts the call stack. -/
def Res.quiet {α : Type} (r : Res α) : Prop := ∀ e, r ≠ .throw e

/-- A manifest that is an object whose `name`, if it has one, converts to a string. -/
def Json.plainManifest (j : Json) : Bool :=
  match j with
  | .obj _ =>
    match j.get "name" with
    | some name => name.convertible
    | none => true
  | _ => false

/-- A path the run returns is one for which `isFile` answers true. -/
def Res.yieldsFile (env : Env) (r : Res (Option String)) : Prop :=
  ∀ p, r = .ok (some p) → env.isFile p = .ok true

/-- A call in which nothing outside `sync.js` throws and none of the throws without a code
of `sync.js` is reached: the probes, the hooks and the required packages raise nothing, a
manifest read fails with a `SyntaxError` only, manifests are JSON objects whose `name`
converts to a string, every condition converts to a property key, the identifier `category`
is bound to a string other than `'broken'`, and `categories` is an array. -/
structure Calm (c : Ctx) : Prop where
  isFile : ∀ p, (c.env.isFile p).quiet
  isDirectory : ∀ p, (c.env.isDirectory p).quiet
  realpath : ∀ p, (c.env.realpathSync p).quiet
  read : ∀ p e, c.env.readPackageSync p = .throw e → e.name = "SyntaxError"
  manifest : ∀ p j, c.env.readPackageSync p = .ok j → j.plainManifest = true
  validate : ∀ j, (c.env.validateExportsObject j).quiet
  paths : ∀ start x, (c.env.nodeModulesPaths start x).quiet
  packageFilter : ∀ f, c.opts.packageFilter = some f → ∀ j pkgfile dir,
    (f j pkgfile dir).quiet ∧ ∀ r, f j pkgfile dir = .ok (some r) → r.plainManifest = true
  pathFilter : ∀ f, c.opts.pathFilter = some f → ∀ j x rfile, (f j x rfile).quiet
  iterator : ∀ f, c.opts.packageIterator = some f → ∀ x start thunk,
    thunk.quiet → (f x start thunk).quiet
  conditions : ∀ cond ∈ c.conditions, cond.convertible = true
  category : ∃ category, c.env.category = some category ∧ category ≠ "broken"
  categories : ∃ cs, c.categories = .list cs

/-- The argument of the call `loadAsDirectorySync(mainPath)` of line 355 that
`loadAsDirectorySync(x)` makes, if the run reaches that line: `x/package.json` is read, the
exports condition is false, `pkg.main` is a non-empty string and `loadAsFileSync(mainPath)`
finds nothing. -/
def mainTarget (c : Ctx) (fuel : Nat) (x : String) : Res (Option String) := do
  let isDir ← c.env.isDirectory x
  let pkgDir ← if isDir then maybeRealpathSync c.env c.opts x else pure x
  let pkgfile := c.env.pathJoin pkgDir "/package.json"
  let found ← c.env.isFile pkgfile
  if found then do
    let pkg ← readOrUndefined c.env pkgfile
    let pkg ← applyPackageFilter c.opts pkg pkgfile x
    let gate ← exportsGate c.env pkg
    match gate, pkg with
    | none, some j =>
      match j.get "main" with
      | some (.str main0) =>
        if j.truthy && main0 != "" then do
          let mainPath := c.env.pathResolve x (normalizedMain main0)
          let m ← loadAsFileSync c fuel mainPath
          if truthyS m then pure none else pure (some mainPath)
        else pure none
      | _ => pure none
    | _, _ => pure none
  else pure none

/-- The recursion of `loadAsDirectorySync` through `main` as a relation on directories:
the call for `x` makes the call for `y`. -/
def callsDirectory (c : Ctx) (fuel : Nat) (y x : String) : Prop :=
  mainTarget c fuel x = .ok (some y)

/-! ## Theorems -/

set_option maxRecDepth 100000

/-! ### Sequencing -/

@[simp] theorem Res.pure_eq {α : Type} (a : α) : (pure a : Res α) = .ok a := rfl

@[simp] theorem Res.ok_bind {α β : Type} (a : α) (f : α → Res β) : (Res.ok a >>= f) = f a := rfl

@[simp] theorem Res.throw_bind {α β : Type} (e : JsError) (f : α → Res β) :
    ((Res.throw e : Res α) >>= f) = .throw e := rfl

@[simp] theorem Res.overflow_bind {α β : Type} (f : α → Res β) :
    ((Res.overflow : Res α) >>= f) = .overflow := rfl

theorem Res.bind_eq_ok {α β : Type} (m : Res α) (f : α → Res β) (b : β)
    (h : (m >>= f) = .ok b) : ∃ a, m = .ok a ∧ f a = .ok b := by
  cases m with
  | ok a => exact ⟨a, rfl, h⟩
  | throw e => cases h
  | overflow => cases h

theorem Res.ite_bind {α β : Type} (p : Prop) [Decidable p] (a b : Res α) (f : α → Res β) :
    ((if p then a else b) >>= f) = if p then a >>= f else b >>= f := by
  split_ifs <;> rfl

theorem applyPackageFilter_none (opts : Opts) (pkg : Option Json) (pkgfile dir : String)
    (hfilter : opts.packageFilter = none) :
    applyPackageFilter opts pkg pkgfile dir = .ok pkg := by
  unfold applyPackageFilter
  rw [hfilter]
  cases pkg <;> rfl

/-! ### More room on the stack keeps every outcome that does not depend on it

The evaluations below run with room for 8 nested calls of `loadpkg` and 4 of
`loadAsDirectorySync`; by `resolveSync_stable` and its companions their outcomes, when they
are neither an exhausted stack nor an error with code `INCORRECT_PACKAGE_MAIN`, are the
outcomes for every larger stack. -/

theorem Res.le_refl {α : Type} (a : Res α) : Res.le a a := Or.inr rfl

theorem Res.overflow_le {α : Type} (a : Res α) : Res.le .overflow a := Or.inl rfl

theorem Res.stackBound_bind {α β : Type} (a : Res α) (f : α → Res β)
    (h : a.stackBound = true) : (a >>= f).stackBound = true := by
  cases a with
  | ok x => cases h
  | throw e => exact h
  | overflow => rfl

theorem Res.le_trans {α : Type} {a b c : Res α} (h1 : Res.le a b) (h2 : Res.le b c) :
    Res.le a c := by
  rcases h1 with h | h
  · exact Or.inl h
  · rw [h]; exact h2

theorem Res.bind_le {α β : Type} {a b : Res α} {f g : α → Res β} (h : Res.le a b)
    (hfg : ∀ x, Res.le (f x) (g x)) : Res.le (a >>= f) (b >>= g) := by
  rcases h with h | h
  · exact Or.inl (Res.stackBound_bind a f h)
  · rw [h]
    cases b with
    | ok x => exact hfg x
    | throw e => exact Or.inr rfl
    | overflow => exact Or.inr rfl

theorem Res.eq_of_le {α : Type} {a b : Res α} (h : Res.le a b) (hd : a.stackBound = false) :
    b = a := by
  rcases h with h | h
  · rw [h] at hd; cases hd
  · exact h.symm

theorem loadpkg_le (c : Ctx) (n n' : Nat) (h : n ≤ n') (dir : String) :
    Res.le (loadpkg c n dir) (loadpkg c n' dir) := by
  induction n generalizing n' dir with
  | zero => exact Res.overflow_le _
  | succ n ih =>
    obtain ⟨m, rfl⟩ : ∃ m, n' = m + 1 := ⟨n' - 1, by omega⟩
    have hnm : n ≤ m := by omega
    simp only [loadpkg]
    repeat' first
      | with_reducible exact Res.le_refl _
      | exact ih m hnm _
      | apply Res.bind_le
      | intro _
      | split_ifs

theorem loadAsFileSync_le (c : Ctx) (n n' : Nat) (h : n ≤ n') (x : String) :
    Res.le (loadAsFileSync c n x) (loadAsFileSync c n' x) := by
  simp only [loadAsFileSync]
  exact Res.bind_le (loadpkg_le c n n' h _) (fun _ => Res.le_refl _)

theorem firstTruthy_le {α : Type} (f g : α → Res (Option String))
    (hfg : ∀ k, Res.le (f k) (g k)) (keys : List α) :
    Res.le (firstTruthy f keys) (firstTruthy g keys) := by
  induction keys with
  | nil => exact Res.le_refl _
  | cons k ks ih =>
    simp only [firstTruthy]
    refine Res.bind_le (hfg k) (fun r => ?_)
    split_ifs
    · exact Res.le_refl _
    · exact ih

mutual
theorem resolveExportsItem_le (c : Ctx) (n n' : Nat) (h : n ≤ n') (pkgDir x : String) :
    ∀ item, Res.le (resolveExportsItem c n pkgDir x item) (resolveExportsItem c n' pkgDir x item)
  | .str s => by
    simp only [resolveExportsItem]
    exact Res.bind_le (loadAsFileSync_le c n n' h _) (fun _ => Res.le_refl _)
  | .arr xs => by
    simp only [resolveExportsItem]
    exact resolveExportsArray_le c n n' h pkgDir x xs
  | .obj kvs => by
    have hk : ∀ slot : Option Json, Res.le
        ((jsString slot).bind (fun key => resolveExportsKey c n pkgDir x key kvs))
        ((jsString slot).bind (fun key => resolveExportsKey c n' pkgDir x key kvs)) :=
      fun slot => Res.bind_le (Res.le_refl _)
        (fun key => resolveExportsKey_le c n n' h pkgDir x key kvs)
    have hf := resolveExportsFiles_le c n n' h pkgDir x kvs
    simp only [resolveExportsItem]
    repeat' first
      | with_reducible exact Res.le_refl _
      | exact hf
      | exact firstTruthy_le _ _ hk _
      | apply Res.bind_le
      | intro _
      | split_ifs
  | .null => Res.le_refl _
  | .bool _ => Res.le_refl _
  | .num _ => Res.le_refl _
theorem resolveExportsArray_le (c : Ctx) (n n' : Nat) (h : n ≤ n') (pkgDir x : String) :
    ∀ items, Res.le (resolveExportsArray c n pkgDir x items)
      (resolveExportsArray c n' pkgDir x items)
  | [] => Res.le_refl _
  | item :: rest => by
    have h1 := resolveExportsItem_le c n n' h pkgDir x item
    have h2 := resolveExportsArray_le c n n' h pkgDir x rest
    simp only [resolveExportsArray]
    repeat' first
      | with_reducible exact Res.le_refl _
      | exact h1
      | exact h2
      | apply Res.bind_le
      | intro _
      | split_ifs
theorem resolveExportsKey_le (c : Ctx) (n n' : Nat) (h : n ≤ n') (pkgDir x key : String) :
    ∀ kvs, Res.le (resolveExportsKey c n pkgDir x key kvs)
      (resolveExportsKey c n' pkgDir x key kvs)
  | [] => by
    simp only [resolveExportsKey]
    exact Res.le_refl _
  | kv :: rest => by
    simp only [resolveExportsKey]
    split_ifs
    · exact resolveExportsItem_le c n n' h pkgDir x kv.2
    · exact resolveExportsKey_le c n n' h pkgDir x key rest
theorem resolveExportsFiles_le (c : Ctx) (n n' : Nat) (h : n ≤ n') (pkgDir x : String) :
    ∀ kvs, Res.le (resolveExportsFiles c n pkgDir x kvs)
      (resolveExportsFiles c n' pkgDir x kvs)
  | [] => Res.le_refl _
  | kv :: rest => by
    have h1 := resolveExportsItem_le c n n' h pkgDir x kv.2
    have h2 := resolveExportsFiles_le c n n' h pkgDir x rest
    simp only [resolveExportsFiles]
    repeat' first
      | with_reducible exact Res.le_refl _
      | exact h1
      | exact h2
      | apply Res.bind_le
      | intro _
      | split_ifs
end


theorem exportsTail_le (c : Ctx) (n n' : Nat) (h : n ≤ n')
    (category pkgDir pkgfile x : String) (e : Json) :
    Res.le (exportsTail c n category pkgDir pkgfile x e)
      (exportsTail c n' category pkgDir pkgfile x e) := by
  have h1 := resolveExportsItem_le c n n' h pkgDir x e
  simp only [exportsTail]
  repeat' first
    | with_reducible exact Res.le_refl _
    | exact h1
    | apply Res.bind_le
    | intro _
    | split_ifs

theorem exportsBlock_le (c : Ctx) (n n' : Nat) (h : n ≤ n')
    (category pkgDir pkgfile x : String) (e : Json) :
    Res.le (exportsBlock c n category pkgDir pkgfile x e)
      (exportsBlock c n' category pkgDir pkgfile x e) := by
  have h1 := resolveExportsItem_le c n n' h pkgDir x e
  have h2 := exportsTail_le c n n' h category pkgDir pkgfile x e
  simp only [exportsBlock]
  repeat' first
    | with_reducible exact Res.le_refl _
    | exact h1
    | exact h2
    | apply Res.bind_le
    | intro _
    | split_ifs

theorem mainAttempt_le (c : Ctx) (n n' : Nat) (h : n ≤ n')
    (f g : String → Res (Option String)) (hfg : ∀ y, Res.le (f y) (g y)) (x main : String) :
    Res.le (mainAttempt c n f x main) (mainAttempt c n' g x main) := by
  have h1 := fun y => loadAsFileSync_le c n n' h y
  simp only [mainAttempt]
  repeat' first
    | with_reducible exact Res.le_refl _
    | exact h1 _
    | exact hfg _
    | apply Res.bind_le
    | intro _
    | split_ifs

theorem mainBlock_le (c : Ctx) (n n' : Nat) (h : n ≤ n')
    (f g : String → Res (Option String)) (hfg : ∀ y, Res.le (f y) (g y)) (x : String)
    (pkg main : Json) :
    Res.le (mainBlock c n f x pkg main) (mainBlock c n' g x pkg main) := by
  cases main with
  | str m =>
    simp only [mainBlock]
    rcases mainAttempt_le c n n' h f g hfg x (normalizedMain m) with h1 | h1
    · refine Or.inl ?_
      cases hm : mainAttempt c n f x (normalizedMain m) with
      | ok o =>
        rw [hm] at h1
        cases h1
      | throw e => rfl
      | overflow => rfl
    · rw [h1]; exact Res.le_refl _
  | null => exact Res.le_refl _
  | bool _ => exact Res.le_refl _
  | num _ => exact Res.le_refl _
  | arr _ => exact Res.le_refl _
  | obj _ => exact Res.le_refl _

theorem afterManifest_le (c : Ctx) (n n' : Nat) (h : n ≤ n')
    (f g : String → Res (Option String)) (hfg : ∀ y, Res.le (f y) (g y))
    (x pkgDir pkgfile : String) (pkg : Option Json) :
    Res.le (afterManifest c n f x pkgDir pkgfile pkg)
      (afterManifest c n' g x pkgDir pkgfile pkg) := by
  have h1 := fun y => loadAsFileSync_le c n n' h y
  have h2 := fun category e => exportsBlock_le c n n' h category pkgDir pkgfile x e
  have h3 := fun j main => mainBlock_le c n n' h f g hfg x j main
  simp only [afterManifest]
  refine Res.bind_le (Res.le_refl _) (fun gate => ?_)
  cases gate with
  | some ce => exact h2 ce.1 ce.2
  | none =>
    cases pkg with
    | none => exact h1 _
    | some j =>
      simp only []
      cases j.get "main" with
      | none => exact h1 _
      | some main =>
        simp only []
        split_ifs
        · exact h3 j main
        · exact h1 _

theorem loadAsDirectorySync_le (c : Ctx) (n n' : Nat) (h : n ≤ n') (d d' : Nat)
    (hd : d ≤ d') (x : String) :
    Res.le (loadAsDirectorySync c n d x) (loadAsDirectorySync c n' d' x) := by
  induction d generalizing d' x with
  | zero => exact Res.overflow_le _
  | succ d ih =>
    obtain ⟨m, rfl⟩ : ∃ m, d' = m + 1 := ⟨d' - 1, by omega⟩
    have hdm : d ≤ m := by omega
    have h1 := fun y => loadAsFileSync_le c n n' h y
    have h2 := fun y pkgDir pkgfile pkg => afterManifest_le c n n' h
      (loadAsDirectorySync c n d) (loadAsDirectorySync c n' m) (fun z => ih m hdm z)
      y pkgDir pkgfile pkg
    simp only [loadAsDirectorySync]
    repeat' first
      | with_reducible exact Res.le_refl _
      | exact h1 _
      | exact h2 _ _ _ _
      | apply Res.bind_le
      | intro _
      | split_ifs

theorem fileOrDirectory_le (c : Ctx) (n n' : Nat) (h : n ≤ n') (d d' : Nat) (hd : d ≤ d')
    (x : String) :
    Res.le (fileOrDirectory c n d x) (fileOrDirectory c n' d' x) := by
  have h1 := loadAsFileSync_le c n n' h x
  have h2 := loadAsDirectorySync_le c n n' h d d' hd x
  simp only [fileOrDirectory]
  repeat' first
    | with_reducible exact Res.le_refl _
    | exact h1
    | exact h2
    | apply Res.bind_le
    | intro _
    | split_ifs

theorem candidatesLoop_le (c : Ctx) (n n' : Nat) (h : n ≤ n') (d d' : Nat) (hd : d ≤ d')
    (dirs : List String) :
    Res.le (candidatesLoop c n d dirs) (candidatesLoop c n' d' dirs) := by
  induction dirs with
  | nil => exact Res.le_refl _
  | cons dir rest ih =>
    have h1 := loadAsFileSync_le c n n' h dir
    have h2 := loadAsDirectorySync_le c n n' h d d' hd dir
    simp only [candidatesLoop]
    repeat' first
      | with_reducible exact Res.le_refl _
      | exact h1
      | exact h2
      | exact ih
      | apply Res.bind_le
      | intro _
      | split_ifs

theorem loadNodeModulesSync_le (c : Ctx) (n n' : Nat) (h : n ≤ n') (d d' : Nat)
    (hd : d ≤ d') (x start : String) :
    Res.le (loadNodeModulesSync c n d x start) (loadNodeModulesSync c n' d' x start) := by
  simp only [loadNodeModulesSync]
  exact Res.bind_le (Res.le_refl _) (fun dirs => candidatesLoop_le c n n' h d d' hd dirs)

/-- More room on the stack changes an outcome of `resolveSync` only if it may be the effect
of an exhausted stack. -/
theorem resolveSync_le (env : Env) (opts : Opts) (n n' : Nat) (h : n ≤ n') (d d' : Nat)
    (hd : d ≤ d') (x : String) :
    Res.le (resolveSync env opts n d x) (resolveSync env opts n' d' x) := by
  have h1 := fun c start => fileOrDirectory_le c n n' h d d' hd start
  have h2 := fun c start => loadNodeModulesSync_le c n n' h d d' hd x start
  simp only [resolveSync, relativeBranch]
  refine Res.bind_le (Res.le_refl _) (fun cc => ?_)
  repeat' first
    | with_reducible exact Res.le_refl _
    | exact h1 _ _
    | exact h2 _ _
    | apply Res.bind_le
    | intro _
    | split_ifs

/-- An outcome of `loadAsDirectorySync` that does not depend on the stack is the outcome for
every larger stack. -/
theorem loadAsDirectorySync_stable (c : Ctx) (n n' d d' : Nat) (x : String)
    (r : Res (Option String)) (hr : loadAsDirectorySync c n d x = r)
    (hnd : r.stackBound = false) (h : n ≤ n') (hd : d ≤ d') :
    loadAsDirectorySync c n' d' x = r := by
  have hle := loadAsDirectorySync_le c n n' h d d' hd x
  rw [hr] at hle
  exact Res.eq_of_le hle hnd

/-- An outcome of `loadNodeModulesSync` that does not depend on the stack is the outcome for
every larger stack. -/
theorem loadNodeModulesSync_stable (c : Ctx) (n n' d d' : Nat) (x start : String)
    (r : Res (Option String)) (hr : loadNodeModulesSync c n d x start = r)
    (hnd : r.stackBound = false) (h : n ≤ n') (hd : d ≤ d') :
    loadNodeModulesSync c n' d' x start = r := by
  have hle := loadNodeModulesSync_le c n n' h d d' hd x start
  rw [hr] at hle
  exact Res.eq_of_le hle hnd

/-- An outcome of `resolveSync` that does not depend on the stack is the outcome for every
larger stack. -/
theorem resolveSync_stable (env : Env) (opts : Opts) (n n' d d' : Nat) (x : String)
    (r : Res String) (hr : resolveSync env opts n d x = r) (hnd : r.stackBound = false)
    (h : n ≤ n') (hd : d ≤ d') :
    resolveSync env opts n' d' x = r := by
  have hle := resolveSync_le env opts n n' h d d' hd x
  rw [hr] at hle
  exact Res.eq_of_le hle hnd

/-! ### The undeclared identifier `category` -/

/-- Whatever the manifest holds, `loadAsDirectorySync(x)` throws a `ReferenceError` as
soon as `x/package.json` is a file, in a process that does not define a global
`category`: the lines after the exports condition are never reached. -/
theorem loadAsDirectorySync_category_unbound (c : Ctx) (fuel depth : Nat) (x pkgDir : String)
    (isDir : Bool) (pkg : Option Json)
    (hcat : c.env.category = none) (hfilter : c.opts.packageFilter = none)
    (hdir : c.env.isDirectory x = .ok isDir)
    (hpkgDir : (if isDir then maybeRealpathSync c.env c.opts x else .ok x) = .ok pkgDir)
    (hfile : c.env.isFile (c.env.pathJoin pkgDir "/package.json") = .ok true)
    (hread : readOrUndefined c.env (c.env.pathJoin pkgDir "/package.json") = .ok pkg) :
    loadAsDirectorySync c fuel (depth + 1) x = .throw categoryNotDefined := by
  have hf := applyPackageFilter_none c.opts pkg (c.env.pathJoin pkgDir "/package.json") x
    hfilter
  have hg : exportsGate c.env pkg = .throw categoryNotDefined := by
    unfold exportsGate
    rw [hcat]
  cases isDir <;>
    simp_all [loadAsDirectorySync, afterManifest, bind, Res.bind, pure]

/-! ### C1 -/

/-- C1, at the failing input: `/proj` holds `package.json` = `{"main": "./lib/x.js"}` and
the file `lib/x.js`, and `resolveSync('./proj', { basedir: '/' })` reaches
`loadAsDirectorySync('/proj')`. Instead of returning `/proj/lib/x.js` the call throws a
`ReferenceError` at the read of `category`; with that identifier bound to
`'pre-exports'` the same call returns the file. -/
theorem C1_main_file_throws_reference_error :
    loadAsFileSync (mkCtx (posixEnv mainWorld none) (defaultOpts "/")
        (.list [some "pre-exports"]) cjsConditions) 8 "/proj" = .ok none
    ∧ resolveSync (posixEnv mainWorld none) (defaultOpts "/") 8 4 "./proj"
        = .throw categoryNotDefined
    ∧ resolveSync (posixEnv mainWorld (some "pre-exports")) (defaultOpts "/") 8 4 "./proj"
        = .ok "/proj/lib/x.js" := by
  refine ⟨?_, ?_, ?_⟩ <;> decide

/-! ### C2 -/

/-- C2, at the failing inputs: the package `/app/node_modules/pkg` declares
`"exports": {".": "./a.js", "./b": "./b.js"}`, both targets exist, and the call is
`resolveSync('pkg', { basedir: '/app', resolution: { category: 'conditions' } })`.
Instead of returning `a.js` the call throws a `ReferenceError` at the read of `category`.
With that identifier bound to `'conditions'` it still does not return `a.js`: the `.` key
is compared with `pkgDir + path.sep` only, the candidate carries no trailing separator,
and the call throws `ERR_PACKAGE_PATH_NOT_EXPORTED`. For the subpath: with
`"./b": "./lib/b.js"` and an existing `lib/b.js`, the request `pkg/b` does not return the
target of the `./b` key but throws `MODULE_NOT_FOUND`, bound or not. -/
theorem C2_root_specifier_not_resolved :
    resolveSync (posixEnv exportsWorld none) (categoryOpts "conditions" "/app") 8 4 "pkg"
        = .throw categoryNotDefined
    ∧ resolveSync (posixEnv exportsWorld (some "conditions"))
          (categoryOpts "conditions" "/app") 8 4 "pkg"
        = .throw (notInExportsError "../.." "/app/node_modules/pkg/package.json")
    ∧ resolveSync (posixEnv exportsLibWorld none) (categoryOpts "conditions" "/app") 8 4
          "pkg/b"
        = .throw (moduleNotFound "pkg/b" "/app")
    ∧ resolveSync (posixEnv exportsLibWorld (some "conditions"))
          (categoryOpts "conditions" "/app") 8 4 "pkg/b"
        = .throw (moduleNotFound "pkg/b" "/app") := by
  refine ⟨?_, ?_, ?_, ?_⟩ <;> decide

/-! ### C3 -/

/-- C3, at the failing inputs: for the package of C2 in category `conditions`, the request
`pkg/c` names a subpath that is not a key of the exports map. The candidate
`/app/node_modules/pkg/c` has no `package.json` of its own, so the map is never read:
the call throws `MODULE_NOT_FOUND`, and once a file `c.js` exists in the package it
returns that file. Neither outcome is `ERR_PACKAGE_PATH_NOT_EXPORTED`, whether or not the
identifier `category` is bound. -/
theorem C3_undeclared_subpath_not_rejected :
    resolveSync (posixEnv exportsWorld none) (categoryOpts "conditions" "/app") 8 4 "pkg/c"
        = .throw (moduleNotFound "pkg/c" "/app")
    ∧ resolveSync (posixEnv exportsWorld (some "conditions"))
          (categoryOpts "conditions" "/app") 8 4 "pkg/c"
        = .throw (moduleNotFound "pkg/c" "/app")
    ∧ resolveSync (posixEnv exportsWorldWithC none) (categoryOpts "conditions" "/app") 8 4
          "pkg/c"
        = .ok "/app/node_modules/pkg/c.js"
    ∧ resolveSync (posixEnv exportsWorldWithC (some "conditions"))
          (categoryOpts "conditions" "/app") 8 4 "pkg/c"
        = .ok "/app/node_modules/pkg/c.js" := by
  refine ⟨?_, ?_, ?_, ?_⟩ <;> decide

/-! ### C4 -/

/-- C4, at the failing input: `/proj/package.json` is
`{"main": "./lib/x.js", "exports": 42}`, `lib/x.js` exists, and no `resolution` option is
given. The call `resolveSync('./proj', { basedir: '/' })` does not proceed through
`main`: it throws a `ReferenceError` at the read of `category`, as it does for the
manifest without `exports`. With that identifier bound to `'pre-exports'` both manifests
resolve to `lib/x.js`. -/
theorem C4_pre_exports_does_not_reach_main :
    resolveSync (posixEnv malformedExportsWorld none) (defaultOpts "/") 8 4 "./proj"
        = .throw categoryNotDefined
    ∧ resolveSync (posixEnv mainWorld none) (defaultOpts "/") 8 4 "./proj"
        = .throw categoryNotDefined
    ∧ resolveSync (posixEnv malformedExportsWorld (some "pre-exports")) (defaultOpts "/") 8 4
          "./proj"
        = .ok "/proj/lib/x.js"
    ∧ resolveSync (posixEnv mainWorld (some "pre-exports")) (defaultOpts "/") 8 4 "./proj"
        = .ok "/proj/lib/x.js" := by
  refine ⟨?_, ?_, ?_, ?_⟩ <;> decide

/-! ### C5 -/

/-- C5, counterexample: `fs` is a bare specifier naming a core module and core modules
are included, yet `resolveSync('fs', { basedir: '/nope' })` throws `INVALID_BASEDIR`
because `isDirectory` is asked about the base directory first, while
`resolveSync('fs', { basedir: '/proj' })` returns `fs`: the result depends on `basedir`
and on the filesystem. -/
theorem C5_core_module_depends_on_basedir :
    relativePathRegex "fs" = false
    ∧ (posixEnv mainWorld none).isCore "fs" = true
    ∧ resolveSync (posixEnv mainWorld none) (defaultOpts "/nope") 8 4 "fs"
        = .throw (dirError "/nope" false)
    ∧ resolveSync (posixEnv mainWorld none) (defaultOpts "/proj") 8 4 "fs" = .ok "fs" := by
  refine ⟨?_, ?_, ?_, ?_⟩ <;> decide

/-- C5, amended: let `x` be a bare specifier naming a core module, with core modules
included and options that pass validation, and let the canonicalisation of the base
directory (`realpathSync`, unless `preserveSymlinks`) return `start`. If no `basedir` was
supplied or `isDirectory(start)` holds, `resolveSync` returns `x` unchanged, whatever
`isFile`, the manifest reader and the candidate enumeration would do and with no fuel for
the inner functions: none of them is called. If `basedir` was supplied and
`isDirectory(start)` is false, the call throws `INVALID_BASEDIR`. -/
theorem C5_core_module_after_basedir_check (env : Env) (opts : Opts) (fuel depth : Nat)
    (x start : String) (cats : Categories) (conds : List Json)
    (hbare : relativePathRegex x = false)
    (hinc : opts.includeCoreModules = true) (hcore : env.isCore x = true)
    (hres : readResolution env (effectiveResolution env opts) = .ok (cats, conds))
    (hexcl : (opts.hasReadFileSync && opts.hasReadPackageSync) = false)
    (hstart : maybeRealpathSync env opts (env.pathAbs (opts.basedir.getD env.callerDir))
      = .ok start) :
    ((opts.basedir = none ∨ env.isDirectory start = .ok true) →
      ∀ (isFile1 : String → Res Bool) (read1 : String → Res Json)
        (paths1 : String → String → Res (List String)),
        resolveSync (env.withLookups isFile1 read1 paths1) opts fuel depth x = .ok x)
    ∧ (∀ b, opts.basedir = some b → env.isDirectory start = .ok false →
        resolveSync env opts fuel depth x = .throw (dirError b opts.preserveSymlinks)) := by
  constructor
  · intro hok isFile1 read1 paths1
    have hres1 : readResolution (env.withLookups isFile1 read1 paths1)
        (effectiveResolution (env.withLookups isFile1 read1 paths1) opts)
        = .ok (cats, conds) := hres
    have hstart1 : maybeRealpathSync (env.withLookups isFile1 read1 paths1) opts
        ((env.withLookups isFile1 read1 paths1).pathAbs
          (opts.basedir.getD (env.withLookups isFile1 read1 paths1).callerDir))
        = .ok start := hstart
    have hcore1 : (env.withLookups isFile1 read1 paths1).isCore x = true := hcore
    have hdir1 : (env.withLookups isFile1 read1 paths1).isDirectory start
        = env.isDirectory start := rfl
    have hbase : basedirInvalid (env.withLookups isFile1 read1 paths1) opts start
        = .ok false := by
      unfold basedirInvalid
      rcases hok with hb | hd
      · rw [hb]
      · cases hb : opts.basedir
        · rfl
        · simp only [hdir1, hd, Res.bind, Bool.not_true]
    unfold resolveSync
    rw [hres1]
    simp [hexcl, hstart1, hbase, hbare, hinc, hcore1]
  · intro b hb hd
    have hbase : basedirInvalid env opts start = .ok true := by
      unfold basedirInvalid
      simp only [hb, hd, Res.bind, Bool.not_false]
    have hstart2 : maybeRealpathSync env opts (env.pathAbs b) = .ok start := by
      simpa [hb] using hstart
    unfold resolveSync
    rw [hres]
    simp [hexcl, hstart2, hbase, hb]

/-- C5, witness of the amended statement: `fs` with `basedir` `/proj` is returned with no
fuel and with probes that never answer; `fs` with `basedir` `/nope` throws
`INVALID_BASEDIR`. -/
theorem C5_core_module_after_basedir_check_witness :
    resolveSync ((posixEnv mainWorld none).withLookups (fun _ => .overflow)
      (fun _ => .overflow) (fun _ _ => .overflow)) (defaultOpts "/proj") 0 0 "fs" = .ok "fs"
    ∧ resolveSync (posixEnv mainWorld none) (defaultOpts "/nope") 0 0 "fs"
      = .throw (dirError "/nope" false) :=
  ⟨(C5_core_module_after_basedir_check (posixEnv mainWorld none) (defaultOpts "/proj") 0 0
      "fs" "/proj" (.list [some "pre-exports"]) cjsConditions (by decide) (by decide)
      (by decide) (by rfl) (by decide) (by decide)).1 (Or.inr (by decide))
      (fun _ => .overflow) (fun _ => .overflow) (fun _ _ => .overflow),
   (C5_core_module_after_basedir_check (posixEnv mainWorld none) (defaultOpts "/nope") 0 0
      "fs" "/nope" (.list [some "pre-exports"]) cjsConditions (by decide) (by decide)
      (by decide) (by rfl) (by decide) (by decide)).2 "/nope" rfl (by decide)⟩

/-! ### The inner functions do not look at the candidate search -/

theorem loadpkg_withSearch (c : Ctx) (paths1 : String → String → Res (List String))
    (iter1 : Option (String → String → Res (List String) → Res (List String)))
    (fuel : Nat) (dir : String) :
    loadpkg (c.withSearch paths1 iter1) fuel dir = loadpkg c fuel dir := by
  induction fuel generalizing dir with
  | zero => rfl
  | succ n ih =>
    simp only [loadpkg, ih]
    rfl

theorem tryExtensions_withPaths (env : Env) (paths1 : String → String → Res (List String))
    (x : String) (exts : List String) :
    tryExtensions (env.withPaths paths1) x exts = tryExtensions env x exts := by
  induction exts with
  | nil => rfl
  | cons e es ih =>
    simp only [tryExtensions, ih]
    rfl

theorem loadAsFileSync_withSearch (c : Ctx) (paths1 : String → String → Res (List String))
    (iter1 : Option (String → String → Res (List String) → Res (List String)))
    (fuel : Nat) (x : String) :
    loadAsFileSync (c.withSearch paths1 iter1) fuel x = loadAsFileSync c fuel x := by
  have h : ∀ y, tryExtensions (c.withSearch paths1 iter1).env y
      (c.withSearch paths1 iter1).extensions = tryExtensions c.env y c.extensions :=
    fun y => tryExtensions_withPaths c.env paths1 y c.extensions
  simp only [loadAsFileSync, loadpkg_withSearch, h]
  rfl

mutual
theorem resolveExportsItem_withSearch (c : Ctx) (paths1 : String → String → Res (List String))
    (iter1 : Option (String → String → Res (List String) → Res (List String)))
    (fuel : Nat) (pkgDir x : String) :
    ∀ item, resolveExportsItem (c.withSearch paths1 iter1) fuel pkgDir x item
      = resolveExportsItem c fuel pkgDir x item
  | .str s => by
    simp only [resolveExportsItem, loadAsFileSync_withSearch]
    rfl
  | .arr xs => by
    simp only [resolveExportsItem]
    exact resolveExportsArray_withSearch c paths1 iter1 fuel pkgDir x xs
  | .obj kvs => by
    have hk : ∀ key, resolveExportsKey (c.withSearch paths1 iter1) fuel pkgDir x key kvs
        = resolveExportsKey c fuel pkgDir x key kvs :=
      fun key => resolveExportsKey_withSearch c paths1 iter1 fuel pkgDir x key kvs
    simp only [resolveExportsItem, hk,
      resolveExportsFiles_withSearch c paths1 iter1 fuel pkgDir x kvs]
    rfl
  | .null => rfl
  | .bool _ => rfl
  | .num _ => rfl
theorem resolveExportsArray_withSearch (c : Ctx)
    (paths1 : String → String → Res (List String))
    (iter1 : Option (String → String → Res (List String) → Res (List String)))
    (fuel : Nat) (pkgDir x : String) :
    ∀ items, resolveExportsArray (c.withSearch paths1 iter1) fuel pkgDir x items
      = resolveExportsArray c fuel pkgDir x items
  | [] => rfl
  | item :: rest => by
    simp only [resolveExportsArray,
      resolveExportsItem_withSearch c paths1 iter1 fuel pkgDir x item,
      resolveExportsArray_withSearch c paths1 iter1 fuel pkgDir x rest]
theorem resolveExportsKey_withSearch (c : Ctx) (paths1 : String → String → Res (List String))
    (iter1 : Option (String → String → Res (List String) → Res (List String)))
    (fuel : Nat) (pkgDir x key : String) :
    ∀ kvs, resolveExportsKey (c.withSearch paths1 iter1) fuel pkgDir x key kvs
      = resolveExportsKey c fuel pkgDir x key kvs
  | [] => rfl
  | kv :: rest => by
    simp only [resolveExportsKey,
      resolveExportsItem_withSearch c paths1 iter1 fuel pkgDir x kv.2,
      resolveExportsKey_withSearch c paths1 iter1 fuel pkgDir x key rest]
theorem resolveExportsFiles_withSearch (c : Ctx)
    (paths1 : String → String → Res (List String))
    (iter1 : Option (String → String → Res (List String) → Res (List String)))
    (fuel : Nat) (pkgDir x : String) :
    ∀ kvs, resolveExportsFiles (c.withSearch paths1 iter1) fuel pkgDir x kvs
      = resolveExportsFiles c fuel pkgDir x kvs
  | [] => rfl
  | kv :: rest => by
    simp only [resolveExportsFiles,
      resolveExportsItem_withSearch c paths1 iter1 fuel pkgDir x kv.2,
      resolveExportsFiles_withSearch c paths1 iter1 fuel pkgDir x rest]
    rfl
end

theorem loadAsDirectorySync_withSearch (c : Ctx)
    (paths1 : String → String → Res (List String))
    (iter1 : Option (String → String → Res (List String) → Res (List String)))
    (fuel depth : Nat) (x : String) :
    loadAsDirectorySync (c.withSearch paths1 iter1) fuel depth x
      = loadAsDirectorySync c fuel depth x := by
  induction depth generalizing x with
  | zero => rfl
  | succ n ih =>
    have hrec : loadAsDirectorySync (c.withSearch paths1 iter1) fuel n
        = loadAsDirectorySync c fuel n := funext ih
    simp only [loadAsDirectorySync, afterManifest, exportsBlock, exportsTail, mainBlock,
      mainAttempt, hrec, loadAsFileSync_withSearch, resolveExportsItem_withSearch]
    rfl

theorem fileOrDirectory_withSearch (c : Ctx) (paths1 : String → String → Res (List String))
    (iter1 : Option (String → String → Res (List String) → Res (List String)))
    (fuel depth : Nat) (x : String) :
    fileOrDirectory (c.withSearch paths1 iter1) fuel depth x = fileOrDirectory c fuel depth x := by
  simp only [fileOrDirectory, loadAsFileSync_withSearch, loadAsDirectorySync_withSearch]

/-! ### C6 -/

/-- C6, counterexample: both specifiers match `relativePathRegex`. With `basedir` `/b`
valid, `./dir/` is resolved as `/b/dir/`, not as `path.resolve('/b', './dir/')` =
`/b/dir`: the file-or-directory resolution of `/b/dir` finds `/b/dir.js`, the call returns
`/b/dir/index.js`. With `basedir` `/nope`, the resolution of
`path.resolve('/nope', './x')` finds nothing and raises nothing, and the call throws
neither that outcome's `MODULE_NOT_FOUND` nor anything from the resolution but
`INVALID_BASEDIR`, from the check of the base directory. -/
theorem C6_relative_specifier_other_outcomes :
    relativePathRegex "./dir/" = true
    ∧ (posixEnv dirAndFileWorld none).pathResolve "/b" "./dir/" = "/b/dir"
    ∧ fileOrDirectory (mkCtx (posixEnv dirAndFileWorld none) (defaultOpts "/b")
        (.list [some "pre-exports"]) cjsConditions) 8 4 "/b/dir" = .ok (some "/b/dir.js")
    ∧ resolveSync (posixEnv dirAndFileWorld none) (defaultOpts "/b") 8 4 "./dir/"
        = .ok "/b/dir/index.js"
    ∧ relativePathRegex "./x" = true
    ∧ fileOrDirectory (mkCtx (posixEnv mainWorld none) (defaultOpts "/nope")
        (.list [some "pre-exports"]) cjsConditions) 8 4 "/nope/x" = .ok none
    ∧ resolveSync (posixEnv mainWorld none) (defaultOpts "/nope") 8 4 "./x"
        = .throw (dirError "/nope" false)
    ∧ (dirError "/nope" false).code ≠ some "MODULE_NOT_FOUND" := by
  refine ⟨?_, ?_, ?_, ?_, ?_, ?_, ?_, ?_⟩ <;> decide

/-- C6, amended: for a specifier `x` that matches `relativePathRegex`, the outcome of
`resolveSync` is the same for every enumeration of `node_modules` directories and every
`packageIterator` hook, including ones that throw: the candidate search is never run.
Once option validation and the check of the base directory have passed, with `start` the
canonicalised base directory, the outcome is that of
`loadAsFileSync(res) || loadAsDirectorySync(res)` for `res = path.resolve(start, x)`
(plus `/` when `x` is `.`, `..` or ends in `/`): a path found is passed through the final
symlink resolution, an error raised there propagates, and nothing found is
`MODULE_NOT_FOUND`. -/
theorem C6_relative_specifier_skips_search (env : Env) (opts : Opts) (fuel depth : Nat)
    (x : String) (hrel : relativePathRegex x = true) :
    (∀ (paths1 : String → String → Res (List String))
        (iter1 : Option (String → String → Res (List String) → Res (List String))),
        resolveSync (env.withPaths paths1) (opts.withIterator iter1) fuel depth x
          = resolveSync env opts fuel depth x)
    ∧ (∀ (start : String) (cats : Categories) (conds : List Json),
        readResolution env (effectiveResolution env opts) = .ok (cats, conds) →
        (opts.hasReadFileSync && opts.hasReadPackageSync) = false →
        maybeRealpathSync env opts (env.pathAbs (opts.basedir.getD env.callerDir))
          = .ok start →
        (opts.basedir = none ∨ env.isDirectory start = .ok true) →
        resolveSync env opts fuel depth x =
          match fileOrDirectory (mkCtx env opts cats conds) fuel depth
              (relativeTarget env start x) with
          | .ok (some p) =>
            if p != "" then maybeRealpathSync env opts p
            else .throw (moduleNotFound x (opts.filename.getD (opts.basedir.getD env.callerDir)))
          | .ok none =>
            .throw (moduleNotFound x (opts.filename.getD (opts.basedir.getD env.callerDir)))
          | .throw e => .throw e
          | .overflow => .overflow) := by
  constructor
  · intro paths1 iter1
    have hctx : ∀ cats conds, mkCtx (env.withPaths paths1) (opts.withIterator iter1) cats conds
        = (mkCtx env opts cats conds).withSearch paths1 iter1 := fun _ _ => rfl
    have hread : readResolution (env.withPaths paths1)
        (effectiveResolution (env.withPaths paths1) (opts.withIterator iter1))
        = readResolution env (effectiveResolution env opts) := rfl
    simp only [resolveSync, hread, hrel, if_true, relativeBranch, hctx,
      fileOrDirectory_withSearch]
    rfl
  · intro start cats conds hres hexcl hstart hok
    have hbase : basedirInvalid env opts start = .ok false := by
      unfold basedirInvalid
      rcases hok with hb | hd
      · rw [hb]
      · cases hb : opts.basedir
        · rfl
        · simp only [hd, Res.bind, Bool.not_true]
    have htarget : relativeTarget (mkCtx env opts cats conds).env start x
        = relativeTarget env start x := rfl
    unfold resolveSync
    rw [hres]
    simp only [Res.ok_bind, hexcl, Bool.false_eq_true, if_false, hstart, hrel, if_true,
      relativeBranch, hbase, htarget]
    cases hfd : fileOrDirectory (mkCtx env opts cats conds) fuel depth
        (relativeTarget env start x) with
    | ok m => cases m <;> rfl
    | throw e => rfl
    | overflow => rfl

/-- C6, witness of the amended statement: `./proj` from `/` in `mainWorld`, with
`category` bound to `'pre-exports'`. The outcome is the same with a candidate enumeration
and an iterator hook that never answer, and it is the file that the file-or-directory
resolution of `/proj` finds. -/
theorem C6_relative_specifier_skips_search_witness :
    relativePathRegex "./proj" = true
    ∧ resolveSync ((posixEnv mainWorld (some "pre-exports")).withPaths (fun _ _ => .overflow))
        ((defaultOpts "/").withIterator (some (fun _ _ _ => .overflow))) 8 4 "./proj"
      = resolveSync (posixEnv mainWorld (some "pre-exports")) (defaultOpts "/") 8 4 "./proj"
    ∧ resolveSync (posixEnv mainWorld (some "pre-exports")) (defaultOpts "/") 8 4 "./proj"
      = .ok "/proj/lib/x.js" :=
  ⟨by decide,
   (C6_relative_specifier_skips_search (posixEnv mainWorld (some "pre-exports"))
    (defaultOpts "/") 8 4 "./proj" (by decide)).1 (fun _ _ => .overflow)
    (some (fun _ _ _ => .overflow)),
   ((C6_relative_specifier_skips_search (posixEnv mainWorld (some "pre-exports"))
    (defaultOpts "/") 8 4 "./proj" (by decide)).2 "/" (.list [some "pre-exports"])
    cjsConditions rfl (by decide) (by decide) (Or.inr (by decide))).trans (by decide)⟩

/-! ### C7 -/

/-- One step of the loop of `loadNodeModulesSync`. -/
theorem candidatesLoop_cons (c : Ctx) (fuel depth : Nat) (dir : String) (rest : List String) :
    candidatesLoop c fuel depth (dir :: rest)
      = (c.env.isDirectory (c.env.pathDirname dir)).bind (fun parentIsDir =>
          if parentIsDir then
            (fileOrDirectory c fuel depth dir).bind (fun r =>
              if truthyS r then .ok r else candidatesLoop c fuel depth rest)
          else candidatesLoop c fuel depth rest) := by
  simp only [candidatesLoop, fileOrDirectory, bind, pure]
  cases c.env.isDirectory (c.env.pathDirname dir) with
  | ok b =>
    cases b
    · rfl
    · simp only [Res.bind, if_true]
      cases hm : loadAsFileSync c fuel dir with
      | ok m =>
        by_cases ht : truthyS m = true
        · simp only [if_true, ht, Res.bind]
        · simp only [ht, if_false]
          cases loadAsDirectorySync c fuel depth dir <;> rfl
      | throw e => rfl
      | overflow => rfl
  | throw e => rfl
  | overflow => rfl

/-- The loop skips a prefix of candidates that come back empty. -/
theorem candidatesLoop_skip (c : Ctx) (fuel depth : Nat) (pre rest : List String)
    (hpre : ∀ d ∈ pre, candidateEmpty c fuel depth d = true) :
    candidatesLoop c fuel depth (pre ++ rest) = candidatesLoop c fuel depth rest := by
  induction pre with
  | nil => rfl
  | cons d ds ih =>
    have hd : candidateEmpty c fuel depth d = true := hpre d (List.mem_cons_self d ds)
    have hds : ∀ d1 ∈ ds, candidateEmpty c fuel depth d1 = true :=
      fun d1 h1 => hpre d1 (List.mem_cons_of_mem d h1)
    rw [List.cons_append, candidatesLoop_cons, ih hds]
    unfold candidateEmpty at hd
    cases hp : c.env.isDirectory (c.env.pathDirname d) with
    | ok b =>
      rw [hp] at hd
      cases b
      · rfl
      · simp only [Res.bind, if_true]
        cases hf : fileOrDirectory c fuel depth d with
        | ok m =>
          rw [hf] at hd
          have hm : truthyS m = false := by simpa using hd
          simp only [hm, Bool.false_eq_true, if_false]
        | throw e => rw [hf] at hd; simp at hd
        | overflow => rw [hf] at hd; simp at hd
    | throw e => rw [hp] at hd; simp at hd
    | overflow => rw [hp] at hd; simp at hd

/-- C7, counterexample: from `/a/b` the candidates for `pkg` are, in order,
`/a/b/node_modules/pkg`, `/a/node_modules/pkg`, `/node_modules/pkg`. The first does not
resolve (its manifest names a `main` that does not exist) and the second resolves to its
`index.js`, so the earliest candidate that resolves is the second. The search does not
return it: the error raised for the first candidate ends the search. It is the
`ReferenceError` of the unbound `category`, and `INCORRECT_PACKAGE_MAIN` when that
identifier is bound to `'pre-exports'`. -/
theorem C7_error_in_nearer_candidate_ends_search :
    candidateDirs (mkCtx (posixEnv shadowWorld none) (defaultOpts "/a/b")
        (.list [some "pre-exports"]) cjsConditions) "pkg" "/a/b"
      = .ok ["/a/b/node_modules/pkg", "/a/node_modules/pkg", "/node_modules/pkg"]
    ∧ fileOrDirectory (mkCtx (posixEnv shadowWorld none) (defaultOpts "/a/b")
        (.list [some "pre-exports"]) cjsConditions) 8 4 "/a/node_modules/pkg"
      = .ok (some "/a/node_modules/pkg/index.js")
    ∧ loadNodeModulesSync (mkCtx (posixEnv shadowWorld none) (defaultOpts "/a/b")
        (.list [some "pre-exports"]) cjsConditions) 8 4 "pkg" "/a/b"
      = .throw categoryNotDefined
    ∧ fileOrDirectory (mkCtx (posixEnv shadowWorld (some "pre-exports")) (defaultOpts "/a/b")
        (.list [some "pre-exports"]) cjsConditions) 8 4 "/a/node_modules/pkg"
      = .ok (some "/a/node_modules/pkg/index.js")
    ∧ loadNodeModulesSync (mkCtx (posixEnv shadowWorld (some "pre-exports"))
        (defaultOpts "/a/b") (.list [some "pre-exports"]) cjsConditions) 8 4 "pkg" "/a/b"
      = .throw (incorrectMainError "/a/b/node_modules/pkg/nope") := by
  refine ⟨?_, ?_, ?_, ?_, ?_⟩ <;> decide

/-- C7, amended: `loadNodeModulesSync` examines the candidates in sequence order. A
candidate is passed over when its parent is not a directory or when it resolves neither
as a file nor as a directory. For the first candidate `dir` not preceded by anything but
passed-over candidates and whose parent is a directory: a path it resolves to (as a file,
else as a directory) is the result, so the nearer of two candidates that both resolve
wins; an error raised while resolving it is the outcome of the search. When every
candidate is passed over the result is nothing, without an error. -/
theorem C7_first_resolving_candidate_wins (c : Ctx) (fuel depth : Nat) (x start : String)
    (dirs : List String) (hdirs : candidateDirs c x start = .ok dirs) :
    (∀ (pre post : List String) (dir : String), dirs = pre ++ dir :: post →
      (∀ d ∈ pre, candidateEmpty c fuel depth d = true) →
      c.env.isDirectory (c.env.pathDirname dir) = .ok true →
      (∀ m, fileOrDirectory c fuel depth dir = .ok (some m) → m ≠ "" →
        loadNodeModulesSync c fuel depth x start = .ok (some m))
      ∧ (∀ e, fileOrDirectory c fuel depth dir = .throw e →
        loadNodeModulesSync c fuel depth x start = .throw e))
    ∧ ((∀ d ∈ dirs, candidateEmpty c fuel depth d = true) →
      loadNodeModulesSync c fuel depth x start = .ok none) := by
  have hrun : loadNodeModulesSync c fuel depth x start = candidatesLoop c fuel depth dirs := by
    simp only [loadNodeModulesSync, hdirs, Res.ok_bind]
  constructor
  · intro pre post dir hsplit hpre hparent
    rw [hrun, hsplit, candidatesLoop_skip c fuel depth pre (dir :: post) hpre,
      candidatesLoop_cons, hparent]
    constructor
    · intro m hm hne
      have ht : truthyS (some m) = true := by simpa [truthyS] using hne
      simp only [Res.bind, if_true, hm, ht]
    · intro e he
      simp only [Res.bind, if_true, he]
  · intro hall
    have h := candidatesLoop_skip c fuel depth dirs [] hall
    rw [List.append_nil] at h
    rw [hrun, h]
    rfl

/-- C7, witness: with a copy of `pkg` under `/a/b/node_modules` and another under
`/a/node_modules`, the search from `/a/b` returns the nearer one; in `shadowWorld` with
`category` bound to `'pre-exports'` the error of the nearer copy is the outcome; and a
package that exists nowhere gives nothing. -/
theorem C7_first_resolving_candidate_wins_witness :
    fileOrDirectory (mkCtx (posixEnv twoCopiesWorld none) (defaultOpts "/a/b")
        (.list [some "pre-exports"]) cjsConditions) 8 4 "/a/node_modules/pkg"
      = .ok (some "/a/node_modules/pkg/index.js")
    ∧ loadNodeModulesSync (mkCtx (posixEnv twoCopiesWorld none) (defaultOpts "/a/b")
        (.list [some "pre-exports"]) cjsConditions) 8 4 "pkg" "/a/b"
      = .ok (some "/a/b/node_modules/pkg/index.js")
    ∧ loadNodeModulesSync (mkCtx (posixEnv shadowWorld (some "pre-exports"))
        (defaultOpts "/a/b") (.list [some "pre-exports"]) cjsConditions) 8 4 "pkg" "/a/b"
      = .throw (incorrectMainError "/a/b/node_modules/pkg/nope")
    ∧ loadNodeModulesSync (mkCtx (posixEnv twoCopiesWorld none) (defaultOpts "/a/b")
        (.list [some "pre-exports"]) cjsConditions) 8 4 "other" "/a/b"
      = .ok none :=
  ⟨by decide,
   ((C7_first_resolving_candidate_wins (mkCtx (posixEnv twoCopiesWorld none)
      (defaultOpts "/a/b") (.list [some "pre-exports"]) cjsConditions) 8 4 "pkg" "/a/b"
      ["/a/b/node_modules/pkg", "/a/node_modules/pkg", "/node_modules/pkg"] (by decide)).1
      [] ["/a/node_modules/pkg", "/node_modules/pkg"] "/a/b/node_modules/pkg" rfl
      (fun _ h => absurd h (List.not_mem_nil _)) (by decide)).1
      "/a/b/node_modules/pkg/index.js" (by decide) (by decide),
   ((C7_first_resolving_candidate_wins (mkCtx (posixEnv shadowWorld (some "pre-exports"))
      (defaultOpts "/a/b") (.list [some "pre-exports"]) cjsConditions) 8 4 "pkg" "/a/b"
      ["/a/b/node_modules/pkg", "/a/node_modules/pkg", "/node_modules/pkg"] (by decide)).1
      [] ["/a/node_modules/pkg", "/node_modules/pkg"] "/a/b/node_modules/pkg" rfl
      (fun _ h => absurd h (List.not_mem_nil _)) (by decide)).2
      (incorrectMainError "/a/b/node_modules/pkg/nope") (by decide),
   (C7_first_resolving_candidate_wins (mkCtx (posixEnv twoCopiesWorld none)
      (defaultOpts "/a/b") (.list [some "pre-exports"]) cjsConditions) 8 4 "other" "/a/b"
      ["/a/b/node_modules/other", "/a/node_modules/other", "/node_modules/other"]
      (by decide)).2 (by decide)⟩

/-! ### C8 -/

/-- C8: with a valid configuration (the `resolution` block and the hook check pass, the
base directory canonicalises to `start` and passes its check), if the branch selected for
`x` comes back with no file (the relative branch, or the candidate search for a bare
specifier that is not an included core module), `resolveSync` returns nothing and throws
an error with code `MODULE_NOT_FOUND` whose message quotes `x` and the parent
`opts.filename || basedir`. -/
theorem C8_no_file_raises_module_not_found (env : Env) (opts : Opts) (fuel depth : Nat)
    (x start : String) (cats : Categories) (conds : List Json) (m : Option String)
    (hres : readResolution env (effectiveResolution env opts) = .ok (cats, conds))
    (hexcl : (opts.hasReadFileSync && opts.hasReadPackageSync) = false)
    (hstart : maybeRealpathSync env opts (env.pathAbs (opts.basedir.getD env.callerDir))
      = .ok start)
    (hok : opts.basedir = none ∨ env.isDirectory start = .ok true)
    (hbranch :
      (relativePathRegex x = true
        ∧ relativeBranch (mkCtx env opts cats conds) fuel depth start x = .ok m)
      ∨ (relativePathRegex x = false
        ∧ (opts.includeCoreModules && env.isCore x) = false
        ∧ loadNodeModulesSync (mkCtx env opts cats conds) fuel depth x start = .ok m))
    (hm : truthyS m = false) :
    resolveSync env opts fuel depth x
      = .throw { name := "Error", code := some "MODULE_NOT_FOUND",
                 message := "Cannot find module '" ++ x ++ "' from '"
                   ++ opts.filename.getD (opts.basedir.getD env.callerDir) ++ "'" } := by
  have hbase : basedirInvalid env opts start = .ok false := by
    unfold basedirInvalid
    rcases hok with hb | hd
    · rw [hb]
    · cases hb : opts.basedir
      · rfl
      · simp only [hd, Res.bind, Bool.not_true]
  have hfin : finish env opts x (opts.filename.getD (opts.basedir.getD env.callerDir)) m
      = .throw (moduleNotFound x (opts.filename.getD (opts.basedir.getD env.callerDir))) := by
    cases m with
    | none => rfl
    | some p =>
      have hp : (p != "") = false := hm
      simp [finish, hp]
  unfold resolveSync
  rw [hres]
  simp only [Res.ok_bind, hexcl, Bool.false_eq_true, if_false, hstart, hbase]
  rcases hbranch with ⟨hrel, hb⟩ | ⟨hrel, hcore, hb⟩
  · simp only [hrel, if_true, hb, Res.ok_bind, hfin]
    rfl
  · simp only [hrel, Bool.false_eq_true, if_false, hcore, hb, Res.ok_bind, hfin]
    rfl

/-- C8, witness: the bare specifier `pkg/c` from `/app` in `exportsWorld`. -/
theorem C8_no_file_raises_module_not_found_witness :
    loadNodeModulesSync (mkCtx (posixEnv exportsWorld none) (defaultOpts "/app")
        (.list [some "pre-exports"]) cjsConditions) 8 4 "pkg/c" "/app" = .ok none
    ∧ resolveSync (posixEnv exportsWorld none) (defaultOpts "/app") 8 4 "pkg/c"
      = .throw { name := "Error", code := some "MODULE_NOT_FOUND",
                 message := "Cannot find module 'pkg/c' from '/app'" } :=
  ⟨by decide, C8_no_file_raises_module_not_found (posixEnv exportsWorld none)
    (defaultOpts "/app") 8 4 "pkg/c" "/app" (.list [some "pre-exports"]) cjsConditions none
    (by rfl) (by decide) (by decide) (Or.inr (by decide))
    (Or.inr ⟨by decide, by decide, by decide⟩) (by decide)⟩

/-! ### The legacy entry-point step -/

theorem tryExtensions_absent (env : Env) (x : String) (exts : List String)
    (h : ∀ e ∈ exts, env.isFile (x ++ e) = .ok false) :
    tryExtensions env x exts = .ok none := by
  induction exts with
  | nil => rfl
  | cons e es ih =>
    have he : env.isFile (x ++ e) = .ok false := h e (List.mem_cons_self e es)
    have hes : ∀ e1 ∈ es, env.isFile (x ++ e1) = .ok false :=
      fun e1 h1 => h e1 (List.mem_cons_of_mem e h1)
    simp only [tryExtensions, he, Res.ok_bind, Bool.false_eq_true, if_false, ih hes]

theorem applyPathFilter_none (c : Ctx) (info : Option PkgInfo) (x : String)
    (hpf : c.opts.pathFilter = none) : applyPathFilter c info x = .ok x := by
  unfold applyPathFilter
  rw [hpf]
  cases info <;> rfl

/-- Without a `pathFilter` hook, `loadAsFileSync(x)` finds nothing when neither `x` nor `x`
plus an extension is a file; what is left of it is the manifest lookup of `loadpkg`. -/
theorem loadAsFileSync_absent (c : Ctx) (fuel : Nat) (x : String)
    (hpf : c.opts.pathFilter = none) (hx : c.env.isFile x = .ok false)
    (hext : ∀ e ∈ c.extensions, c.env.isFile (x ++ e) = .ok false) :
    loadAsFileSync c fuel x
      = (loadpkg c fuel (c.env.pathDirname x)).bind (fun _ => .ok none) := by
  unfold loadAsFileSync
  cases loadpkg c fuel (c.env.pathDirname x) with
  | ok info =>
    simp only [Res.ok_bind, applyPathFilter_none c info x hpf, hx, Bool.false_eq_true,
      if_false, tryExtensions_absent c.env x c.extensions hext, Res.bind]
  | throw e => rfl
  | overflow => rfl

theorem Json.truthy_of_get (j : Json) (k : String) (v : Json) (h : j.get k = some v) :
    j.truthy = true := by
  cases j <;> simp [Json.get] at h
  rfl

/-- When `x/package.json` is read as `j`, no `packageFilter` hook is set, the exports
condition is false and `j.main` is truthy, `loadAsDirectorySync(x)` is what the block
`if (pkg && pkg.main) { ... }` does. -/
theorem loadAsDirectorySync_main (c : Ctx) (fuel depth : Nat) (x pkgDir : String)
    (isDir : Bool) (j main : Json)
    (hfilter : c.opts.packageFilter = none)
    (hdir : c.env.isDirectory x = .ok isDir)
    (hpkgDir : (if isDir then maybeRealpathSync c.env c.opts x else .ok x) = .ok pkgDir)
    (hfile : c.env.isFile (c.env.pathJoin pkgDir "/package.json") = .ok true)
    (hread : c.env.readPackageSync (c.env.pathJoin pkgDir "/package.json") = .ok j)
    (hgate : exportsGate c.env (some j) = .ok none)
    (hmain : j.get "main" = some main) (htruthy : main.truthy = true) :
    loadAsDirectorySync c fuel (depth + 1) x
      = mainBlock c fuel (loadAsDirectorySync c fuel depth) x j main := by
  have hf := applyPackageFilter_none c.opts (some j) (c.env.pathJoin pkgDir "/package.json") x
    hfilter
  have hj : j.truthy = true := Json.truthy_of_get j "main" main hmain
  have hr : readOrUndefined c.env (c.env.pathJoin pkgDir "/package.json") = .ok (some j) := by
    simp only [readOrUndefined, hread, Res.bind, Res.catchAll]
  cases isDir <;>
    simp_all [loadAsDirectorySync, afterManifest, bind, Res.bind, pure]

/-- When `x/package.json` is not a file, `loadAsDirectorySync(x)` is
`loadAsFileSync(path.join(x, '/index'))`. -/
theorem loadAsDirectorySync_no_manifest (c : Ctx) (fuel depth : Nat) (x pkgDir : String)
    (isDir : Bool)
    (hdir : c.env.isDirectory x = .ok isDir)
    (hpkgDir : (if isDir then maybeRealpathSync c.env c.opts x else .ok x) = .ok pkgDir)
    (hfile : c.env.isFile (c.env.pathJoin pkgDir "/package.json") = .ok false) :
    loadAsDirectorySync c fuel (depth + 1) x
      = loadAsFileSync c fuel (c.env.pathJoin x "/index") := by
  cases isDir <;>
    simp_all [loadAsDirectorySync, bind, Res.bind, pure]

/-! ### C9 -/

/-- C9, counterexample: `/pkg/package.json` is `{"main": "nope"}`; none of `/pkg/nope`,
`/pkg/nope.js`, `/pkg/nope/index.js` exists, but `/pkg/index.js` does. Resolving `/pkg`
does not raise `INCORRECT_PACKAGE_MAIN`: with `category` bound to `'pre-exports'` the
`main` step falls back to the index file and returns `/pkg/index.js`, and in a process
where `category` is unbound the call throws the `ReferenceError`. -/
theorem C9_index_fallback_hides_bad_main :
    (posixEnv (mainValueWorld (.str "nope") ["/pkg/index.js"]) none).isFile "/pkg/nope"
      = .ok false
    ∧ (posixEnv (mainValueWorld (.str "nope") ["/pkg/index.js"]) none).isFile "/pkg/nope.js"
      = .ok false
    ∧ (posixEnv (mainValueWorld (.str "nope") ["/pkg/index.js"]) none).isFile
        "/pkg/nope/index.js" = .ok false
    ∧ resolveSync (posixEnv (mainValueWorld (.str "nope") ["/pkg/index.js"])
        (some "pre-exports")) (defaultOpts "/") 8 4 "./pkg" = .ok "/pkg/index.js"
    ∧ resolveSync (posixEnv (mainValueWorld (.str "nope") ["/pkg/index.js"]) none)
        (defaultOpts "/") 8 4 "./pkg" = .throw categoryNotDefined := by
  refine ⟨?_, ?_, ?_, ?_, ?_⟩ <;> decide

/-- C9, amended: let `d/package.json` parse to a manifest whose `main` is a non-empty
string `m`, with no filter hooks, and let the exports condition be false when
`loadAsDirectorySync(d)` evaluates it (the identifier `category` is bound, to
`'pre-exports'` or with a manifest that has no `exports`). Write `p` for
`path.resolve(d, m)`, with `index` for a `main` of `.` or `./`. If none of `p`, `p` plus
a configured extension, `p/index`, `p/index` plus a configured extension, `index` under
`d` and `index` under `d` plus a configured extension is a file, `p` holds no
`package.json`, and the manifest lookups made on the way terminate, then
`loadAsDirectorySync(d)` throws an error with code `INCORRECT_PACKAGE_MAIN` that names
`p`. -/
theorem C9_unresolvable_main_raises_incorrect_main (c : Ctx) (fuel depth : Nat)
    (d pkgDir mainDir : String) (isDir isMainDir : Bool) (j : Json) (m : String)
    (hpf : c.opts.pathFilter = none) (hfilter : c.opts.packageFilter = none)
    (hdir : c.env.isDirectory d = .ok isDir)
    (hpkgDir : (if isDir then maybeRealpathSync c.env c.opts d else .ok d) = .ok pkgDir)
    (hfile : c.env.isFile (c.env.pathJoin pkgDir "/package.json") = .ok true)
    (hread : c.env.readPackageSync (c.env.pathJoin pkgDir "/package.json") = .ok j)
    (hgate : exportsGate c.env (some j) = .ok none)
    (hmain : j.get "main" = some (.str m)) (hne : m ≠ "")
    (hp : c.env.isFile (c.env.pathResolve d (normalizedMain m)) = .ok false)
    (hpe : ∀ e ∈ c.extensions,
      c.env.isFile (c.env.pathResolve d (normalizedMain m) ++ e) = .ok false)
    (hmdir : c.env.isDirectory (c.env.pathResolve d (normalizedMain m)) = .ok isMainDir)
    (hmainDir : (if isMainDir then
        maybeRealpathSync c.env c.opts (c.env.pathResolve d (normalizedMain m))
      else .ok (c.env.pathResolve d (normalizedMain m))) = .ok mainDir)
    (hmpkg : c.env.isFile (c.env.pathJoin mainDir "/package.json") = .ok false)
    (hpi : c.env.isFile (c.env.pathJoin (c.env.pathResolve d (normalizedMain m)) "/index")
      = .ok false)
    (hpie : ∀ e ∈ c.extensions,
      c.env.isFile (c.env.pathJoin (c.env.pathResolve d (normalizedMain m)) "/index" ++ e)
        = .ok false)
    (hdi : c.env.isFile (c.env.pathResolve d "index") = .ok false)
    (hdie : ∀ e ∈ c.extensions, c.env.isFile (c.env.pathResolve d "index" ++ e) = .ok false)
    (hw1 : (loadpkg c fuel
      (c.env.pathDirname (c.env.pathResolve d (normalizedMain m)))).overflows = false)
    (hw2 : (loadpkg c fuel (c.env.pathDirname
      (c.env.pathJoin (c.env.pathResolve d (normalizedMain m)) "/index"))).overflows = false)
    (hw3 : (loadpkg c fuel (c.env.pathDirname (c.env.pathResolve d "index"))).overflows
      = false) :
    loadAsDirectorySync c fuel (depth + 2) d
        = .throw (incorrectMainError (c.env.pathResolve d (normalizedMain m)))
    ∧ (incorrectMainError (c.env.pathResolve d (normalizedMain m))).code
        = some "INCORRECT_PACKAGE_MAIN" := by
  refine ⟨?_, rfl⟩
  have htruthy : (Json.str m).truthy = true := by
    simpa [Json.truthy] using hne
  rw [loadAsDirectorySync_main c fuel (depth + 1) d pkgDir isDir j (.str m) hfilter hdir
    hpkgDir hfile hread hgate hmain htruthy]
  have hA := loadAsFileSync_absent c fuel (c.env.pathResolve d (normalizedMain m)) hpf hp hpe
  have hB := loadAsDirectorySync_no_manifest c fuel depth
    (c.env.pathResolve d (normalizedMain m)) mainDir isMainDir hmdir hmainDir hmpkg
  have hC := loadAsFileSync_absent c fuel
    (c.env.pathJoin (c.env.pathResolve d (normalizedMain m)) "/index") hpf hpi hpie
  have hD := loadAsFileSync_absent c fuel (c.env.pathResolve d "index") hpf hdi hdie
  have hattempt : mainAttempt c fuel (loadAsDirectorySync c fuel (depth + 1)) d
      (normalizedMain m) = .ok none
      ∨ ∃ e, mainAttempt c fuel (loadAsDirectorySync c fuel (depth + 1)) d
        (normalizedMain m) = .throw e := by
    simp only [mainAttempt, hA, hB, hC, hD]
    cases h1 : loadpkg c fuel (c.env.pathDirname (c.env.pathResolve d (normalizedMain m))) with
    | overflow => rw [h1] at hw1; exact absurd hw1 (by decide)
    | throw e => exact Or.inr ⟨e, rfl⟩
    | ok i1 =>
      cases h2 : loadpkg c fuel (c.env.pathDirname
          (c.env.pathJoin (c.env.pathResolve d (normalizedMain m)) "/index")) with
      | overflow => rw [h2] at hw2; exact absurd hw2 (by decide)
      | throw e => exact Or.inr ⟨e, by simp [bind, Res.bind, truthyS]⟩
      | ok i2 =>
        cases h3 : loadpkg c fuel (c.env.pathDirname (c.env.pathResolve d "index")) with
        | overflow => rw [h3] at hw3; exact absurd hw3 (by decide)
        | throw e => exact Or.inr ⟨e, by simp [bind, Res.bind, truthyS]⟩
        | ok i3 => exact Or.inl (by simp [bind, Res.bind, truthyS])
  unfold mainBlock
  rcases hattempt with h | ⟨e, h⟩ <;> simp only [h]

/-- C9, witness of the amended statement: `/pkg/package.json` = `{"main": "nope"}` and no
other file, with `category` bound to `'pre-exports'`. -/
theorem C9_unresolvable_main_raises_incorrect_main_witness :
    loadAsDirectorySync (mkCtx (posixEnv (mainValueWorld (.str "nope") [])
        (some "pre-exports")) (defaultOpts "/") (.list [some "pre-exports"]) cjsConditions)
        8 2 "/pkg" = .throw (incorrectMainError "/pkg/nope")
    ∧ (incorrectMainError "/pkg/nope").code = some "INCORRECT_PACKAGE_MAIN" :=
  C9_unresolvable_main_raises_incorrect_main (mkCtx (posixEnv (mainValueWorld (.str "nope") [])
      (some "pre-exports")) (defaultOpts "/") (.list [some "pre-exports"]) cjsConditions)
    8 0 "/pkg" "/pkg" "/pkg/nope" true false (.obj [("main", .str "nope")]) "nope"
    rfl rfl (by decide) (by decide) (by decide) rfl rfl rfl (by decide) (by decide)
    (by decide) (by decide) (by decide) (by decide) (by decide) (by decide) (by decide)
    (by decide) rfl rfl rfl

/-! ### C10 -/

/-- When `x/package.json` is read as `j`, no `packageFilter` hook is set, the exports
condition is false and `j.main` is falsy, `loadAsDirectorySync(x)` skips the `main` block and
is `loadAsFileSync(path.join(x, '/index'))`. -/
theorem loadAsDirectorySync_falsy_main (c : Ctx) (fuel depth : Nat) (x pkgDir : String)
    (isDir : Bool) (j main : Json)
    (hfilter : c.opts.packageFilter = none)
    (hdir : c.env.isDirectory x = .ok isDir)
    (hpkgDir : (if isDir then maybeRealpathSync c.env c.opts x else .ok x) = .ok pkgDir)
    (hfile : c.env.isFile (c.env.pathJoin pkgDir "/package.json") = .ok true)
    (hread : c.env.readPackageSync (c.env.pathJoin pkgDir "/package.json") = .ok j)
    (hgate : exportsGate c.env (some j) = .ok none)
    (hmain : j.get "main" = some main) (hfalsy : main.truthy = false) :
    loadAsDirectorySync c fuel (depth + 1) x
      = loadAsFileSync c fuel (c.env.pathJoin x "/index") := by
  have hf := applyPackageFilter_none c.opts (some j) (c.env.pathJoin pkgDir "/package.json") x
    hfilter
  have hr : readOrUndefined c.env (c.env.pathJoin pkgDir "/package.json") = .ok (some j) := by
    simp only [readOrUndefined, hread, Res.bind, Res.catchAll]
  cases isDir <;>
    simp_all [loadAsDirectorySync, afterManifest, bind, Res.bind, pure]

/-- C10, counterexample: with `/pkg/package.json` = `{"main": null}`, `{"main": false}`,
`{"main": 0}` or `{"main": ""}` and a file `/pkg/index.js`, resolving `/pkg` through the
`main` step (`category` bound to `'pre-exports'`) raises no `INVALID_PACKAGE_MAIN`: the test
`pkg && pkg.main` is false for these values and the call returns `/pkg/index.js`. In a
process where `category` is unbound the call throws the `ReferenceError` instead. And for
`{"name": {"toString": 1}, "main": 7}` the message of the error cannot be built: the call
throws a `TypeError` without a code. -/
theorem C10_falsy_main_is_not_rejected :
    resolveSync (posixEnv (mainValueWorld .null ["/pkg/index.js"]) (some "pre-exports"))
        (defaultOpts "/") 8 4 "./pkg" = .ok "/pkg/index.js"
    ∧ resolveSync (posixEnv (mainValueWorld (.bool false) ["/pkg/index.js"])
        (some "pre-exports")) (defaultOpts "/") 8 4 "./pkg" = .ok "/pkg/index.js"
    ∧ resolveSync (posixEnv (mainValueWorld (.num "0") ["/pkg/index.js"])
        (some "pre-exports")) (defaultOpts "/") 8 4 "./pkg" = .ok "/pkg/index.js"
    ∧ resolveSync (posixEnv (mainValueWorld (.str "") ["/pkg/index.js"])
        (some "pre-exports")) (defaultOpts "/") 8 4 "./pkg" = .ok "/pkg/index.js"
    ∧ resolveSync (posixEnv (mainValueWorld .null ["/pkg/index.js"]) none)
        (defaultOpts "/") 8 4 "./pkg" = .throw categoryNotDefined
    ∧ resolveSync (posixEnv (namedMainWorld (.obj [("toString", .num "1")]) (.num "7")
        ["/pkg/index.js"]) (some "pre-exports")) (defaultOpts "/") 8 4 "./pkg"
      = .throw cannotConvert
    ∧ cannotConvert.code = none := by
  refine ⟨?_, ?_, ?_, ?_, ?_, ?_, ?_⟩ <;> decide

/-- C10, amended: let `d/package.json` parse to a manifest `j` that declares `main`, with no
`packageFilter` hook, and let the exports condition be false when `loadAsDirectorySync(d)`
evaluates it, so that the `main` step is reached. If `main` is truthy and not a string (a
non-zero number, `true`, an array, an object) and `j.name` converts to the string `name`,
the call throws the error `mainError`, whose code is `INVALID_PACKAGE_MAIN`. If `main` is
falsy (`null`, `false`, `0`, the empty string) it is treated as no `main` at all: the call
is `loadAsFileSync(path.join(d, '/index'))`. -/
theorem C10_truthy_non_string_main_raises_invalid_main (c : Ctx) (fuel depth : Nat)
    (d pkgDir : String) (isDir : Bool) (j main : Json)
    (hfilter : c.opts.packageFilter = none)
    (hdir : c.env.isDirectory d = .ok isDir)
    (hpkgDir : (if isDir then maybeRealpathSync c.env c.opts d else .ok d) = .ok pkgDir)
    (hfile : c.env.isFile (c.env.pathJoin pkgDir "/package.json") = .ok true)
    (hread : c.env.readPackageSync (c.env.pathJoin pkgDir "/package.json") = .ok j)
    (hgate : exportsGate c.env (some j) = .ok none)
    (hmain : j.get "main" = some main) :
    (main.truthy = true → main.isStr = false →
      ∀ name, jsString (j.get "name") = .ok name →
        loadAsDirectorySync c fuel (depth + 1) d = .throw (mainError name)
        ∧ (mainError name).code = some "INVALID_PACKAGE_MAIN")
    ∧ (main.truthy = false →
        loadAsDirectorySync c fuel (depth + 1) d
          = loadAsFileSync c fuel (c.env.pathJoin d "/index")) := by
  constructor
  · intro htruthy hnotStr name hname
    refine ⟨?_, rfl⟩
    rw [loadAsDirectorySync_main c fuel depth d pkgDir isDir j main hfilter hdir hpkgDir hfile
      hread hgate hmain htruthy]
    cases main <;> first
      | (simp only [mainBlock, hname]; rfl)
      | (simp [Json.isStr] at hnotStr)
  · intro hfalsy
    exact loadAsDirectorySync_falsy_main c fuel depth d pkgDir isDir j main hfilter hdir
      hpkgDir hfile hread hgate hmain hfalsy

/-- C10, witness of the amended statement, with `category` bound to `'pre-exports'`:
`/pkg/package.json` = `{"main": 7}` gives `INVALID_PACKAGE_MAIN`, and
`/pkg/package.json` = `{"main": ""}` with a file `/pkg/index.js` gives that file. -/
theorem C10_truthy_non_string_main_raises_invalid_main_witness :
    (loadAsDirectorySync (mkCtx (posixEnv (mainValueWorld (.num "7") ["/pkg/index.js"])
        (some "pre-exports")) (defaultOpts "/") (.list [some "pre-exports"]) cjsConditions)
        8 1 "/pkg" = .throw (mainError "undefined")
      ∧ (mainError "undefined").code = some "INVALID_PACKAGE_MAIN")
    ∧ loadAsDirectorySync (mkCtx (posixEnv (mainValueWorld (.str "") ["/pkg/index.js"])
        (some "pre-exports")) (defaultOpts "/") (.list [some "pre-exports"]) cjsConditions)
        8 1 "/pkg" = .ok (some "/pkg/index.js") :=
  ⟨(C10_truthy_non_string_main_raises_invalid_main (mkCtx (posixEnv
      (mainValueWorld (.num "7") ["/pkg/index.js"]) (some "pre-exports")) (defaultOpts "/")
      (.list [some "pre-exports"]) cjsConditions)
      8 0 "/pkg" "/pkg" true (.obj [("main", .num "7")]) (.num "7")
      rfl (by decide) (by decide) (by decide) rfl rfl rfl).1 (by decide) (by decide)
      "undefined" rfl,
   ((C10_truthy_non_string_main_raises_invalid_main (mkCtx (posixEnv
      (mainValueWorld (.str "") ["/pkg/index.js"]) (some "pre-exports")) (defaultOpts "/")
      (.list [some "pre-exports"]) cjsConditions)
      8 0 "/pkg" "/pkg" true (.obj [("main", .str "")]) (.str "")
      rfl (by decide) (by decide) (by decide) rfl rfl rfl).2 (by decide)).trans (by decide)⟩

/-! ### What the `main` step and the `pre-exports` category do once `category` is bound -/

/-- The statement of C1 for a process in which the exports condition can be evaluated and
is false: when `d/package.json` parses to a manifest with a non-empty string `main`, no
filter hook is set, `path.resolve(d, main)` is a file and the manifest lookup for it
returns, `loadAsDirectorySync(d)` returns that file. -/
theorem loadAsDirectorySync_main_file (c : Ctx) (fuel depth : Nat) (d pkgDir : String)
    (isDir : Bool) (j : Json) (m : String) (info : Option PkgInfo)
    (hpf : c.opts.pathFilter = none) (hfilter : c.opts.packageFilter = none)
    (hdir : c.env.isDirectory d = .ok isDir)
    (hpkgDir : (if isDir then maybeRealpathSync c.env c.opts d else .ok d) = .ok pkgDir)
    (hfile : c.env.isFile (c.env.pathJoin pkgDir "/package.json") = .ok true)
    (hread : c.env.readPackageSync (c.env.pathJoin pkgDir "/package.json") = .ok j)
    (hgate : exportsGate c.env (some j) = .ok none)
    (hmain : j.get "main" = some (.str m)) (hne : m ≠ "")
    (hexists : c.env.isFile (c.env.pathResolve d (normalizedMain m)) = .ok true)
    (hpath : c.env.pathResolve d (normalizedMain m) ≠ "")
    (hwalk : loadpkg c fuel (c.env.pathDirname (c.env.pathResolve d (normalizedMain m)))
      = .ok info) :
    loadAsDirectorySync c fuel (depth + 1) d
      = .ok (some (c.env.pathResolve d (normalizedMain m))) := by
  have htruthy : (Json.str m).truthy = true := by
    simpa [Json.truthy] using hne
  rw [loadAsDirectorySync_main c fuel depth d pkgDir isDir j (.str m) hfilter hdir
    hpkgDir hfile hread hgate hmain htruthy]
  have hfound : loadAsFileSync c fuel (c.env.pathResolve d (normalizedMain m))
      = .ok (some (c.env.pathResolve d (normalizedMain m))) := by
    unfold loadAsFileSync
    simp only [hwalk, Res.ok_bind, applyPathFilter_none c info _ hpf, hexists, if_true,
      Res.pure_eq]
  have ht : truthyS (some (c.env.pathResolve d (normalizedMain m))) = true := by
    simpa [truthyS] using hpath
  simp only [mainBlock, mainAttempt, hfound, Res.ok_bind, ht, if_true, Res.pure_eq]

theorem Json.get_eraseExports (j : Json) (k : String) (hk : k ≠ "exports") :
    (eraseExports j).get k = j.get k := by
  cases j with
  | obj kvs =>
    have hfun : (fun kv : String × Json =>
          decide ((kv.1 != "exports") = true ∧ (kv.1 == k) = true))
        = (fun kv : String × Json => kv.1 == k) := by
      funext kv
      by_cases hkk : kv.1 = k
      · simp [hkk, hk]
      · simp [hkk]
    simp only [eraseExports, Json.get, List.find?_filter, hfun]
  | null => rfl
  | bool _ => rfl
  | num _ => rfl
  | str _ => rfl
  | arr _ => rfl

theorem Json.truthy_eraseExports (j : Json) : (eraseExports j).truthy = j.truthy := by
  cases j <;> rfl

theorem readOrSyntaxError_withoutExports (env : Env) (pkgfile : String) :
    readOrSyntaxError env.withoutExports pkgfile
      = (readOrSyntaxError env pkgfile >>= fun o => .ok (o.map eraseExports)) := by
  simp only [readOrSyntaxError, Env.withoutExports, readWithoutExports]
  cases env.readPackageSync pkgfile with
  | ok j => rfl
  | throw e =>
    simp only [Res.bind]
    split_ifs <;> rfl
  | overflow => rfl

theorem readOrUndefined_withoutExports (env : Env) (pkgfile : String) :
    readOrUndefined env.withoutExports pkgfile
      = (readOrUndefined env pkgfile >>= fun o => .ok (o.map eraseExports)) := by
  simp only [readOrUndefined, Env.withoutExports, readWithoutExports]
  cases env.readPackageSync pkgfile <;> rfl

theorem loadpkg_withoutExports (c : Ctx) (fuel : Nat) (dir : String)
    (hfilter : c.opts.packageFilter = none) :
    loadpkg c.withoutExports fuel dir
      = (loadpkg c fuel dir >>= fun i => .ok (i.map PkgInfo.withoutExports)) := by
  have hf := fun pkg pkgfile d => applyPackageFilter_none c.opts pkg pkgfile d hfilter
  have hf2 : ∀ pkg pkgfile d, applyPackageFilter c.withoutExports.opts pkg pkgfile d
      = .ok pkg := hf
  induction fuel generalizing dir with
  | zero => rfl
  | succ n ih =>
    have hread := fun p => readOrSyntaxError_withoutExports c.env p
    have e1 : c.withoutExports.env.isDirectory = c.env.isDirectory := rfl
    have e2 : c.withoutExports.env.isFile = c.env.isFile := rfl
    have e3 : c.withoutExports.env.win32 = c.env.win32 := rfl
    have e4 : c.withoutExports.env.pathJoin = c.env.pathJoin := rfl
    have e5 : c.withoutExports.env.pathDirname = c.env.pathDirname := rfl
    have e6 : ∀ p, maybeRealpathSync c.withoutExports.env c.withoutExports.opts p
        = maybeRealpathSync c.env c.opts p := fun _ => rfl
    have e7 : c.withoutExports.env = c.env.withoutExports := rfl
    simp only [loadpkg, e1, e2, e3, e4, e5, e6, e7, hf, hf2, hread, ih, Res.ite_bind,
      bind_assoc, pure_bind, Res.pure_eq, Res.ok_bind]
    rfl

theorem tryExtensions_withoutExports (env : Env) (x : String) (exts : List String) :
    tryExtensions env.withoutExports x exts = tryExtensions env x exts := by
  induction exts with
  | nil => rfl
  | cons e es ih =>
    simp only [tryExtensions, ih]
    rfl

theorem loadAsFileSync_withoutExports (c : Ctx) (fuel : Nat) (x : String)
    (hpf : c.opts.pathFilter = none) (hfilter : c.opts.packageFilter = none) :
    loadAsFileSync c.withoutExports fuel x = loadAsFileSync c fuel x := by
  have hp : ∀ info y, applyPathFilter c info y = .ok y :=
    fun info y => applyPathFilter_none c info y hpf
  have hp2 : ∀ info y, applyPathFilter c.withoutExports info y = .ok y :=
    fun info y => applyPathFilter_none c.withoutExports info y hpf
  have e1 : c.withoutExports.env.isFile = c.env.isFile := rfl
  have e2 : c.withoutExports.env.pathDirname = c.env.pathDirname := rfl
  have e3 : ∀ y, tryExtensions c.withoutExports.env y c.withoutExports.extensions
      = tryExtensions c.env y c.extensions :=
    fun y => tryExtensions_withoutExports c.env y c.extensions
  simp only [loadAsFileSync, loadpkg_withoutExports c fuel _ hfilter, hp, hp2, e1, e2, e3,
    bind_assoc, Res.ok_bind]

theorem afterManifest_withoutExports (c : Ctx) (fuel : Nat)
    (asDirectory : String → Res (Option String)) (x pkgDir pkgfile : String)
    (pkg : Option Json)
    (hcat : c.env.category = none ∨ c.env.category = some "pre-exports")
    (hpf : c.opts.pathFilter = none) (hfilter : c.opts.packageFilter = none) :
    afterManifest c.withoutExports fuel asDirectory x pkgDir pkgfile (pkg.map eraseExports)
      = afterManifest c fuel asDirectory x pkgDir pkgfile pkg := by
  have e1 : c.withoutExports.env.category = c.env.category := rfl
  have e4 : c.withoutExports.env.pathJoin = c.env.pathJoin := rfl
  have e5 : c.withoutExports.env.pathResolve = c.env.pathResolve := rfl
  have hfile := fun y => loadAsFileSync_withoutExports c fuel y hpf hfilter
  unfold afterManifest exportsGate
  rw [e1]
  rcases hcat with h | h
  · rw [h]; rfl
  · rw [h]
    simp only [bne_self_eq_false, Bool.false_eq_true, if_false, Res.ok_bind, e4, hfile]
    cases pkg with
    | none => rfl
    | some j =>
      have hmain : (eraseExports j).get "main" = j.get "main" :=
        Json.get_eraseExports j "main" (by decide)
      have hname : (eraseExports j).get "name" = j.get "name" :=
        Json.get_eraseExports j "name" (by decide)
      simp only [Option.map, hmain, Json.truthy_eraseExports, mainBlock, mainAttempt, e5,
        hname, hfile]

theorem loadAsDirectorySync_withoutExports (c : Ctx) (fuel depth : Nat) (x : String)
    (hcat : c.env.category = none ∨ c.env.category = some "pre-exports")
    (hpf : c.opts.pathFilter = none) (hfilter : c.opts.packageFilter = none) :
    loadAsDirectorySync c.withoutExports fuel depth x = loadAsDirectorySync c fuel depth x := by
  induction depth generalizing x with
  | zero => rfl
  | succ n ih =>
    have hrec : loadAsDirectorySync c.withoutExports fuel n = loadAsDirectorySync c fuel n :=
      funext ih
    have hf := fun pkg pkgfile d => applyPackageFilter_none c.opts pkg pkgfile d hfilter
    have hf2 : ∀ pkg pkgfile d, applyPackageFilter c.withoutExports.opts pkg pkgfile d
        = .ok pkg := hf
    have e1 : c.withoutExports.env.isDirectory = c.env.isDirectory := rfl
    have e2 : c.withoutExports.env.isFile = c.env.isFile := rfl
    have e4 : c.withoutExports.env.pathJoin = c.env.pathJoin := rfl
    have e6 : ∀ p, maybeRealpathSync c.withoutExports.env c.withoutExports.opts p
        = maybeRealpathSync c.env c.opts p := fun _ => rfl
    have hread : ∀ p, readOrUndefined c.withoutExports.env p
        = (readOrUndefined c.env p >>= fun o => .ok (o.map eraseExports)) :=
      fun p => readOrUndefined_withoutExports c.env p
    have hafter := fun y pkgDir pkgfile pkg => afterManifest_withoutExports c fuel
      (loadAsDirectorySync c fuel n) y pkgDir pkgfile pkg hcat hpf hfilter
    simp only [loadAsDirectorySync, e1, e2, e4, e6, hf, hf2, hread, hrec, bind_assoc,
      Res.ok_bind, hafter, loadAsFileSync_withoutExports c fuel _ hpf hfilter]

theorem candidatesLoop_withoutExports (c : Ctx) (fuel depth : Nat) (dirs : List String)
    (hcat : c.env.category = none ∨ c.env.category = some "pre-exports")
    (hpf : c.opts.pathFilter = none) (hfilter : c.opts.packageFilter = none) :
    candidatesLoop c.withoutExports fuel depth dirs = candidatesLoop c fuel depth dirs := by
  induction dirs with
  | nil => rfl
  | cons d ds ih =>
    have e1 : c.withoutExports.env.isDirectory = c.env.isDirectory := rfl
    have e5 : c.withoutExports.env.pathDirname = c.env.pathDirname := rfl
    simp only [candidatesLoop, e1, e5, ih, loadAsFileSync_withoutExports c fuel _ hpf hfilter,
      loadAsDirectorySync_withoutExports c fuel depth _ hcat hpf hfilter]

/-- The statement of C4 for the code once `category` is out of the way: in a process where
the identifier is unbound or bound to `'pre-exports'`, and without filter hooks, the
outcome of `resolveSync` is the same when every manifest is read without its `exports`
field, whatever that field holds. -/
theorem resolveSync_withoutExports (env : Env) (opts : Opts) (fuel depth : Nat) (x : String)
    (hcat : env.category = none ∨ env.category = some "pre-exports")
    (hpf : opts.pathFilter = none) (hfilter : opts.packageFilter = none) :
    resolveSync env.withoutExports opts fuel depth x = resolveSync env opts fuel depth x := by
  have hctx : ∀ cats conds, mkCtx env.withoutExports opts cats conds
      = (mkCtx env opts cats conds).withoutExports := fun _ _ => rfl
  have hread : readResolution env.withoutExports (effectiveResolution env.withoutExports opts)
      = readResolution env (effectiveResolution env opts) := rfl
  have hfile := fun cats conds y =>
    loadAsFileSync_withoutExports (mkCtx env opts cats conds) fuel y hpf hfilter
  have hdir := fun cats conds y =>
    loadAsDirectorySync_withoutExports (mkCtx env opts cats conds) fuel depth y hcat hpf hfilter
  have hloop := fun cats conds ds =>
    candidatesLoop_withoutExports (mkCtx env opts cats conds) fuel depth ds hcat hpf hfilter
  simp only [resolveSync, hread, relativeBranch, fileOrDirectory, loadNodeModulesSync, hctx,
    hfile, hdir, hloop]
  rfl

/-! ### C11 -/

/-- When `x/package.json` is read as `j`, no `packageFilter` hook is set and the exports
condition holds, `loadAsDirectorySync(x)` is what the exports block does. -/
theorem loadAsDirectorySync_exports (c : Ctx) (fuel depth : Nat) (x pkgDir : String)
    (isDir : Bool) (j e : Json) (category : String)
    (hfilter : c.opts.packageFilter = none)
    (hdir : c.env.isDirectory x = .ok isDir)
    (hpkgDir : (if isDir then maybeRealpathSync c.env c.opts x else .ok x) = .ok pkgDir)
    (hfile : c.env.isFile (c.env.pathJoin pkgDir "/package.json") = .ok true)
    (hread : c.env.readPackageSync (c.env.pathJoin pkgDir "/package.json") = .ok j)
    (hgate : exportsGate c.env (some j) = .ok (some (category, e))) :
    loadAsDirectorySync c fuel (depth + 1) x
      = exportsBlock c fuel category pkgDir (c.env.pathJoin pkgDir "/package.json") x e := by
  have hf := applyPackageFilter_none c.opts (some j) (c.env.pathJoin pkgDir "/package.json") x
    hfilter
  have hr : readOrUndefined c.env (c.env.pathJoin pkgDir "/package.json") = .ok (some j) := by
    simp only [readOrUndefined, hread, Res.bind, Res.catchAll]
  cases isDir <;>
    simp_all [loadAsDirectorySync, afterManifest, bind, Res.bind, pure]

/-- What the exports block can come back with. -/
theorem exportsBlock_outcomes (c : Ctx) (fuel : Nat) (category pkgDir pkgfile x : String)
    (e : Json) :
    (∀ p, exportsBlock c fuel category pkgDir pkgfile x e = .ok (some p) →
      resolveExportsItem c fuel pkgDir x e = .ok (some p))
    ∧ (exportsBlock c fuel category pkgDir pkgfile x e = .ok none →
      (e.isStr || e.isArr) = true ∧ x ≠ pkgDir ∧ x ≠ pkgDir ++ c.env.sep)
    ∧ (category ≠ "broken" → ∀ err,
      exportsBlock c fuel category pkgDir pkgfile x e = .throw err →
        err = notInExportsError (relativeOrDot c x) pkgfile
        ∨ c.env.validateExportsObject e = .throw err
        ∨ resolveExportsItem c fuel pkgDir x e = .throw err) := by
  have htail : ∀ r, exportsTail c fuel category pkgDir pkgfile x e = r →
      (∀ p, r = .ok (some p) → resolveExportsItem c fuel pkgDir x e = .ok (some p))
      ∧ r ≠ .ok none
      ∧ (category ≠ "broken" → ∀ err, r = .throw err →
        err = notInExportsError (relativeOrDot c x) pkgfile
        ∨ c.env.validateExportsObject e = .throw err
        ∨ resolveExportsItem c fuel pkgDir x e = .throw err) := by
    intro r hr
    subst hr
    unfold exportsTail
    by_cases hb : category = "broken"
    · subst hb
      simp
    · have hb2 : (category != "broken") = true := by simpa using hb
      simp only [hb2, if_true]
      cases hv : c.env.validateExportsObject e with
      | ok result =>
        simp only [Res.ok_bind]
        by_cases hu : result.usable = true
        · simp only [hu, if_true]
          cases hR : resolveExportsItem c fuel pkgDir x e with
          | ok r =>
            simp only [Res.ok_bind]
            by_cases ht : truthyS r = true
            · simp only [ht, if_true, Res.pure_eq]
              refine ⟨fun p hp => hp, ?_, fun _ err herr => (by cases herr)⟩
              intro h
              cases h
              simp [truthyS] at ht
            · simp only [ht, if_false]
              refine ⟨fun p hp => (by cases hp), fun h => (by cases h), fun _ err herr => ?_⟩
              cases herr
              exact Or.inl rfl
          | throw err0 =>
            refine ⟨fun p hp => (by cases hp), fun h => (by cases h), fun _ err herr => ?_⟩
            cases herr
            exact Or.inr (Or.inr rfl)
          | overflow =>
            exact ⟨fun p hp => (by cases hp), fun h => (by cases h), fun _ err herr => (by cases herr)⟩
        · simp only [hu, if_false]
          refine ⟨fun p hp => (by cases hp), fun h => (by cases h), fun _ err herr => ?_⟩
          cases herr
          exact Or.inl rfl
      | throw err0 =>
        refine ⟨fun p hp => (by cases hp), fun h => (by cases h), fun _ err herr => ?_⟩
        cases herr
        exact Or.inr (Or.inl rfl)
      | overflow =>
        exact ⟨fun p hp => (by cases hp), fun h => (by cases h), fun _ err herr => (by cases herr)⟩
  have ht := htail _ rfl
  unfold exportsBlock
  by_cases hform : (e.isStr || e.isArr) = true
  · simp only [hform, if_true]
    by_cases hroot : (x != pkgDir && x != pkgDir ++ c.env.sep) = true
    · simp only [hroot, if_true]
      refine ⟨fun p hp => (by cases hp), fun _ => ⟨trivial, ?_⟩, fun _ err herr => (by cases herr)⟩
      simpa using hroot
    · simp only [hroot, if_false]
      cases hR : resolveExportsItem c fuel pkgDir x e with
      | ok r =>
        simp only [Res.ok_bind]
        by_cases htr : truthyS r = true
        · simp only [htr, if_true, Res.pure_eq]
          refine ⟨fun p hp => hp, ?_, fun _ err herr => (by cases herr)⟩
          intro h
          cases h
          simp [truthyS] at htr
        · simp only [htr, if_false]
          rw [hR] at ht
          exact ⟨ht.1, fun h => absurd h ht.2.1, ht.2.2⟩
      | throw err0 =>
        refine ⟨fun p hp => (by cases hp), fun h => (by cases h), fun _ err herr => ?_⟩
        cases herr
        exact Or.inr (Or.inr rfl)
      | overflow =>
        exact ⟨fun p hp => (by cases hp), fun h => (by cases h), fun _ err herr => (by cases herr)⟩
  · simp only [hform, if_false]
    exact ⟨ht.1, fun h => absurd h ht.2.1, ht.2.2⟩

/-- C11, the failing input: `/store/pkg/package.json` declares `"exports": "./a.js"` (and
`"main": "./b.js"`), `/app/node_modules/pkg` is a symbolic link to `/store/pkg`, and
`category` is bound to `'conditions'`. The request is for the package root, yet `x`, the
path through the link, differs from `pkgDir`, its real path, so the guard that the code
marks `// not .` takes the root for a subpath: the block returns nothing and
`resolveSync('pkg')` fails with `MODULE_NOT_FOUND`, not with
`ERR_PACKAGE_PATH_NOT_EXPORTED`. Requested by its real path, the same directory resolves
through the exports declaration to `/store/pkg/a.js`. -/
theorem C11_exports_failures_without_not_exported :
    loadAsDirectorySync (mkCtx ((posixEnv storeWorld (some "conditions")).withLink
        "/app/node_modules/pkg" "/store/pkg") (categoryOpts "conditions" "/app")
        (.list [some "conditions"]) cjsConditions) 8 4 "/app/node_modules/pkg" = .ok none
    ∧ resolveSync ((posixEnv storeWorld (some "conditions")).withLink
        "/app/node_modules/pkg" "/store/pkg") (categoryOpts "conditions" "/app") 8 4 "pkg"
      = .throw (moduleNotFound "pkg" "/app")
    ∧ loadAsDirectorySync (mkCtx ((posixEnv storeWorld (some "conditions")).withLink
        "/app/node_modules/pkg" "/store/pkg") (categoryOpts "conditions" "/app")
        (.list [some "conditions"]) cjsConditions) 8 4 "/store/pkg"
      = .ok (some "/store/pkg/a.js") := by
  refine ⟨?_, ?_, ?_⟩ <;> decide

/-- What the code does at C11. Let `d/package.json` parse to an object `j` that declares
`exports`, with no `packageFilter` hook, and let the identifier `category` be bound to a
string other than `'pre-exports'`. Then `loadAsDirectorySync(d)` is the exports block and nothing else:
neither `main` nor the index file is consulted. A path it returns is one that
`resolveExportsItem` returned for the exports declaration. It returns nothing only when
`exports` is a string or an array and `d` is neither `pkgDir` nor `pkgDir + path.sep`. For
a category other than `'broken'`, an error it throws is `ERR_PACKAGE_PATH_NOT_EXPORTED`
for the request, or an error thrown by the exports validator or by `resolveExportsItem`. -/
theorem loadAsDirectorySync_exports_terminal (c : Ctx) (fuel depth : Nat) (d pkgDir : String)
    (isDir : Bool) (j e : Json) (category : String)
    (hfilter : c.opts.packageFilter = none)
    (hdir : c.env.isDirectory d = .ok isDir)
    (hpkgDir : (if isDir then maybeRealpathSync c.env c.opts d else .ok d) = .ok pkgDir)
    (hfile : c.env.isFile (c.env.pathJoin pkgDir "/package.json") = .ok true)
    (hread : c.env.readPackageSync (c.env.pathJoin pkgDir "/package.json") = .ok j)
    (hcat : c.env.category = some category) (hne : category ≠ "pre-exports")
    (hexp : exportsOf j = .ok (some e)) :
    loadAsDirectorySync c fuel (depth + 1) d
      = exportsBlock c fuel category pkgDir (c.env.pathJoin pkgDir "/package.json") d e
    ∧ (∀ p, loadAsDirectorySync c fuel (depth + 1) d = .ok (some p) →
      resolveExportsItem c fuel pkgDir d e = .ok (some p))
    ∧ (loadAsDirectorySync c fuel (depth + 1) d = .ok none →
      (e.isStr || e.isArr) = true ∧ d ≠ pkgDir ∧ d ≠ pkgDir ++ c.env.sep)
    ∧ (category ≠ "broken" → ∀ err, loadAsDirectorySync c fuel (depth + 1) d = .throw err →
        err = notInExportsError (relativeOrDot c d) (c.env.pathJoin pkgDir "/package.json")
        ∨ c.env.validateExportsObject e = .throw err
        ∨ resolveExportsItem c fuel pkgDir d e = .throw err) := by
  have hj : j.truthy = true := by
    cases j <;> simp [exportsOf] at hexp
    rfl
  have hgate : exportsGate c.env (some j) = .ok (some (category, e)) := by
    have hne2 : (category != "pre-exports") = true := by simpa using hne
    simp only [exportsGate, hcat, hne2, if_true, hj, hexp, Res.bind, Option.map]
  have hrun := loadAsDirectorySync_exports c fuel depth d pkgDir isDir j e category hfilter
    hdir hpkgDir hfile hread hgate
  have hout := exportsBlock_outcomes c fuel category pkgDir
    (c.env.pathJoin pkgDir "/package.json") d e
  rw [hrun]
  exact ⟨rfl, hout.1, hout.2.1, hout.2.2⟩

/-- An instance of `loadAsDirectorySync_exports_terminal`: the package of `exportsWorld`,
requested as the directory `/app/node_modules/pkg/` with `category` bound to
`'conditions'`, resolves through the `.` key of its exports map. -/
theorem loadAsDirectorySync_exports_terminal_example :
    loadAsDirectorySync (mkCtx (posixEnv exportsWorld (some "conditions"))
        (categoryOpts "conditions" "/app") (.list [some "conditions"]) cjsConditions) 8 1
        "/app/node_modules/pkg/" = .ok (some "/app/node_modules/pkg/a.js")
    ∧ resolveExportsItem (mkCtx (posixEnv exportsWorld (some "conditions"))
        (categoryOpts "conditions" "/app") (.list [some "conditions"]) cjsConditions) 8
        "/app/node_modules/pkg" "/app/node_modules/pkg/"
        (.obj [(".", .str "./a.js"), ("./b", .str "./b.js")])
      = .ok (some "/app/node_modules/pkg/a.js") :=
  ⟨by decide,
   (loadAsDirectorySync_exports_terminal (mkCtx (posixEnv exportsWorld (some "conditions"))
      (categoryOpts "conditions" "/app") (.list [some "conditions"]) cjsConditions) 8 0
      "/app/node_modules/pkg/" "/app/node_modules/pkg" true
      (.obj [("exports", .obj [(".", .str "./a.js"), ("./b", .str "./b.js")])])
      (.obj [(".", .str "./a.js"), ("./b", .str "./b.js")]) "conditions"
      rfl (by decide) (by decide) (by decide) rfl rfl (by decide) rfl).2.1
      "/app/node_modules/pkg/a.js" (by decide)⟩

/-! ### C12 -/

/-- C12, counterexample: `/pkg/package.json` declares `"exports": "./a.js"` and
`"main": "./b.js"`, and both files exist. With `category` bound to `'broken'` the
resolution of `/pkg` does not fall through to `main`: it returns `/pkg/a.js`, the target
of the exports declaration. With the object form `"exports": {".": "./a.js"}` it does not
reach `main` either and throws a `TypeError`, and in a process that does not bind
`category` it throws the `ReferenceError`. -/
theorem C12_broken_does_not_fall_through_to_main :
    (posixEnv (exportsMainWorld (.str "./a.js")) (some "broken")).isFile "/pkg/b.js"
      = .ok true
    ∧ resolveSync (posixEnv (exportsMainWorld (.str "./a.js")) (some "broken"))
        (categoryOpts "broken" "/") 8 4 "./pkg" = .ok "/pkg/a.js"
    ∧ resolveSync (posixEnv (exportsMainWorld (.obj [(".", .str "./a.js")])) (some "broken"))
        (categoryOpts "broken" "/") 8 4 "./pkg" = .throw undefinedProblems
    ∧ resolveSync (posixEnv (exportsMainWorld (.str "./a.js")) none)
        (categoryOpts "broken" "/") 8 4 "./pkg" = .throw categoryNotDefined := by
  refine ⟨?_, ?_, ?_, ?_⟩ <;> decide

/-- C12, amended: let `d/package.json` parse to an object that declares `exports` as a
string or an array (and any `main`), with no `packageFilter` hook, let the identifier
`category` be bound to `'broken'` and let `d` be the package directory itself (`pkgDir` or
`pkgDir + path.sep`). If `resolveExportsItem` returns a path for the exports declaration,
`loadAsDirectorySync(d)` returns that path; `main` is not consulted. -/
theorem C12_broken_honours_string_and_array_exports (c : Ctx) (fuel depth : Nat)
    (d pkgDir : String) (isDir : Bool) (j e : Json) (p : String)
    (hfilter : c.opts.packageFilter = none)
    (hdir : c.env.isDirectory d = .ok isDir)
    (hpkgDir : (if isDir then maybeRealpathSync c.env c.opts d else .ok d) = .ok pkgDir)
    (hfile : c.env.isFile (c.env.pathJoin pkgDir "/package.json") = .ok true)
    (hread : c.env.readPackageSync (c.env.pathJoin pkgDir "/package.json") = .ok j)
    (hcat : c.env.category = some "broken")
    (hexp : exportsOf j = .ok (some e))
    (hform : (e.isStr || e.isArr) = true)
    (hroot : d = pkgDir ∨ d = pkgDir ++ c.env.sep)
    (hres : resolveExportsItem c fuel pkgDir d e = .ok (some p)) (hp : p ≠ "") :
    loadAsDirectorySync c fuel (depth + 1) d = .ok (some p) := by
  have hj : j.truthy = true := by
    cases j <;> simp [exportsOf] at hexp
    rfl
  have hgate : exportsGate c.env (some j) = .ok (some ("broken", e)) := by
    have hne2 : ("broken" != "pre-exports") = true := by decide
    simp only [exportsGate, hcat, hne2, if_true, hj, hexp, Res.bind, Option.map]
  rw [loadAsDirectorySync_exports c fuel depth d pkgDir isDir j e "broken" hfilter
    hdir hpkgDir hfile hread hgate]
  have hnot : (d != pkgDir && d != pkgDir ++ c.env.sep) = false := by
    rcases hroot with h | h
    · simp [h]
    · simp [h]
  have ht : truthyS (some p) = true := by simpa [truthyS] using hp
  simp only [exportsBlock, hform, if_true, hnot, Bool.false_eq_true, if_false, hres,
    Res.ok_bind, ht, Res.pure_eq]

/-- C12, witness of the amended statement: `/pkg` with `"exports": "./a.js"` and
`"main": "./b.js"`, `category` bound to `'broken'`. -/
theorem C12_broken_honours_string_and_array_exports_witness :
    loadAsDirectorySync (mkCtx (posixEnv (exportsMainWorld (.str "./a.js")) (some "broken"))
        (categoryOpts "broken" "/") (.list [some "broken"]) cjsConditions) 8 1 "/pkg"
      = .ok (some "/pkg/a.js") :=
  C12_broken_honours_string_and_array_exports (mkCtx (posixEnv
      (exportsMainWorld (.str "./a.js")) (some "broken")) (categoryOpts "broken" "/")
      (.list [some "broken"]) cjsConditions) 8 0 "/pkg" "/pkg" true
    (.obj [("exports", .str "./a.js"), ("main", .str "./b.js")]) (.str "./a.js") "/pkg/a.js"
    rfl (by decide) (by decide) (by decide) rfl rfl rfl (by decide) (Or.inl rfl)
    (by decide) (by decide)

/-! ### C13 -/

/-- The loop over the extensions returns the first extension that gives a file. -/
theorem tryExtensions_first (env : Env) (x : String) (pre post : List String) (e : String)
    (hpre : ∀ e1 ∈ pre, env.isFile (x ++ e1) = .ok false)
    (he : env.isFile (x ++ e) = .ok true) :
    tryExtensions env x (pre ++ e :: post) = .ok (some (x ++ e)) := by
  induction pre with
  | nil => simp only [List.nil_append, tryExtensions, he, Res.ok_bind, if_true, Res.pure_eq]
  | cons e0 es ih =>
    have h0 : env.isFile (x ++ e0) = .ok false := hpre e0 (List.mem_cons_self e0 es)
    have hes : ∀ e1 ∈ es, env.isFile (x ++ e1) = .ok false :=
      fun e1 h1 => hpre e1 (List.mem_cons_of_mem e0 h1)
    simp only [List.cons_append, tryExtensions, h0, Res.ok_bind, Bool.false_eq_true, if_false]
    exact ih hes

/-- C13, counterexample: no `pathFilter` hook is set and `/proj/lib/x.js` is a file, yet
`loadAsFileSync('/proj/lib/x.js')` does not return it: `loadpkg` runs first, finds
`/proj/package.json`, and the `EACCES` error of reading it propagates. -/
theorem C13_manifest_read_error_comes_first :
    (defaultOpts "/").pathFilter.isNone = true
    ∧ ((posixEnv mainWorld none).withRead deniedRead).isFile "/proj/lib/x.js" = .ok true
    ∧ loadAsFileSync (mkCtx ((posixEnv mainWorld none).withRead deniedRead) (defaultOpts "/")
        (.list [some "pre-exports"]) cjsConditions) 8 "/proj/lib/x.js"
      = .throw { name := "Error", code := some "EACCES", message := "permission denied" } := by
  refine ⟨?_, ?_, ?_⟩ <;> decide

/-- C13, amended: with no `pathFilter` hook, for every candidate path `x` and every
extension list, once the manifest lookup `loadpkg(path.dirname(x))` has returned,
`loadAsFileSync(x)` returns `x` when `isFile(x)` holds; otherwise it returns `x` plus the
first extension of the list for which `isFile` holds; otherwise it returns nothing and
raises no error. -/
theorem C13_file_resolution_base_case (c : Ctx) (fuel : Nat) (x : String)
    (info : Option PkgInfo)
    (hpf : c.opts.pathFilter = none)
    (hwalk : loadpkg c fuel (c.env.pathDirname x) = .ok info) :
    (c.env.isFile x = .ok true → loadAsFileSync c fuel x = .ok (some x))
    ∧ (c.env.isFile x = .ok false → ∀ (pre post : List String) (e : String),
        c.extensions = pre ++ e :: post →
        (∀ e1 ∈ pre, c.env.isFile (x ++ e1) = .ok false) →
        c.env.isFile (x ++ e) = .ok true →
        loadAsFileSync c fuel x = .ok (some (x ++ e)))
    ∧ (c.env.isFile x = .ok false →
        (∀ e ∈ c.extensions, c.env.isFile (x ++ e) = .ok false) →
        loadAsFileSync c fuel x = .ok none) := by
  refine ⟨?_, ?_, ?_⟩
  · intro hx
    simp only [loadAsFileSync, hwalk, Res.ok_bind, applyPathFilter_none c info x hpf, hx,
      if_true, Res.pure_eq]
  · intro hx pre post e hsplit hpre he
    simp only [loadAsFileSync, hwalk, Res.ok_bind, applyPathFilter_none c info x hpf, hx,
      Bool.false_eq_true, if_false, hsplit, tryExtensions_first c.env x pre post e hpre he]
  · intro hx hall
    simp only [loadAsFileSync, hwalk, Res.ok_bind, applyPathFilter_none c info x hpf, hx,
      Bool.false_eq_true, if_false, tryExtensions_absent c.env x c.extensions hall]

/-- C13, witness of the amended statement, in `mainWorld` with the default extension list:
`/proj/lib/x.js` is returned as it is, `/proj/lib/x` with `.js` appended, and `/proj/lib/y`
gives nothing. -/
theorem C13_file_resolution_base_case_witness :
    loadAsFileSync (mkCtx (posixEnv mainWorld none) (defaultOpts "/")
        (.list [some "pre-exports"]) cjsConditions) 8 "/proj/lib/x.js"
      = .ok (some "/proj/lib/x.js")
    ∧ loadAsFileSync (mkCtx (posixEnv mainWorld none) (defaultOpts "/")
        (.list [some "pre-exports"]) cjsConditions) 8 "/proj/lib/x"
      = .ok (some "/proj/lib/x.js")
    ∧ loadAsFileSync (mkCtx (posixEnv mainWorld none) (defaultOpts "/")
        (.list [some "pre-exports"]) cjsConditions) 8 "/proj/lib/y" = .ok none :=
  ⟨(C13_file_resolution_base_case (mkCtx (posixEnv mainWorld none) (defaultOpts "/")
      (.list [some "pre-exports"]) cjsConditions) 8 "/proj/lib/x.js"
      (some { pkg := some (.obj [("main", .str "./lib/x.js")]), dir := "/proj" })
      rfl rfl).1 (by decide),
   (C13_file_resolution_base_case (mkCtx (posixEnv mainWorld none) (defaultOpts "/")
      (.list [some "pre-exports"]) cjsConditions) 8 "/proj/lib/x"
      (some { pkg := some (.obj [("main", .str "./lib/x.js")]), dir := "/proj" })
      rfl rfl).2.1 (by decide) [] [] ".js" rfl (fun _ h => absurd h (List.not_mem_nil _))
      (by decide),
   (C13_file_resolution_base_case (mkCtx (posixEnv mainWorld none) (defaultOpts "/")
      (.list [some "pre-exports"]) cjsConditions) 8 "/proj/lib/y"
      (some { pkg := some (.obj [("main", .str "./lib/x.js")]), dir := "/proj" })
      rfl rfl).2.2 (by decide) (by decide)⟩

/-! ### C14 -/

/-- C14, counterexample: `/a/b/package.json` is not valid JSON and `/a/package.json` is
`{"name": "a"}`. `loadpkg('/a/b')` does not continue upward: it returns the record
`{ pkg: undefined, dir: '/a/b' }`, while `loadpkg(path.dirname('/a/b'))` returns the
manifest of `/a`. -/
theorem C14_syntax_error_stops_the_walk :
    (posixEnv brokenJsonWorld none).pathDirname "/a/b" = "/a"
    ∧ loadpkg (mkCtx (posixEnv brokenJsonWorld none) (defaultOpts "/")
        (.list [some "pre-exports"]) cjsConditions) 8 "/a/b"
      = .ok (some { pkg := none, dir := "/a/b" })
    ∧ loadpkg (mkCtx (posixEnv brokenJsonWorld none) (defaultOpts "/")
        (.list [some "pre-exports"]) cjsConditions) 8 "/a"
      = .ok (some { pkg := some (.obj [("name", .str "a")]), dir := "/a" })
    ∧ loadpkg (mkCtx (posixEnv brokenJsonWorld none) (defaultOpts "/")
        (.list [some "pre-exports"]) cjsConditions) 8 "/a/b"
      ≠ loadpkg (mkCtx (posixEnv brokenJsonWorld none) (defaultOpts "/")
        (.list [some "pre-exports"]) cjsConditions) 8
          ((posixEnv brokenJsonWorld none).pathDirname "/a/b") := by
  have h1 : loadpkg (mkCtx (posixEnv brokenJsonWorld none) (defaultOpts "/")
        (.list [some "pre-exports"]) cjsConditions) 8 "/a/b"
      = .ok (some { pkg := none, dir := "/a/b" }) := rfl
  have h2 : loadpkg (mkCtx (posixEnv brokenJsonWorld none) (defaultOpts "/")
        (.list [some "pre-exports"]) cjsConditions) 8 "/a"
      = .ok (some { pkg := some (.obj [("name", .str "a")]), dir := "/a" }) := rfl
  have hd : (posixEnv brokenJsonWorld none).pathDirname "/a/b" = "/a" := by decide
  refine ⟨hd, h1, h2, ?_⟩
  rw [hd, h1, h2]
  intro h
  injection h with h
  injection h with h
  injection h with h3 h4
  cases h3

/-- The `packageFilter` hook is not called when `pkg` is undefined. -/
theorem applyPackageFilter_undefined (opts : Opts) (pkgfile dir : String) :
    applyPackageFilter opts none pkgfile dir = .ok none := by
  unfold applyPackageFilter
  cases opts.packageFilter <;> rfl

/-- C14, amended: for every directory `dir` that is not a root or a `node_modules`
directory and whose `package.json` is a file that fails to be read with the error `e`:
when `e` is a `SyntaxError`, `loadpkg(dir)` ends the walk at this level and returns the
record with `pkg` undefined and `dir`, without looking at the parent directory and without
calling the `packageFilter` hook; when `e` is any other error, it propagates to the
caller. -/
theorem C14_syntax_error_ends_walk_at_level (c : Ctx) (fuel : Nat) (dir base : String)
    (isDir : Bool) (e : JsError)
    (hroot : (dir == "" || dir == "/") = false)
    (hdrive : (c.env.win32 && windowsDriveRegex dir) = false)
    (hnm : nodeModulesRegex dir = false)
    (hdir : c.env.isDirectory dir = .ok isDir)
    (hbase : (if isDir then maybeRealpathSync c.env c.opts dir else .ok dir) = .ok base)
    (hfile : c.env.isFile (c.env.pathJoin base "package.json") = .ok true)
    (hread : c.env.readPackageSync (c.env.pathJoin base "package.json") = .throw e) :
    (e.name = "SyntaxError" →
        loadpkg c (fuel + 1) dir = .ok (some { pkg := none, dir := dir }))
    ∧ (e.name ≠ "SyntaxError" → loadpkg c (fuel + 1) dir = .throw e) := by
  have hstep : loadpkg c (fuel + 1) dir
      = (readOrSyntaxError c.env (c.env.pathJoin base "package.json")).bind (fun pkg =>
          (applyPackageFilter c.opts pkg (c.env.pathJoin base "package.json") dir).bind
            (fun pkg => .ok (some { pkg := pkg, dir := dir }))) := by
    cases isDir
    · simp only [Bool.false_eq_true, if_false, Res.ok.injEq] at hbase
      subst hbase
      simp only [loadpkg, hroot, hdrive, hnm, Bool.false_eq_true, if_false, hdir, Res.ok_bind,
        Res.pure_eq, hfile, Bool.not_true]
      rfl
    · simp only [if_true] at hbase
      simp only [loadpkg, hroot, hdrive, hnm, Bool.false_eq_true, if_false, hdir, Res.ok_bind,
        Res.pure_eq, hfile, Bool.not_true, if_true, hbase]
      rfl
  constructor
  · intro hs
    have hro : readOrSyntaxError c.env (c.env.pathJoin base "package.json") = .ok none := by
      simp [readOrSyntaxError, hread, hs]
    rw [hstep, hro]
    simp only [Res.bind, applyPackageFilter_undefined]
  · intro hs
    have hro : readOrSyntaxError c.env (c.env.pathJoin base "package.json") = .throw e := by
      simp [readOrSyntaxError, hread, hs]
    rw [hstep, hro]
    rfl

/-- C14, witness of the amended statement: `/a/b` of `brokenJsonWorld`, whose manifest
is not valid JSON. -/
theorem C14_syntax_error_ends_walk_at_level_witness :
    loadpkg (mkCtx (posixEnv brokenJsonWorld none) (defaultOpts "/")
        (.list [some "pre-exports"]) cjsConditions) 8 "/a/b"
      = .ok (some { pkg := none, dir := "/a/b" }) :=
  (C14_syntax_error_ends_walk_at_level (mkCtx (posixEnv brokenJsonWorld none)
      (defaultOpts "/") (.list [some "pre-exports"]) cjsConditions) 7 "/a/b" "/a/b" true
      { name := "SyntaxError", code := none, message := "Unexpected token" }
      (by decide) (by decide) (by decide) (by decide) (by decide) (by decide) rfl).1 rfl

/-! ### C15 -/

/-- A `conditions` value that is not an array makes the `resolution` block throw a
`TypeError`. -/
theorem readResolution_conditions_not_array (env : Env) (engines cat : Option Json)
    (cv : Json) (hcv : cv.isArr = false) :
    ∃ m, readResolution env (.object engines cat (some cv)) = .throw (typeError m) := by
  cases engines with
  | some ej =>
    cases cat with
    | some cj =>
      exact ⟨_, by simp [readResolution]; rfl⟩
    | none =>
      by_cases ht : isTrueJ ej = true
      · cases cv <;> first
          | (exfalso; simp [Json.isArr] at hcv; done)
          | exact ⟨_, by simp [readResolution, ht]; rfl⟩
      · exact ⟨_, by simp [readResolution, ht]; rfl⟩
  | none =>
    cases cat with
    | none =>
      cases cv <;> first
        | (exfalso; simp [Json.isArr] at hcv; done)
        | exact ⟨_, by simp [readResolution]; rfl⟩
    | some cj =>
      by_cases hc : isCategoryJ env cj = true
      · by_cases h1 : some "pre-exports" = categoryEntry (some cj)
        · exact ⟨_, by simp [readResolution, hc, Categories.includes, h1]; rfl⟩
        · by_cases h2 : some "broken" = categoryEntry (some cj)
          · exact ⟨_, by simp [readResolution, hc, Categories.includes, h1, h2]; rfl⟩
          · cases cv <;> first
              | (exfalso; simp [Json.isArr] at hcv; done)
              | exact ⟨_, by simp [readResolution, hc, Categories.includes, h1, h2]; rfl⟩
      · exact ⟨_, by simp [readResolution, hc]; rfl⟩

/-- C15, the failing input: `resolution: { category: 'conditions', conditions: [1] }`.
The array has an element that is not a string, yet the `resolution` block accepts it (the
elements are never checked) and `resolveSync('./proj/lib/x.js')` returns the file instead of
throwing a `TypeError`. -/
theorem C15_non_string_condition_is_accepted :
    readResolution (posixEnv mainWorld none)
        (.object none (some (.str "conditions")) (some (.arr [.num "1"])))
      = .ok (.list [some "conditions"], [.num "1"])
    ∧ resolveSync (posixEnv mainWorld none)
        (conditionsOpts "conditions" "/" (.arr [.num "1"])) 8 4 "./proj/lib/x.js"
      = .ok "/proj/lib/x.js"
    ∧ resolveSync (posixEnv mainWorld none)
        (conditionsOpts "conditions" "/" (.str "require")) 8 4 "./proj/lib/x.js"
      = .throw (typeError "`conditions` must be an array of strings") :=
  ⟨rfl, by decide, by decide⟩

/-! ### C18 -/

/-- In the two categories the code lists, a matching key that ends in a separator is
skipped: the loop goes on with the remaining entries and never looks at the value. -/
theorem resolveExportsFiles_dir_key_skipped (c : Ctx) (fuel : Nat) (pkgDir x key : String)
    (v : Json) (rest : List (String × Json)) (cs : List (Option String))
    (hcs : c.categories = .list cs)
    (hcat : cs.contains (some "broken-dir-slash-conditions") = true
      ∨ cs.contains (some "pattern-trailers-no-dir-slash") = true)
    (hkey : keyEndsInSep c.env.sep key = true) :
    resolveExportsFiles c fuel pkgDir x ((key, v) :: rest)
      = resolveExportsFiles c fuel pkgDir x rest := by
  rw [resolveExportsFiles]
  simp only [hkey, if_true, hcs, Categories.includes, Res.ok_bind, Res.pure_eq]
  split_ifs <;> first | rfl | skip
  all_goals (rcases hcat with h | h <;> simp_all)

/-- C18, the failing input: the subpath map `{"./dir/": "./d.js"}` of the package
`/p` and the request `/p/dir/`. In the category `patterns` the code recurses into the value
of the key that ends in a separator and returns `/p/d.js`, although directory exports are
documented as broken there; in `broken-dir-slash-conditions` and in
`pattern-trailers-no-dir-slash` the key is skipped, and in `conditions`, which supports
directory exports, the result is the same as in `patterns`. -/
theorem C18_patterns_honours_directory_key :
    resolveExportsItem (targetsCtx "patterns") 8 "/p" "/p/dir/"
        (.obj [("./dir/", .str "./d.js")]) = .ok (some "/p/d.js")
    ∧ resolveExportsItem (targetsCtx "broken-dir-slash-conditions") 8 "/p" "/p/dir/"
        (.obj [("./dir/", .str "./d.js")]) = .ok none
    ∧ resolveExportsItem (targetsCtx "pattern-trailers-no-dir-slash") 8 "/p" "/p/dir/"
        (.obj [("./dir/", .str "./d.js")]) = .ok none
    ∧ resolveExportsItem (targetsCtx "conditions") 8 "/p" "/p/dir/"
        (.obj [("./dir/", .str "./d.js")]) = .ok (some "/p/d.js") := by
  refine ⟨?_, ?_, ?_, ?_⟩ <;> decide

/-! ### C17 -/

theorem firstTruthy_first_hit {α : Type} (f : α → Res (Option String)) (pre post : List α)
    (k : α) (p : String)
    (hpre : ∀ k1 ∈ pre, ∃ r, f k1 = .ok r ∧ truthyS r = false)
    (hk : f k = .ok (some p)) (hp : p ≠ "") :
    firstTruthy f (pre ++ k :: post) = .ok (some p) := by
  induction pre with
  | nil =>
    have ht : truthyS (some p) = true := by simpa [truthyS] using hp
    simp only [List.nil_append, firstTruthy, hk, Res.ok_bind, ht, if_true, Res.pure_eq]
  | cons k0 ks ih =>
    obtain ⟨r, hr, hf⟩ := hpre k0 (List.mem_cons_self k0 ks)
    simp only [List.cons_append, firstTruthy, hr, Res.ok_bind, hf, Bool.false_eq_true, if_false]
    exact ih (fun k1 h1 => hpre k1 (List.mem_cons_of_mem k0 h1))

theorem firstTruthy_throw {α : Type} (f : α → Res (Option String)) (pre post : List α)
    (k : α) (e : JsError)
    (hpre : ∀ k1 ∈ pre, ∃ r, f k1 = .ok r ∧ truthyS r = false)
    (hk : f k = .throw e) :
    firstTruthy f (pre ++ k :: post) = .throw e := by
  induction pre with
  | nil => simp only [List.nil_append, firstTruthy, hk, Res.throw_bind]
  | cons k0 ks ih =>
    obtain ⟨r, hr, hf⟩ := hpre k0 (List.mem_cons_self k0 ks)
    simp only [List.cons_append, firstTruthy, hr, Res.ok_bind, hf, Bool.false_eq_true, if_false]
    exact ih (fun k1 h1 => hpre k1 (List.mem_cons_of_mem k0 h1))

theorem firstTruthy_no_hit {α : Type} (f : α → Res (Option String)) (ks : List α)
    (hks : ∀ k ∈ ks, ∃ r, f k = .ok r ∧ truthyS r = false) :
    firstTruthy f ks = .ok none := by
  induction ks with
  | nil => rfl
  | cons k0 ks ih =>
    obtain ⟨r, hr, hf⟩ := hks k0 (List.mem_cons_self k0 ks)
    simp only [firstTruthy, hr, Res.ok_bind, hf, Bool.false_eq_true, if_false]
    exact ih (fun k1 h1 => hks k1 (List.mem_cons_of_mem k0 h1))

theorem firstTruthy_congr {α : Type} (f g : α → Res (Option String)) (ks : List α)
    (hfg : ∀ k ∈ ks, f k = g k) :
    firstTruthy f ks = firstTruthy g ks := by
  induction ks with
  | nil => rfl
  | cons k0 ks ih =>
    simp only [firstTruthy, hfg k0 (List.mem_cons_self k0 ks),
      ih (fun k1 h1 => hfg k1 (List.mem_cons_of_mem k0 h1))]

theorem firstTruthy_map {α β : Type} (f : β → Res (Option String)) (g : α → β)
    (ks : List α) : firstTruthy f (ks.map g) = firstTruthy (fun k => f (g k)) ks := by
  induction ks with
  | nil => rfl
  | cons k0 ks ih => simp only [List.map, firstTruthy, ih]

/-- A last key whose value gives nothing does not change the outcome of the loop. -/
theorem firstTruthy_append_falsy {α : Type} (f : α → Res (Option String)) (ks : List α)
    (k : α) (hk : f k = .ok none) :
    firstTruthy f (ks ++ [k]) = firstTruthy f ks := by
  induction ks with
  | nil =>
    simp only [List.nil_append, firstTruthy, hk, Res.ok_bind, truthyS, Bool.false_eq_true,
      if_false]
  | cons k0 ks ih =>
    have ih1 : firstTruthy f (ks.append [k]) = firstTruthy f ks := ih
    simp only [List.cons_append, firstTruthy, ih1]

/-- Reading an own key of an object gives the value of its entry. -/
theorem resolveExportsKey_own (c : Ctx) (fuel : Nat) (pkgDir x key : String) (v : Json) :
    ∀ kvs : List (String × Json), (Json.obj kvs).get key = some v →
      resolveExportsKey c fuel pkgDir x key kvs = resolveExportsItem c fuel pkgDir x v
  | [], h => by simp [Json.get] at h
  | kv :: rest, h => by
    by_cases hk : (kv.1 == key) = true
    · have hv : kv.2 = v := by simpa [Json.get, List.find?, hk] using h
      simp only [resolveExportsKey, hk, if_true, hv]
    · have hrest : (Json.obj rest).get key = some v := by
        simpa [Json.get, List.find?, hk] using h
      simp only [resolveExportsKey, hk, if_false]
      exact resolveExportsKey_own c fuel pkgDir x key v rest hrest

/-- Reading a key that is not an own key of an object goes to `Object.prototype`. -/
theorem resolveExportsKey_absent (c : Ctx) (fuel : Nat) (pkgDir x key : String) :
    ∀ kvs : List (String × Json), (Json.obj kvs).get key = none →
      resolveExportsKey c fuel pkgDir x key kvs
        = if key == "__proto__" then resolveExportsPrototype c pkgDir x
          else resolveExportsUndefined c
  | [], _ => by simp only [resolveExportsKey]
  | kv :: rest, h => by
    by_cases hk : (kv.1 == key) = true
    · simp [Json.get, List.find?, hk] at h
    · have hrest : (Json.obj rest).get key = none := by
        simpa [Json.get, List.find?, hk] using h
      simp only [resolveExportsKey, hk, if_false]
      exact resolveExportsKey_absent c fuel pkgDir x key rest hrest

/-- For a conditional map without an own key `undefined` and conditions that convert to
property keys, `resolveExportsItem` is the loop over the keys of the active conditions
alone. -/
theorem resolveExportsItem_conditions (c : Ctx) (fuel : Nat) (pkgDir x : String)
    (kvs : List (String × Json)) (cs : List (Option String)) (result : ValidateResult)
    (hcs : c.categories = .list cs) (hbroken : cs.contains (some "broken") = false)
    (hval : c.env.validateExportsObject (.obj kvs) = .ok result)
    (hrej : result.rejected = false) (hstatus : result.status = some "conditions")
    (hundef : (Json.obj kvs).get "undefined" = none)
    (hconv : ∀ cond ∈ c.conditions, cond.convertible = true) :
    resolveExportsItem c fuel pkgDir x (.obj kvs)
      = firstTruthy (fun key => resolveExportsKey c fuel pkgDir x key kvs)
          (c.conditions.map propertyKey) := by
  have hs : (result.status == some "conditions") = true := by simp [hstatus]
  have hlast : (jsString none).bind (fun key => resolveExportsKey c fuel pkgDir x key kvs)
      = .ok none := by
    have h1 := resolveExportsKey_absent c fuel pkgDir x "undefined" kvs hundef
    have h2 : ("undefined" == "__proto__") = false := by decide
    rw [h2] at h1
    simp only [jsString, Res.bind, h1, Bool.false_eq_true, if_false, resolveExportsUndefined,
      hcs, Categories.includes]
    rfl
  simp only [resolveExportsItem, hcs, Categories.includes, hbroken, Res.ok_bind,
    Bool.false_eq_true, if_false, hval, hrej, hs, if_true, conditionSlots]
  rw [firstTruthy_append_falsy _ _ none hlast, firstTruthy_map, firstTruthy_map]
  refine firstTruthy_congr _ _ _ (fun cond hcond => ?_)
  simp only [jsString, hconv cond hcond, if_true, Res.bind]

/-- C17, counterexample, in the category `conditions` with the active conditions
`require`, `node`, `default` and the package `/p`. For the map
`{"require": {}, "default": "./d.js"}` the value of `default` resolves to the
file `/p/d.js`, yet the node neither returns it nor returns nothing: the value of `require`
is rejected and `ERR_PACKAGE_PATH_NOT_EXPORTED` is thrown. For the map
`{"import": "./i.js", "undefined": "./u.js"}` no condition of the list is a key, yet
the key `undefined`, which is not a member of the list, is consulted and `/p/u.js` is
returned. And with the single condition `__proto__` the map `{"default": "./d.js"}`, which
has no such key, does not give nothing: `M['__proto__']` is `Object.prototype`, which the
validator rejects. -/
theorem C17_conditions_loop_throws_and_reads_undefined :
    (targetsCtx "conditions").conditions.map propertyKey = ["require", "node", "default"]
    ∧ resolveExportsItem (targetsCtx "conditions") 8 "/p" "/p" (.str "./d.js")
        = .ok (some "/p/d.js")
    ∧ resolveExportsItem (targetsCtx "conditions") 8 "/p" "/p"
        (.obj [("require", .obj []), ("default", .str "./d.js")])
        = .throw (notInExportsError ".." "/p/package.json")
    ∧ resolveExportsItem (targetsCtx "conditions") 8 "/p" "/p"
        (.obj [("import", .str "./i.js"), ("undefined", .str "./u.js")])
        = .ok (some "/p/u.js")
    ∧ resolveExportsItem { targetsCtx "conditions" with conditions := [.str "__proto__"] } 8
        "/p" "/p" (.obj [("default", .str "./d.js")])
        = .throw (notInExportsError ".." "/p/package.json") := by
  refine ⟨?_, ?_, ?_, ?_, ?_⟩ <;> decide

/-- C17, amended: let `M` be an object that the validator classifies as a conditional map,
without an own key named `undefined`, in a category list that does not contain `broken`,
and let `C` be the active condition list, each condition of which converts to a property
key. `resolveExportsItem` reads `M[c]` for the conditions `c` of `C` in list order: it
returns the first result that is a path, when every earlier condition gave nothing; an
error thrown while resolving `M[c]` ends the loop and propagates, when every earlier
condition gave nothing; it returns nothing when every condition gave nothing; and its
outcome is the same for any other such map with the same results at the conditions of `C`,
so a key that is not a member of `C` is never consulted. Reading `M[c]` resolves the value
of the own entry `c` of `M`; for a `c` that is not an own key it gives nothing, except for
`__proto__`, which names `Object.prototype`. -/
theorem C17_conditions_tried_in_list_order (c : Ctx) (fuel : Nat) (pkgDir x : String)
    (kvs : List (String × Json)) (cs : List (Option String)) (result : ValidateResult)
    (hcs : c.categories = .list cs) (hbroken : cs.contains (some "broken") = false)
    (hval : c.env.validateExportsObject (.obj kvs) = .ok result)
    (hrej : result.rejected = false) (hstatus : result.status = some "conditions")
    (hundef : (Json.obj kvs).get "undefined" = none)
    (hconv : ∀ cond ∈ c.conditions, cond.convertible = true) :
    (∀ (pre post : List String) (k p : String),
        c.conditions.map propertyKey = pre ++ k :: post →
        (∀ k1 ∈ pre, ∃ r, resolveExportsKey c fuel pkgDir x k1 kvs = .ok r
          ∧ truthyS r = false) →
        resolveExportsKey c fuel pkgDir x k kvs = .ok (some p) → p ≠ "" →
        resolveExportsItem c fuel pkgDir x (.obj kvs) = .ok (some p))
    ∧ (∀ (pre post : List String) (k : String) (e : JsError),
        c.conditions.map propertyKey = pre ++ k :: post →
        (∀ k1 ∈ pre, ∃ r, resolveExportsKey c fuel pkgDir x k1 kvs = .ok r
          ∧ truthyS r = false) →
        resolveExportsKey c fuel pkgDir x k kvs = .throw e →
        resolveExportsItem c fuel pkgDir x (.obj kvs) = .throw e)
    ∧ ((∀ k ∈ c.conditions.map propertyKey,
          ∃ r, resolveExportsKey c fuel pkgDir x k kvs = .ok r ∧ truthyS r = false) →
        resolveExportsItem c fuel pkgDir x (.obj kvs) = .ok none)
    ∧ (∀ (kvs1 : List (String × Json)) (result1 : ValidateResult),
        c.env.validateExportsObject (.obj kvs1) = .ok result1 →
        result1.rejected = false → result1.status = some "conditions" →
        (Json.obj kvs1).get "undefined" = none →
        (∀ k ∈ c.conditions.map propertyKey,
          resolveExportsKey c fuel pkgDir x k kvs1 = resolveExportsKey c fuel pkgDir x k kvs) →
        resolveExportsItem c fuel pkgDir x (.obj kvs1)
          = resolveExportsItem c fuel pkgDir x (.obj kvs))
    ∧ (∀ (k : String) (v : Json), (Json.obj kvs).get k = some v →
        resolveExportsKey c fuel pkgDir x k kvs = resolveExportsItem c fuel pkgDir x v)
    ∧ (∀ k : String, (Json.obj kvs).get k = none → k ≠ "__proto__" →
        resolveExportsKey c fuel pkgDir x k kvs = .ok none)
    ∧ ((Json.obj kvs).get "__proto__" = none →
        resolveExportsKey c fuel pkgDir x "__proto__" kvs
          = resolveExportsPrototype c pkgDir x) := by
  have hloop := resolveExportsItem_conditions c fuel pkgDir x kvs cs result hcs hbroken hval
    hrej hstatus hundef hconv
  refine ⟨?_, ?_, ?_, ?_, ?_, ?_, ?_⟩
  · intro pre post k p hsplit hpre hk hp
    rw [hloop, hsplit]
    exact firstTruthy_first_hit _ pre post k p hpre hk hp
  · intro pre post k e hsplit hpre hk
    rw [hloop, hsplit]
    exact firstTruthy_throw _ pre post k e hpre hk
  · intro hall
    rw [hloop]
    exact firstTruthy_no_hit _ _ hall
  · intro kvs1 result1 hval1 hrej1 hstatus1 hundef1 hsame
    rw [hloop, resolveExportsItem_conditions c fuel pkgDir x kvs1 cs result1 hcs hbroken hval1
      hrej1 hstatus1 hundef1 hconv]
    exact firstTruthy_congr _ _ _ hsame
  · intro k v hk
    exact resolveExportsKey_own c fuel pkgDir x k v kvs hk
  · intro k hk hne
    have hb : (k == "__proto__") = false := by simpa using hne
    rw [resolveExportsKey_absent c fuel pkgDir x k kvs hk, hb]
    simp only [Bool.false_eq_true, if_false, resolveExportsUndefined, hcs, Categories.includes]
    rfl
  · intro hk
    rw [resolveExportsKey_absent c fuel pkgDir x "__proto__" kvs hk]
    rfl

/-- C17, witness of the amended statement: the map
`{"default": "./d.js", "node": "./i.js", "import": "./u.js"}` with the conditions
`require`, `node`, `default`: the result is the target of `node`, the first condition of
the list that is a key, although `default` comes first in the map. -/
theorem C17_conditions_tried_in_list_order_witness :
    resolveExportsItem (targetsCtx "conditions") 8 "/p" "/p"
        (.obj [("default", .str "./d.js"), ("node", .str "./i.js"), ("import", .str "./u.js")])
      = .ok (some "/p/i.js") :=
  (C17_conditions_tried_in_list_order (targetsCtx "conditions") 8 "/p" "/p"
      [("default", .str "./d.js"), ("node", .str "./i.js"), ("import", .str "./u.js")]
      [some "conditions"] { status := some "conditions", problems := [] }
      rfl (by decide) rfl (by decide) rfl rfl (by decide)).1
    ["require"] ["default"] "node" "/p/i.js" (by decide)
    (fun k1 h1 => ⟨none, by
      have hk : k1 = "require" := by simpa using h1
      subst hk
      decide, rfl⟩)
    (by decide) (by decide)

/-! ### C20 -/

/-- The walk of `loadpkg` ends at the root directory. -/
theorem loadpkg_root (c : Ctx) (fuel : Nat) : loadpkg c (fuel + 1) "/" = .ok none := by
  simp [loadpkg]

/-- A relation with a loop of length one or two is not well-founded. -/
theorem not_wellFounded_of_loop {α : Type} (r : α → α → Prop) (a b : α) (hab : r a b)
    (hba : r b a) : ¬ WellFounded r :=
  fun h => h.isAsymm.asymm a b hab hba

/-- What `mainTarget` computes is the call of line 355: a path that the call for the target
returns is what `loadAsDirectorySync(x)` returns. -/
theorem loadAsDirectorySync_of_mainTarget (c : Ctx) (fuel depth : Nat) (x y p : String)
    (hcall : callsDirectory c fuel y x)
    (hy : loadAsDirectorySync c fuel depth y = .ok (some p)) (hp : p ≠ "") :
    loadAsDirectorySync c fuel (depth + 1) x = .ok (some p) := by
  have ht : truthyS (some p) = true := by simpa [truthyS] using hp
  unfold callsDirectory mainTarget at hcall
  obtain ⟨isDir, hdir, hcall⟩ := Res.bind_eq_ok _ _ _ hcall
  have key : ∀ pkgDir : String, (do
        let found ← c.env.isFile (c.env.pathJoin pkgDir "/package.json")
        if found = true then do
          let pkg ← readOrUndefined c.env (c.env.pathJoin pkgDir "/package.json")
          let pkg ← applyPackageFilter c.opts pkg (c.env.pathJoin pkgDir "/package.json") x
          let gate ← exportsGate c.env pkg
          match gate, pkg with
          | none, some j =>
            match j.get "main" with
            | some (.str main0) =>
              if (j.truthy && main0 != "") = true then do
                let m ← loadAsFileSync c fuel (c.env.pathResolve x (normalizedMain main0))
                if truthyS m = true then pure none
                else pure (some (c.env.pathResolve x (normalizedMain main0)))
              else pure none
            | _ => pure none
          | _, _ => pure none
        else pure none) = Res.ok (some y) →
      (do
        let found ← c.env.isFile (c.env.pathJoin pkgDir "/package.json")
        if found = true then do
          let pkg ← readOrUndefined c.env (c.env.pathJoin pkgDir "/package.json")
          let pkg ← applyPackageFilter c.opts pkg (c.env.pathJoin pkgDir "/package.json") x
          afterManifest c fuel (loadAsDirectorySync c fuel depth) x pkgDir
            (c.env.pathJoin pkgDir "/package.json") pkg
        else loadAsFileSync c fuel (c.env.pathJoin x "/index")) = Res.ok (some p) := by
    intro pkgDir h
    obtain ⟨found, hfound, h⟩ := Res.bind_eq_ok _ _ _ h
    cases found with
    | false => cases h
    | true =>
      simp only [if_true] at h
      obtain ⟨pkg0, hpkg0, h⟩ := Res.bind_eq_ok _ _ _ h
      obtain ⟨pkg, hpkg, h⟩ := Res.bind_eq_ok _ _ _ h
      obtain ⟨gate, hgate, h⟩ := Res.bind_eq_ok _ _ _ h
      cases gate with
      | some ce => cases h
      | none =>
        cases pkg with
        | none => cases h
        | some j =>
          simp only [] at h
          cases hmain : j.get "main" with
          | none =>
            rw [hmain] at h
            cases h
          | some main =>
            rw [hmain] at h
            cases main with
            | str main0 =>
              simp only [] at h
              by_cases hjm : (j.truthy && main0 != "") = true
              · rw [if_pos hjm] at h
                obtain ⟨m, hm, h⟩ := Res.bind_eq_ok _ _ _ h
                by_cases hmt : truthyS m = true
                · rw [if_pos hmt] at h
                  cases h
                · rw [if_neg hmt] at h
                  cases h
                  have hjm2 : (j.truthy && (Json.str main0).truthy) = true := hjm
                  simp only [hfound, Res.ok_bind, if_true, hpkg0, hpkg, afterManifest, hgate,
                    hmain, hjm2, mainBlock, mainAttempt, hm, hmt, Bool.false_eq_true, if_false,
                    hy, ht, Res.pure_eq]
              · rw [if_neg hjm] at h
                cases h
            | null => cases h
            | bool _ => cases h
            | num _ => cases h
            | arr _ => cases h
            | obj _ => cases h
  cases isDir with
  | false =>
    simp only [Bool.false_eq_true, if_false, Res.pure_eq, Res.ok_bind] at hcall
    simp only [loadAsDirectorySync, hdir, Res.ok_bind, Bool.false_eq_true, if_false,
      Res.pure_eq]
    exact key x hcall
  | true =>
    simp only [if_true] at hcall
    obtain ⟨pkgDir, hpkgDir, hcall⟩ := Res.bind_eq_ok _ _ _ hcall
    simp only [loadAsDirectorySync, hdir, Res.ok_bind, if_true, hpkgDir]
    exact key pkgDir hcall

/-- C20, counterexample, in a process that binds `category` to `'pre-exports'` so that the
`main` block is reached. For `/pkg/package.json` = `{"main": "../pkg"}` the call
`loadAsDirectorySync('/pkg')` makes the call `loadAsDirectorySync('/pkg')`, and for the
manifests of `/a` and `/b` that name each other the call for `/a` makes the call for `/b`,
which makes the call for `/a`: the recursion is not well-founded. The calls go on until the
call stack is exhausted; the `catch` of the `main` step swallows the `RangeError`, so the
resolution ends with `INCORRECT_PACKAGE_MAIN`. -/
theorem C20_main_recursion_is_not_well_founded :
    callsDirectory (mkCtx (posixEnv (mainValueWorld (.str "../pkg") []) (some "pre-exports"))
        (defaultOpts "/") (.list [some "pre-exports"]) cjsConditions) 8 "/pkg" "/pkg"
    ∧ ¬ WellFounded (callsDirectory (mkCtx (posixEnv (mainValueWorld (.str "../pkg") [])
        (some "pre-exports")) (defaultOpts "/") (.list [some "pre-exports"]) cjsConditions) 8)
    ∧ callsDirectory (mkCtx (posixEnv cycleWorld (some "pre-exports")) (defaultOpts "/")
        (.list [some "pre-exports"]) cjsConditions) 8 "/b" "/a"
    ∧ callsDirectory (mkCtx (posixEnv cycleWorld (some "pre-exports")) (defaultOpts "/")
        (.list [some "pre-exports"]) cjsConditions) 8 "/a" "/b"
    ∧ ¬ WellFounded (callsDirectory (mkCtx (posixEnv cycleWorld (some "pre-exports"))
        (defaultOpts "/") (.list [some "pre-exports"]) cjsConditions) 8)
    ∧ loadAsDirectorySync (mkCtx (posixEnv (mainValueWorld (.str "../pkg") [])
        (some "pre-exports")) (defaultOpts "/") (.list [some "pre-exports"]) cjsConditions)
        8 4 "/pkg" = .throw (incorrectMainError "/pkg")
    ∧ resolveSync (posixEnv (mainValueWorld (.str "../pkg") []) (some "pre-exports"))
        (defaultOpts "/") 8 4 "./pkg" = .throw (incorrectMainError "/pkg")
    ∧ loadAsDirectorySync (mkCtx (posixEnv cycleWorld (some "pre-exports")) (defaultOpts "/")
        (.list [some "pre-exports"]) cjsConditions) 8 4 "/a"
      = .throw (incorrectMainError "/b") := by
  have h1 : callsDirectory (mkCtx (posixEnv (mainValueWorld (.str "../pkg") [])
      (some "pre-exports")) (defaultOpts "/") (.list [some "pre-exports"]) cjsConditions) 8
      "/pkg" "/pkg" := by
    unfold callsDirectory
    decide
  have h2 : callsDirectory (mkCtx (posixEnv cycleWorld (some "pre-exports")) (defaultOpts "/")
      (.list [some "pre-exports"]) cjsConditions) 8 "/b" "/a" := by
    unfold callsDirectory
    decide
  have h3 : callsDirectory (mkCtx (posixEnv cycleWorld (some "pre-exports")) (defaultOpts "/")
      (.list [some "pre-exports"]) cjsConditions) 8 "/a" "/b" := by
    unfold callsDirectory
    decide
  exact ⟨h1, not_wellFounded_of_loop _ _ _ h1 h1, h2, h3, not_wellFounded_of_loop _ _ _ h2 h3,
    by decide, by decide, by decide⟩

/-- C20, amended: let `d/package.json` parse to a manifest whose `main` is a non-empty
string that names the directory `d` itself (`path.resolve(d, main)` is `d`), with no
`packageFilter` hook and a false exports condition, and let `d` not resolve as a file. Then
the recursive call of `loadAsDirectorySync(d)` is the call `loadAsDirectorySync(d)` again, so
the recursion is not well-founded; and whatever room the call stack has, the resolution of
`d` ends: the innermost call exhausts the stack, the `catch` of the `main` step swallows
the `RangeError`, and every call throws `INCORRECT_PACKAGE_MAIN`. -/
theorem C20_self_main_ends_by_stack_exhaustion (c : Ctx) (fuel : Nat) (d pkgDir : String)
    (isDir : Bool) (j : Json) (m : String) (r : Option String)
    (hfilter : c.opts.packageFilter = none)
    (hdir : c.env.isDirectory d = .ok isDir)
    (hpkgDir : (if isDir then maybeRealpathSync c.env c.opts d else .ok d) = .ok pkgDir)
    (hfile : c.env.isFile (c.env.pathJoin pkgDir "/package.json") = .ok true)
    (hread : c.env.readPackageSync (c.env.pathJoin pkgDir "/package.json") = .ok j)
    (hgate : exportsGate c.env (some j) = .ok none)
    (hmain : j.get "main" = some (.str m)) (hne : m ≠ "")
    (hself : c.env.pathResolve d (normalizedMain m) = d)
    (hnofile : loadAsFileSync c fuel d = .ok r) (hfalsy : truthyS r = false) :
    callsDirectory c fuel d d
    ∧ ¬ WellFounded (callsDirectory c fuel)
    ∧ loadAsDirectorySync c fuel 0 d = .overflow
    ∧ ∀ depth, loadAsDirectorySync c fuel (depth + 1) d = .throw (incorrectMainError d) := by
  have htruthy : (Json.str m).truthy = true := by simpa [Json.truthy] using hne
  have hj : j.truthy = true := Json.truthy_of_get j "main" (.str m) hmain
  have hcall : callsDirectory c fuel d d := by
    have hf := applyPackageFilter_none c.opts (some j) (c.env.pathJoin pkgDir "/package.json") d
      hfilter
    have hr : readOrUndefined c.env (c.env.pathJoin pkgDir "/package.json") = .ok (some j) := by
      simp only [readOrUndefined, hread, Res.bind, Res.catchAll]
    have hm : (m != "") = true := by simpa using hne
    unfold callsDirectory
    cases isDir <;>
      simp_all [mainTarget, bind, Res.bind, pure]
  refine ⟨hcall, not_wellFounded_of_loop _ d d hcall hcall, rfl, ?_⟩
  intro depth
  induction depth with
  | zero =>
    rw [loadAsDirectorySync_main c fuel 0 d pkgDir isDir j (.str m) hfilter hdir hpkgDir hfile
      hread hgate hmain htruthy]
    simp only [mainBlock, mainAttempt, hself, hnofile, Res.ok_bind, hfalsy, Bool.false_eq_true,
      if_false, loadAsDirectorySync, Res.overflow_bind]
  | succ k ih =>
    rw [loadAsDirectorySync_main c fuel (k + 1) d pkgDir isDir j (.str m) hfilter hdir hpkgDir
      hfile hread hgate hmain htruthy]
    simp only [mainBlock, mainAttempt, hself, hnofile, Res.ok_bind, hfalsy, Bool.false_eq_true,
      if_false, ih, Res.throw_bind]

/-- C20, witness of the amended statement: `/pkg/package.json` = `{"main": "../pkg"}` with
`category` bound to `'pre-exports'`. -/
theorem C20_self_main_ends_by_stack_exhaustion_witness :
    callsDirectory (mkCtx (posixEnv (mainValueWorld (.str "../pkg") []) (some "pre-exports"))
        (defaultOpts "/") (.list [some "pre-exports"]) cjsConditions) 8 "/pkg" "/pkg"
    ∧ loadAsDirectorySync (mkCtx (posixEnv (mainValueWorld (.str "../pkg") [])
        (some "pre-exports")) (defaultOpts "/") (.list [some "pre-exports"]) cjsConditions)
        8 1000 "/pkg" = .throw (incorrectMainError "/pkg") :=
  ⟨(C20_self_main_ends_by_stack_exhaustion (mkCtx (posixEnv
      (mainValueWorld (.str "../pkg") []) (some "pre-exports")) (defaultOpts "/")
      (.list [some "pre-exports"]) cjsConditions) 8 "/pkg" "/pkg" true
      (.obj [("main", .str "../pkg")]) "../pkg" none
      rfl (by decide) (by decide) (by decide) rfl rfl rfl (by decide) (by decide)
      (by decide) rfl).1,
   (C20_self_main_ends_by_stack_exhaustion (mkCtx (posixEnv
      (mainValueWorld (.str "../pkg") []) (some "pre-exports")) (defaultOpts "/")
      (.list [some "pre-exports"]) cjsConditions) 8 "/pkg" "/pkg" true
      (.obj [("main", .str "../pkg")]) "../pkg" none
      rfl (by decide) (by decide) (by decide) rfl rfl rfl (by decide) (by decide)
      (by decide) rfl).2.2.2 999⟩

/-! ### C19 -/

theorem Res.yieldsFile_none (env : Env) : (Res.ok none : Res (Option String)).yieldsFile env :=
  fun _ h => by cases h

theorem Res.yieldsFile_throw (env : Env) (e : JsError) :
    (Res.throw e : Res (Option String)).yieldsFile env :=
  fun _ h => by cases h

theorem Res.yieldsFile_overflow (env : Env) :
    (Res.overflow : Res (Option String)).yieldsFile env :=
  fun _ h => by cases h

theorem Res.yieldsFile_some (env : Env) (p : String) (h : env.isFile p = .ok true) :
    (Res.ok (some p)).yieldsFile env := by
  intro q hq
  cases hq
  exact h

theorem Res.yieldsFile_bind {α : Type} (env : Env) (m : Res α) (f : α → Res (Option String))
    (h : ∀ a, m = .ok a → (f a).yieldsFile env) : (m >>= f).yieldsFile env := by
  cases m with
  | ok a => exact h a rfl
  | throw e => exact Res.yieldsFile_throw env e
  | overflow => exact Res.yieldsFile_overflow env

theorem Res.yieldsFile_of_eq (env : Env) (r : Res (Option String)) (a : Option String)
    (h : r.yieldsFile env) (ha : r = .ok a) : (Res.ok a).yieldsFile env := by
  rw [← ha]
  exact h

theorem tryExtensions_yieldsFile (env : Env) (x : String) :
    ∀ exts, (tryExtensions env x exts).yieldsFile env
  | [] => Res.yieldsFile_none env
  | e :: es => by
    simp only [tryExtensions, Res.pure_eq]
    apply Res.yieldsFile_bind
    intro found hfound
    split_ifs with h
    · rw [h] at hfound
      exact Res.yieldsFile_some env _ hfound
    · exact tryExtensions_yieldsFile env x es

theorem loadAsFileSync_yieldsFile (c : Ctx) (fuel : Nat) (x : String) :
    (loadAsFileSync c fuel x).yieldsFile c.env := by
  simp only [loadAsFileSync, Res.pure_eq]
  apply Res.yieldsFile_bind
  intro pkg _
  apply Res.yieldsFile_bind
  intro file _
  apply Res.yieldsFile_bind
  intro found hfound
  split_ifs with h
  · rw [h] at hfound
    exact Res.yieldsFile_some c.env _ hfound
  · exact tryExtensions_yieldsFile c.env _ _

theorem firstTruthy_yieldsFile {α : Type} (env : Env) (f : α → Res (Option String))
    (hf : ∀ k, (f k).yieldsFile env) : ∀ ks, (firstTruthy f ks).yieldsFile env
  | [] => Res.yieldsFile_none env
  | k :: ks => by
    simp only [firstTruthy, Res.pure_eq]
    apply Res.yieldsFile_bind
    intro r hr
    split_ifs
    · exact Res.yieldsFile_of_eq env _ _ (hf k) hr
    · exact firstTruthy_yieldsFile env f hf ks

theorem resolveExportsUndefined_yieldsFile (c : Ctx) :
    (resolveExportsUndefined c).yieldsFile c.env := by
  simp only [resolveExportsUndefined, Res.pure_eq]
  apply Res.yieldsFile_bind
  intro _ _
  exact Res.yieldsFile_none c.env

theorem resolveExportsPrototype_yieldsFile (c : Ctx) (pkgDir x : String) :
    (resolveExportsPrototype c pkgDir x).yieldsFile c.env := by
  have hk : ∀ slot : Option Json,
      ((jsString slot).bind (fun _ => resolveExportsUndefined c)).yieldsFile c.env :=
    fun slot => Res.yieldsFile_bind c.env _ _
      (fun _ _ => resolveExportsUndefined_yieldsFile c)
  simp only [resolveExportsPrototype, Res.pure_eq]
  repeat' first
    | exact Res.yieldsFile_none _
    | exact Res.yieldsFile_throw _ _
    | exact firstTruthy_yieldsFile c.env _ hk _
    | (apply Res.yieldsFile_bind; intro _ _)
    | split_ifs

mutual
theorem resolveExportsItem_yieldsFile (c : Ctx) (fuel : Nat) (pkgDir x : String) :
    ∀ item, (resolveExportsItem c fuel pkgDir x item).yieldsFile c.env
  | .str s => by
    simp only [resolveExportsItem, Res.pure_eq]
    apply Res.yieldsFile_bind
    intro f hf
    split_ifs
    · exact Res.yieldsFile_of_eq c.env _ _ (loadAsFileSync_yieldsFile c fuel _) hf
    · exact Res.yieldsFile_none c.env
  | .arr xs => by
    simp only [resolveExportsItem]
    exact resolveExportsArray_yieldsFile c fuel pkgDir x xs
  | .obj kvs => by
    have hk : ∀ slot : Option Json, ((jsString slot).bind (fun key =>
        resolveExportsKey c fuel pkgDir x key kvs)).yieldsFile c.env :=
      fun slot => Res.yieldsFile_bind c.env _ _
        (fun key _ => resolveExportsKey_yieldsFile c fuel pkgDir x key kvs)
    have hf := resolveExportsFiles_yieldsFile c fuel pkgDir x kvs
    simp only [resolveExportsItem, Res.pure_eq]
    repeat' first
      | exact Res.yieldsFile_none _
      | exact Res.yieldsFile_throw _ _
      | exact hf
      | exact firstTruthy_yieldsFile c.env _ hk _
      | (apply Res.yieldsFile_bind; intro _ _)
      | split_ifs
  | .null => resolveExportsUndefined_yieldsFile c
  | .bool _ => resolveExportsUndefined_yieldsFile c
  | .num _ => resolveExportsUndefined_yieldsFile c
theorem resolveExportsArray_yieldsFile (c : Ctx) (fuel : Nat) (pkgDir x : String) :
    ∀ items, (resolveExportsArray c fuel pkgDir x items).yieldsFile c.env
  | [] => Res.yieldsFile_none c.env
  | item :: rest => by
    have h1 := resolveExportsItem_yieldsFile c fuel pkgDir x item
    have h2 := resolveExportsArray_yieldsFile c fuel pkgDir x rest
    simp only [resolveExportsArray, Res.pure_eq]
    apply Res.yieldsFile_bind
    intro r hr
    split_ifs
    · exact Res.yieldsFile_of_eq c.env _ _ h1 hr
    · exact h2
theorem resolveExportsKey_yieldsFile (c : Ctx) (fuel : Nat) (pkgDir x key : String) :
    ∀ kvs, (resolveExportsKey c fuel pkgDir x key kvs).yieldsFile c.env
  | [] => by
    simp only [resolveExportsKey]
    split_ifs
    · exact resolveExportsPrototype_yieldsFile c pkgDir x
    · exact resolveExportsUndefined_yieldsFile c
  | kv :: rest => by
    simp only [resolveExportsKey]
    split_ifs
    · exact resolveExportsItem_yieldsFile c fuel pkgDir x kv.2
    · exact resolveExportsKey_yieldsFile c fuel pkgDir x key rest
theorem resolveExportsFiles_yieldsFile (c : Ctx) (fuel : Nat) (pkgDir x : String) :
    ∀ kvs, (resolveExportsFiles c fuel pkgDir x kvs).yieldsFile c.env
  | [] => Res.yieldsFile_none c.env
  | kv :: rest => by
    have h1 := resolveExportsItem_yieldsFile c fuel pkgDir x kv.2
    have h2 := resolveExportsFiles_yieldsFile c fuel pkgDir x rest
    simp only [resolveExportsFiles, Res.pure_eq]
    repeat' first
      | exact Res.yieldsFile_none _
      | exact h2
      | exact Res.yieldsFile_of_eq c.env _ _ h1 (by assumption)
      | (apply Res.yieldsFile_bind; intro _ _)
      | split_ifs
end


theorem exportsTail_yieldsFile (c : Ctx) (fuel : Nat) (category pkgDir pkgfile x : String)
    (e : Json) : (exportsTail c fuel category pkgDir pkgfile x e).yieldsFile c.env := by
  have h1 := resolveExportsItem_yieldsFile c fuel pkgDir x e
  simp only [exportsTail, Res.pure_eq]
  repeat' first
    | exact Res.yieldsFile_throw _ _
    | exact Res.yieldsFile_of_eq c.env _ _ h1 (by assumption)
    | (apply Res.yieldsFile_bind; intro _ _)
    | split_ifs

theorem exportsBlock_yieldsFile (c : Ctx) (fuel : Nat) (category pkgDir pkgfile x : String)
    (e : Json) : (exportsBlock c fuel category pkgDir pkgfile x e).yieldsFile c.env := by
  have h1 := resolveExportsItem_yieldsFile c fuel pkgDir x e
  have h2 := exportsTail_yieldsFile c fuel category pkgDir pkgfile x e
  simp only [exportsBlock, Res.pure_eq]
  repeat' first
    | exact Res.yieldsFile_none _
    | exact h2
    | exact Res.yieldsFile_of_eq c.env _ _ h1 (by assumption)
    | (apply Res.yieldsFile_bind; intro _ _)
    | split_ifs

theorem mainAttempt_yieldsFile (c : Ctx) (fuel : Nat)
    (asDirectory : String → Res (Option String))
    (hrec : ∀ y, (asDirectory y).yieldsFile c.env) (x main : String) :
    (mainAttempt c fuel asDirectory x main).yieldsFile c.env := by
  have h1 := fun y => loadAsFileSync_yieldsFile c fuel y
  simp only [mainAttempt, Res.pure_eq]
  repeat' first
    | exact Res.yieldsFile_none _
    | exact Res.yieldsFile_of_eq c.env _ _ (h1 _) (by assumption)
    | exact Res.yieldsFile_of_eq c.env _ _ (hrec _) (by assumption)
    | (apply Res.yieldsFile_bind; intro _ _)
    | split_ifs

theorem mainBlock_yieldsFile (c : Ctx) (fuel : Nat)
    (asDirectory : String → Res (Option String))
    (hrec : ∀ y, (asDirectory y).yieldsFile c.env) (x : String) (pkg main : Json) :
    (mainBlock c fuel asDirectory x pkg main).yieldsFile c.env := by
  intro p hp
  cases main with
  | str main0 =>
    have h1 := mainAttempt_yieldsFile c fuel asDirectory hrec x (normalizedMain main0)
    simp only [mainBlock] at hp
    cases hm : mainAttempt c fuel asDirectory x (normalizedMain main0) with
    | ok o =>
      rw [hm] at hp
      cases o with
      | none => cases hp
      | some m =>
        cases hp
        exact h1 p hm
    | throw e =>
      rw [hm] at hp
      cases hp
    | overflow =>
      rw [hm] at hp
      cases hp
  | null | bool _ | num _ | arr _ | obj _ =>
    simp only [mainBlock] at hp
    cases hn : jsString (pkg.get "name") <;> (rw [hn] at hp; cases hp)

theorem afterManifest_yieldsFile (c : Ctx) (fuel : Nat)
    (asDirectory : String → Res (Option String))
    (hrec : ∀ y, (asDirectory y).yieldsFile c.env) (x pkgDir pkgfile : String)
    (pkg : Option Json) :
    (afterManifest c fuel asDirectory x pkgDir pkgfile pkg).yieldsFile c.env := by
  have h1 := fun y => loadAsFileSync_yieldsFile c fuel y
  simp only [afterManifest]
  apply Res.yieldsFile_bind
  intro gate _
  cases gate with
  | some ce => exact exportsBlock_yieldsFile c fuel ce.1 pkgDir pkgfile x ce.2
  | none =>
    cases pkg with
    | none => exact h1 _
    | some j =>
      simp only []
      cases j.get "main" with
      | none => exact h1 _
      | some main =>
        simp only []
        split_ifs
        · exact mainBlock_yieldsFile c fuel asDirectory hrec x j main
        · exact h1 _

theorem loadAsDirectorySync_yieldsFile (c : Ctx) (fuel : Nat) :
    ∀ (depth : Nat) (x : String), (loadAsDirectorySync c fuel depth x).yieldsFile c.env
  | 0, _ => Res.yieldsFile_overflow c.env
  | depth + 1, x => by
    have ih := loadAsDirectorySync_yieldsFile c fuel depth
    have h1 := fun y => loadAsFileSync_yieldsFile c fuel y
    simp only [loadAsDirectorySync, Res.pure_eq]
    repeat' first
      | exact h1 _
      | exact afterManifest_yieldsFile c fuel _ ih _ _ _ _
      | (apply Res.yieldsFile_bind; intro _ _)
      | split_ifs

theorem candidatesLoop_yieldsFile (c : Ctx) (fuel depth : Nat) :
    ∀ dirs, (candidatesLoop c fuel depth dirs).yieldsFile c.env
  | [] => Res.yieldsFile_none c.env
  | dir :: rest => by
    have ih := candidatesLoop_yieldsFile c fuel depth rest
    have h1 := fun y => loadAsFileSync_yieldsFile c fuel y
    have h2 := fun y => loadAsDirectorySync_yieldsFile c fuel depth y
    simp only [candidatesLoop, Res.pure_eq]
    repeat' first
      | exact ih
      | exact Res.yieldsFile_of_eq c.env _ _ (h1 _) (by assumption)
      | exact Res.yieldsFile_of_eq c.env _ _ (h2 _) (by assumption)
      | (apply Res.yieldsFile_bind; intro _ _)
      | split_ifs

theorem loadNodeModulesSync_yieldsFile (c : Ctx) (fuel depth : Nat) (x start : String) :
    (loadNodeModulesSync c fuel depth x start).yieldsFile c.env := by
  simp only [loadNodeModulesSync]
  apply Res.yieldsFile_bind
  intro dirs _
  exact candidatesLoop_yieldsFile c fuel depth dirs

theorem fileOrDirectory_yieldsFile (c : Ctx) (fuel depth : Nat) (x : String) :
    (fileOrDirectory c fuel depth x).yieldsFile c.env := by
  have h1 := loadAsFileSync_yieldsFile c fuel x
  have h2 := loadAsDirectorySync_yieldsFile c fuel depth x
  simp only [fileOrDirectory, Res.pure_eq]
  repeat' first
    | exact h2
    | exact Res.yieldsFile_of_eq c.env _ _ h1 (by assumption)
    | (apply Res.yieldsFile_bind; intro _ _)
    | split_ifs

/-- A value that `finish` returns is `maybeRealpathSync` of a path the step before it
found. -/
theorem finish_eq_ok (env : Env) (options : Opts) (x parent : String) (m : Option String)
    (q : String) (h : finish env options x parent m = .ok q) :
    ∃ p, m = some p ∧ maybeRealpathSync env options p = .ok q := by
  cases m with
  | none => cases h
  | some p =>
    simp only [finish] at h
    split_ifs at h
    exact ⟨p, rfl, h⟩

/-- A value that `resolveSync` returns for a specifier that does not name a core module is
`maybeRealpathSync` of a path for which `isFile` answered true. -/
theorem resolveSync_accepts_file (env : Env) (options : Opts) (fuel depth : Nat)
    (x q : String) (hcore : env.isCore x = false)
    (h : resolveSync env options fuel depth x = .ok q) :
    ∃ p, env.isFile p = .ok true ∧ maybeRealpathSync env options p = .ok q := by
  simp only [resolveSync, hcore, Bool.and_false, Bool.false_eq_true, if_false] at h
  obtain ⟨cc, _, h⟩ := Res.bind_eq_ok _ _ _ h
  by_cases hflags : (options.hasReadFileSync && options.hasReadPackageSync) = true
  · rw [if_pos hflags] at h
    cases h
  · rw [if_neg hflags] at h
    obtain ⟨absoluteStart, _, h⟩ := Res.bind_eq_ok _ _ _ h
    obtain ⟨invalid, _, h⟩ := Res.bind_eq_ok _ _ _ h
    by_cases hinv : invalid = true
    · rw [if_pos hinv] at h
      cases h
    · rw [if_neg hinv] at h
      by_cases hrel : relativePathRegex x = true
      · rw [if_pos hrel] at h
        obtain ⟨m, hm, h⟩ := Res.bind_eq_ok _ _ _ h
        obtain ⟨p, hp, hq⟩ := finish_eq_ok env options x _ m q h
        subst hp
        exact ⟨p, fileOrDirectory_yieldsFile (mkCtx env options cc.1 cc.2) fuel depth _ p hm, hq⟩
      · rw [if_neg hrel] at h
        obtain ⟨n, hn, h⟩ := Res.bind_eq_ok _ _ _ h
        obtain ⟨p, hp, hq⟩ := finish_eq_ok env options x _ n q h
        subst hp
        exact ⟨p, loadNodeModulesSync_yieldsFile (mkCtx env options cc.1 cc.2) fuel depth x _ p
          hn, hq⟩

/-- C19: every path that `loadAsFileSync`, `resolveExportsItem`, `loadAsDirectorySync` and
`loadNodeModulesSync` return is one for which `isFile` answered true, for every filesystem,
configuration and bound; and for every specifier that does not name a core module, a value
that `resolveSync` returns is `maybeRealpathSync` of such a path, hence such a path itself
when `preserveSymlinks` is set. -/
theorem C19_returned_paths_are_files (c : Ctx) (fuel depth : Nat) :
    (∀ x p, loadAsFileSync c fuel x = .ok (some p) → c.env.isFile p = .ok true)
    ∧ (∀ pkgDir x item p, resolveExportsItem c fuel pkgDir x item = .ok (some p) →
        c.env.isFile p = .ok true)
    ∧ (∀ x p, loadAsDirectorySync c fuel depth x = .ok (some p) → c.env.isFile p = .ok true)
    ∧ (∀ x start p, loadNodeModulesSync c fuel depth x start = .ok (some p) →
        c.env.isFile p = .ok true)
    ∧ (∀ (env : Env) (options : Opts) (x q : String), env.isCore x = false →
        resolveSync env options fuel depth x = .ok q →
        (∃ p, env.isFile p = .ok true ∧ maybeRealpathSync env options p = .ok q)
        ∧ (options.preserveSymlinks = true → env.isFile q = .ok true)) := by
  refine ⟨fun x => loadAsFileSync_yieldsFile c fuel x,
    fun pkgDir x item => resolveExportsItem_yieldsFile c fuel pkgDir x item,
    fun x => loadAsDirectorySync_yieldsFile c fuel depth x,
    fun x start => loadNodeModulesSync_yieldsFile c fuel depth x start, ?_⟩
  intro env options x q hcore h
  obtain ⟨p, hp, hq⟩ := resolveSync_accepts_file env options fuel depth x q hcore h
  refine ⟨⟨p, hp, hq⟩, fun hps => ?_⟩
  simp only [maybeRealpathSync, hps, Bool.not_true, Bool.false_eq_true, if_false,
    Res.ok.injEq] at hq
  rw [← hq]
  exact hp

/-- C19, witness: in `mainWorld` with `category` bound to `'pre-exports'` and
`preserveSymlinks` set, `resolveSync('./proj')` returns `/proj/lib/x.js`, which is a file;
so is what `loadAsDirectorySync('/proj')` returns. -/
theorem C19_returned_paths_are_files_witness :
    resolveSync (posixEnv mainWorld (some "pre-exports"))
        { defaultOpts "/" with preserveSymlinks := true } 8 4 "./proj" = .ok "/proj/lib/x.js"
    ∧ (posixEnv mainWorld (some "pre-exports")).isFile "/proj/lib/x.js" = .ok true
    ∧ loadAsDirectorySync (mkCtx (posixEnv mainWorld (some "pre-exports")) (defaultOpts "/")
        (.list [some "pre-exports"]) cjsConditions) 8 4 "/proj" = .ok (some "/proj/lib/x.js")
    ∧ (mkCtx (posixEnv mainWorld (some "pre-exports")) (defaultOpts "/")
        (.list [some "pre-exports"]) cjsConditions).env.isFile "/proj/lib/x.js" = .ok true :=
  ⟨by decide,
   ((C19_returned_paths_are_files (mkCtx (posixEnv mainWorld (some "pre-exports"))
      (defaultOpts "/") (.list [some "pre-exports"]) cjsConditions) 8 4).2.2.2.2
      (posixEnv mainWorld (some "pre-exports"))
      { defaultOpts "/" with preserveSymlinks := true } "./proj" "/proj/lib/x.js"
      (by decide) (by decide)).2 rfl,
   by decide,
   (C19_returned_paths_are_files (mkCtx (posixEnv mainWorld (some "pre-exports"))
      (defaultOpts "/") (.list [some "pre-exports"]) cjsConditions) 8 4).2.2.1
      "/proj" "/proj/lib/x.js" (by decide)⟩

/-! ### C16 -/

theorem Res.quiet_ok {α : Type} (a : α) : (Res.ok a).quiet := fun _ h => by cases h

theorem Res.quiet_overflow {α : Type} : (Res.overflow : Res α).quiet := fun _ h => by cases h

theorem Res.quiet_bind {α β : Type} (m : Res α) (f : α → Res β) (hm : m.quiet)
    (hf : ∀ a, m = .ok a → (f a).quiet) : (m >>= f).quiet := by
  cases m with
  | ok a => exact hf a rfl
  | throw e => exact absurd rfl (hm e)
  | overflow => exact Res.quiet_overflow

theorem Res.throwsListed_of_quiet {α : Type} (r : Res α) (h : r.quiet) : r.throwsListed :=
  fun e he => absurd he (h e)

theorem Res.throwsListed_ok {α : Type} (a : α) : (Res.ok a).throwsListed := fun _ h => by cases h

theorem Res.throwsListed_overflow {α : Type} : (Res.overflow : Res α).throwsListed := fun _ h => by cases h

theorem Res.throwsListed_throw {α : Type} (e : JsError) (h : e.documented = true) :
    (Res.throw e : Res α).throwsListed := by
  intro e1 h1
  cases h1
  exact h

theorem Res.throwsListed_bind {α β : Type} (m : Res α) (f : α → Res β) (hm : m.throwsListed)
    (hf : ∀ a, m = .ok a → (f a).throwsListed) : (m >>= f).throwsListed := by
  cases m with
  | ok a => exact hf a rfl
  | throw e => exact Res.throwsListed_throw e (hm e rfl)
  | overflow => exact Res.throwsListed_overflow

theorem maybeRealpathSync_quiet (c : Ctx) (hc : Calm c) (x : String) :
    (maybeRealpathSync c.env c.opts x).quiet := by
  unfold maybeRealpathSync
  split_ifs
  · exact hc.realpath x
  · exact Res.quiet_ok x

theorem readOrSyntaxError_quiet (c : Ctx) (hc : Calm c) (pkgfile : String) :
    (readOrSyntaxError c.env pkgfile).quiet := by
  unfold readOrSyntaxError
  cases h : c.env.readPackageSync pkgfile with
  | ok j => exact Res.quiet_ok _
  | throw e =>
    have hs := hc.read pkgfile e h
    simp only [hs, beq_self_eq_true, if_true]
    exact Res.quiet_ok _
  | overflow => exact Res.quiet_overflow

theorem applyPackageFilter_quiet (c : Ctx) (hc : Calm c) (pkg : Option Json)
    (pkgfile dir : String) : (applyPackageFilter c.opts pkg pkgfile dir).quiet := by
  unfold applyPackageFilter
  cases pkg with
  | none => exact Res.quiet_ok _
  | some j =>
    cases hpf : c.opts.packageFilter with
    | none => exact Res.quiet_ok _
    | some f =>
      simp only []
      split_ifs
      · exact (hc.packageFilter f hpf j pkgfile dir).1
      · exact Res.quiet_ok _

/-- A plain manifest is an object whose `name` converts to a string. -/
theorem Json.plainManifest_spec (j : Json) (h : j.plainManifest = true) :
    (∃ kvs, j = .obj kvs) ∧ (jsString (j.get "name")).quiet := by
  cases j with
  | obj kvs =>
    refine ⟨⟨kvs, rfl⟩, ?_⟩
    simp only [Json.plainManifest] at h
    cases hn : (Json.obj kvs).get "name" with
    | none => exact Res.quiet_ok _
    | some name =>
      rw [hn] at h
      simp only [] at h
      simp only [jsString, h, if_true]
      exact Res.quiet_ok _
  | null => cases h
  | bool _ => cases h
  | num _ => cases h
  | str _ => cases h
  | arr _ => cases h

/-- The value of `pkg` after the `packageFilter` step is a plain manifest, when it was
one. -/
theorem applyPackageFilter_object (c : Ctx) (hc : Calm c) (pkg r : Option Json)
    (pkgfile dir : String) (hobj : ∀ j, pkg = some j → j.plainManifest = true)
    (h : applyPackageFilter c.opts pkg pkgfile dir = .ok r) :
    ∀ j, r = some j → j.plainManifest = true := by
  unfold applyPackageFilter at h
  cases pkg with
  | none =>
    cases h
    exact hobj
  | some j =>
    cases hpf : c.opts.packageFilter with
    | none =>
      rw [hpf] at h
      cases h
      exact hobj
    | some f =>
      rw [hpf] at h
      simp only [] at h
      split_ifs at h
      · intro j1 hj1
        subst hj1
        exact (hc.packageFilter f hpf j pkgfile dir).2 j1 h
      · cases h
        exact hobj

theorem loadpkg_quiet (c : Ctx) (hc : Calm c) : ∀ (fuel : Nat) (dir : String),
    (loadpkg c fuel dir).quiet
  | 0, _ => Res.quiet_overflow
  | fuel + 1, dir => by
    have ih := loadpkg_quiet c hc fuel
    simp only [loadpkg, Res.pure_eq]
    repeat' first
      | exact Res.quiet_ok _
      | exact ih _
      | exact hc.isDirectory _
      | exact hc.isFile _
      | exact maybeRealpathSync_quiet c hc _
      | exact readOrSyntaxError_quiet c hc _
      | exact applyPackageFilter_quiet c hc _ _ _
      | refine Res.quiet_bind _ _ ?_ (fun _ _ => ?_)
      | split_ifs

theorem applyPathFilter_quiet (c : Ctx) (hc : Calm c) (info : Option PkgInfo) (x : String) :
    (applyPathFilter c info x).quiet := by
  unfold applyPathFilter
  cases info with
  | none => exact Res.quiet_ok _
  | some i =>
    cases hpf : c.opts.pathFilter with
    | none => exact Res.quiet_ok _
    | some f =>
      simp only []
      cases i.pkg with
      | none => exact Res.quiet_ok _
      | some j =>
        simp only [Res.pure_eq]
        split_ifs
        · refine Res.quiet_bind _ _ (hc.pathFilter f hpf _ _ _) (fun r _ => ?_)
          cases r with
          | none => exact Res.quiet_ok _
          | some r1 =>
            simp only []
            split_ifs <;> exact Res.quiet_ok _
        · exact Res.quiet_ok _

theorem tryExtensions_quiet (c : Ctx) (hc : Calm c) (x : String) :
    ∀ exts, (tryExtensions c.env x exts).quiet
  | [] => Res.quiet_ok _
  | e :: es => by
    have ih := tryExtensions_quiet c hc x es
    simp only [tryExtensions, Res.pure_eq]
    repeat' first
      | exact Res.quiet_ok _
      | exact ih
      | exact hc.isFile _
      | refine Res.quiet_bind _ _ ?_ (fun _ _ => ?_)
      | split_ifs

theorem loadAsFileSync_quiet (c : Ctx) (hc : Calm c) (fuel : Nat) (x : String) :
    (loadAsFileSync c fuel x).quiet := by
  simp only [loadAsFileSync, Res.pure_eq]
  repeat' first
    | exact Res.quiet_ok _
    | exact loadpkg_quiet c hc _ _
    | exact applyPathFilter_quiet c hc _ _
    | exact tryExtensions_quiet c hc _ _
    | exact hc.isFile _
    | refine Res.quiet_bind _ _ ?_ (fun _ _ => ?_)
    | split_ifs

theorem includes_quiet (c : Ctx) (hc : Calm c) (s : String) :
    (c.categories.includes s).quiet := by
  obtain ⟨cs, h⟩ := hc.categories
  rw [h]
  exact Res.quiet_ok _

theorem resolveExportsUndefined_throwsListed (c : Ctx) (hc : Calm c) :
    (resolveExportsUndefined c).throwsListed := by
  simp only [resolveExportsUndefined, Res.pure_eq]
  exact Res.throwsListed_bind _ _ (Res.throwsListed_of_quiet _ (includes_quiet c hc _))
    (fun _ _ => Res.throwsListed_ok _)

theorem firstTruthy_throwsListed {α : Type} (f : α → Res (Option String)) :
    ∀ ks : List α, (∀ k ∈ ks, (f k).throwsListed) → (firstTruthy f ks).throwsListed
  | [], _ => Res.throwsListed_ok _
  | k :: ks, hf => by
    have ih := firstTruthy_throwsListed f ks (fun k1 h1 => hf k1 (List.mem_cons_of_mem k h1))
    have hk := hf k (List.mem_cons_self k ks)
    simp only [firstTruthy, Res.pure_eq]
    repeat' first
      | exact Res.throwsListed_ok _
      | exact ih
      | exact hk
      | refine Res.throwsListed_bind _ _ ?_ (fun _ _ => ?_)
      | split_ifs

/-- The conversion of `conditions[ci]` to a property key throws nothing when every
condition converts. -/
theorem jsString_slot_quiet (c : Ctx) (hc : Calm c) (slot : Option Json)
    (h : slot ∈ conditionSlots c.conditions) : (jsString slot).quiet := by
  cases slot with
  | none => exact Res.quiet_ok _
  | some cond =>
    have hmem : cond ∈ c.conditions := by
      simpa [conditionSlots] using h
    simp only [jsString, hc.conditions cond hmem, if_true]
    exact Res.quiet_ok _

theorem resolveExportsPrototype_throwsListed (c : Ctx) (hc : Calm c) (pkgDir x : String) :
    (resolveExportsPrototype c pkgDir x).throwsListed := by
  have hk : ∀ slot ∈ conditionSlots c.conditions,
      ((jsString slot).bind (fun _ => resolveExportsUndefined c)).throwsListed :=
    fun slot hslot => Res.throwsListed_bind _ _
      (Res.throwsListed_of_quiet _ (jsString_slot_quiet c hc slot hslot))
      (fun _ _ => resolveExportsUndefined_throwsListed c hc)
  simp only [resolveExportsPrototype, Res.pure_eq]
  repeat' first
    | exact Res.throwsListed_ok _
    | exact Res.throwsListed_throw _ rfl
    | exact firstTruthy_throwsListed _ _ hk
    | exact Res.throwsListed_of_quiet _ (includes_quiet c hc _)
    | exact Res.throwsListed_of_quiet _ (hc.validate _)
    | refine Res.throwsListed_bind _ _ ?_ (fun _ _ => ?_)
    | split_ifs

mutual
theorem resolveExportsItem_throwsListed (c : Ctx) (hc : Calm c) (fuel : Nat) (pkgDir x : String) :
    ∀ item, (resolveExportsItem c fuel pkgDir x item).throwsListed
  | .str s => by
    simp only [resolveExportsItem, Res.pure_eq]
    repeat' first
      | exact Res.throwsListed_ok _
      | exact Res.throwsListed_of_quiet _ (loadAsFileSync_quiet c hc _ _)
      | refine Res.throwsListed_bind _ _ ?_ (fun _ _ => ?_)
      | split_ifs
  | .arr xs => by
    simp only [resolveExportsItem]
    exact resolveExportsArray_throwsListed c hc fuel pkgDir x xs
  | .obj kvs => by
    have hk : ∀ slot ∈ conditionSlots c.conditions, ((jsString slot).bind (fun key =>
        resolveExportsKey c fuel pkgDir x key kvs)).throwsListed :=
      fun slot hslot => Res.throwsListed_bind _ _
        (Res.throwsListed_of_quiet _ (jsString_slot_quiet c hc slot hslot))
        (fun key _ => resolveExportsKey_throwsListed c hc fuel pkgDir x key kvs)
    have hf := resolveExportsFiles_throwsListed c hc fuel pkgDir x kvs
    simp only [resolveExportsItem, Res.pure_eq]
    repeat' first
      | exact Res.throwsListed_ok _
      | exact Res.throwsListed_throw _ rfl
      | exact hf
      | exact firstTruthy_throwsListed _ _ hk
      | exact Res.throwsListed_of_quiet _ (includes_quiet c hc _)
      | exact Res.throwsListed_of_quiet _ (hc.validate _)
      | refine Res.throwsListed_bind _ _ ?_ (fun _ _ => ?_)
      | split_ifs
  | .null => resolveExportsUndefined_throwsListed c hc
  | .bool _ => resolveExportsUndefined_throwsListed c hc
  | .num _ => resolveExportsUndefined_throwsListed c hc
theorem resolveExportsArray_throwsListed (c : Ctx) (hc : Calm c) (fuel : Nat) (pkgDir x : String) :
    ∀ items, (resolveExportsArray c fuel pkgDir x items).throwsListed
  | [] => Res.throwsListed_ok _
  | item :: rest => by
    have h1 := resolveExportsItem_throwsListed c hc fuel pkgDir x item
    have h2 := resolveExportsArray_throwsListed c hc fuel pkgDir x rest
    simp only [resolveExportsArray, Res.pure_eq]
    repeat' first
      | exact Res.throwsListed_ok _
      | exact h1
      | exact h2
      | refine Res.throwsListed_bind _ _ ?_ (fun _ _ => ?_)
      | split_ifs
theorem resolveExportsKey_throwsListed (c : Ctx) (hc : Calm c) (fuel : Nat) (pkgDir x key : String) :
    ∀ kvs, (resolveExportsKey c fuel pkgDir x key kvs).throwsListed
  | [] => by
    simp only [resolveExportsKey]
    split_ifs
    · exact resolveExportsPrototype_throwsListed c hc pkgDir x
    · exact resolveExportsUndefined_throwsListed c hc
  | kv :: rest => by
    simp only [resolveExportsKey]
    split_ifs
    · exact resolveExportsItem_throwsListed c hc fuel pkgDir x kv.2
    · exact resolveExportsKey_throwsListed c hc fuel pkgDir x key rest
theorem resolveExportsFiles_throwsListed (c : Ctx) (hc : Calm c) (fuel : Nat) (pkgDir x : String) :
    ∀ kvs, (resolveExportsFiles c fuel pkgDir x kvs).throwsListed
  | [] => Res.throwsListed_ok _
  | kv :: rest => by
    have h1 := resolveExportsItem_throwsListed c hc fuel pkgDir x kv.2
    have h2 := resolveExportsFiles_throwsListed c hc fuel pkgDir x rest
    simp only [resolveExportsFiles, Res.pure_eq]
    repeat' first
      | exact Res.throwsListed_ok _
      | exact h1
      | exact h2
      | exact Res.throwsListed_of_quiet _ (includes_quiet c hc _)
      | refine Res.throwsListed_bind _ _ ?_ (fun _ _ => ?_)
      | split_ifs
end

theorem exportsTail_throwsListed (c : Ctx) (hc : Calm c) (fuel : Nat)
    (category pkgDir pkgfile x : String) (e : Json) (hcat : category ≠ "broken") :
    (exportsTail c fuel category pkgDir pkgfile x e).throwsListed := by
  have h1 := resolveExportsItem_throwsListed c hc fuel pkgDir x e
  have hne : (category != "broken") = true := by simpa using hcat
  simp only [exportsTail, hne, if_true, Res.pure_eq]
  repeat' first
    | exact Res.throwsListed_ok _
    | exact Res.throwsListed_throw _ rfl
    | exact h1
    | exact Res.throwsListed_of_quiet _ (hc.validate _)
    | refine Res.throwsListed_bind _ _ ?_ (fun _ _ => ?_)
    | split_ifs

theorem exportsBlock_throwsListed (c : Ctx) (hc : Calm c) (fuel : Nat)
    (category pkgDir pkgfile x : String) (e : Json) (hcat : category ≠ "broken") :
    (exportsBlock c fuel category pkgDir pkgfile x e).throwsListed := by
  have h1 := resolveExportsItem_throwsListed c hc fuel pkgDir x e
  have h2 := exportsTail_throwsListed c hc fuel category pkgDir pkgfile x e hcat
  simp only [exportsBlock, Res.pure_eq]
  repeat' first
    | exact Res.throwsListed_ok _
    | exact h1
    | exact h2
    | refine Res.throwsListed_bind _ _ ?_ (fun _ _ => ?_)
    | split_ifs

theorem mainBlock_throwsListed (c : Ctx) (fuel : Nat)
    (asDirectory : String → Res (Option String)) (x : String) (pkg main : Json)
    (hname : (jsString (pkg.get "name")).quiet) :
    (mainBlock c fuel asDirectory x pkg main).throwsListed := by
  cases main with
  | str main0 =>
    simp only [mainBlock]
    cases mainAttempt c fuel asDirectory x (normalizedMain main0) with
    | ok o =>
      cases o with
      | none => exact Res.throwsListed_throw _ rfl
      | some m => exact Res.throwsListed_ok _
    | throw e => exact Res.throwsListed_throw _ rfl
    | overflow => exact Res.throwsListed_throw _ rfl
  | null | bool _ | num _ | arr _ | obj _ =>
    simp only [mainBlock]
    exact Res.throwsListed_bind _ _ (Res.throwsListed_of_quiet _ hname)
      (fun _ _ => Res.throwsListed_throw _ rfl)

/-- For a manifest that is an object, the exports condition throws nothing, and the
category it passes on is the binding of `category`. -/
theorem exportsGate_calm (c : Ctx) (hc : Calm c) (pkg : Option Json)
    (hobj : ∀ j, pkg = some j → j.plainManifest = true) :
    (exportsGate c.env pkg).quiet
    ∧ ∀ category e, exportsGate c.env pkg = .ok (some (category, e)) → category ≠ "broken" := by
  obtain ⟨category, hcat, hne⟩ := hc.category
  unfold exportsGate
  rw [hcat]
  simp only []
  split_ifs
  · cases pkg with
    | none => exact ⟨Res.quiet_ok _, fun _ _ h => by cases h⟩
    | some j =>
      obtain ⟨kvs, hj⟩ := (Json.plainManifest_spec j (hobj j rfl)).1
      subst hj
      simp only [Json.truthy, if_true, exportsOf, Res.bind]
      refine ⟨Res.quiet_ok _, fun category1 e h => ?_⟩
      cases hf : (kvs.find? (fun kv => kv.1 == "exports")) with
      | none =>
        rw [hf] at h
        cases h
      | some kv =>
        rw [hf] at h
        cases h
        exact hne
  · exact ⟨Res.quiet_ok _, fun _ _ h => by cases h⟩

theorem afterManifest_throwsListed (c : Ctx) (hc : Calm c) (fuel : Nat)
    (asDirectory : String → Res (Option String)) (x pkgDir pkgfile : String)
    (pkg : Option Json) (hobj : ∀ j, pkg = some j → j.plainManifest = true) :
    (afterManifest c fuel asDirectory x pkgDir pkgfile pkg).throwsListed := by
  have h1 := fun y => Res.throwsListed_of_quiet _ (loadAsFileSync_quiet c hc fuel y)
  have hg := exportsGate_calm c hc pkg hobj
  simp only [afterManifest]
  refine Res.throwsListed_bind _ _ (Res.throwsListed_of_quiet _ hg.1) (fun gate hgate => ?_)
  cases gate with
  | some ce =>
    exact exportsBlock_throwsListed c hc fuel ce.1 pkgDir pkgfile x ce.2 (hg.2 ce.1 ce.2 hgate)
  | none =>
    cases pkg with
    | none => exact h1 _
    | some j =>
      simp only []
      cases j.get "main" with
      | none => exact h1 _
      | some main =>
        simp only []
        split_ifs
        · exact mainBlock_throwsListed c fuel asDirectory x j main
            (Json.plainManifest_spec j (hobj j rfl)).2
        · exact h1 _

theorem readOrUndefined_calm (c : Ctx) (hc : Calm c) (pkgfile : String) :
    (readOrUndefined c.env pkgfile).quiet
    ∧ ∀ r, readOrUndefined c.env pkgfile = .ok r → ∀ j, r = some j →
        j.plainManifest = true := by
  unfold readOrUndefined
  cases h : c.env.readPackageSync pkgfile with
  | ok j =>
    refine ⟨Res.quiet_ok _, fun r hr j1 hj1 => ?_⟩
    cases hr
    cases hj1
    exact hc.manifest pkgfile j h
  | throw e =>
    refine ⟨Res.quiet_ok _, fun r hr j1 hj1 => ?_⟩
    cases hr
    cases hj1
  | overflow =>
    refine ⟨Res.quiet_ok _, fun r hr j1 hj1 => ?_⟩
    cases hr
    cases hj1

theorem loadAsDirectorySync_throwsListed (c : Ctx) (hc : Calm c) (fuel : Nat) :
    ∀ (depth : Nat) (x : String), (loadAsDirectorySync c fuel depth x).throwsListed
  | 0, _ => Res.throwsListed_overflow
  | depth + 1, x => by
    have h1 := fun y => Res.throwsListed_of_quiet _ (loadAsFileSync_quiet c hc fuel y)
    have htail : ∀ pkgDir : String, (do
        let found ← c.env.isFile (c.env.pathJoin pkgDir "/package.json")
        if found = true then do
          let pkg ← readOrUndefined c.env (c.env.pathJoin pkgDir "/package.json")
          let pkg ← applyPackageFilter c.opts pkg (c.env.pathJoin pkgDir "/package.json") x
          afterManifest c fuel (loadAsDirectorySync c fuel depth) x pkgDir
            (c.env.pathJoin pkgDir "/package.json") pkg
        else loadAsFileSync c fuel (c.env.pathJoin x "/index")).throwsListed := by
      intro pkgDir
      refine Res.throwsListed_bind _ _ (Res.throwsListed_of_quiet _ (hc.isFile _))
        (fun found _ => ?_)
      split_ifs
      · have hr := readOrUndefined_calm c hc (c.env.pathJoin pkgDir "/package.json")
        refine Res.throwsListed_bind _ _ (Res.throwsListed_of_quiet _ hr.1)
          (fun pkg hpkg => ?_)
        refine Res.throwsListed_bind _ _
          (Res.throwsListed_of_quiet _ (applyPackageFilter_quiet c hc _ _ _))
          (fun pkg1 hpkg1 => ?_)
        exact afterManifest_throwsListed c hc fuel _ x pkgDir _ pkg1
          (applyPackageFilter_object c hc pkg pkg1 _ _ (hr.2 pkg hpkg) hpkg1)
      · exact h1 _
    simp only [loadAsDirectorySync, Res.pure_eq]
    refine Res.throwsListed_bind _ _ (Res.throwsListed_of_quiet _ (hc.isDirectory _)) (fun isDir _ => ?_)
    split_ifs
    · exact Res.throwsListed_bind _ _ (Res.throwsListed_of_quiet _ (maybeRealpathSync_quiet c hc _))
        (fun pkgDir _ => htail pkgDir)
    · exact htail x

theorem candidatesLoop_throwsListed (c : Ctx) (hc : Calm c) (fuel depth : Nat) :
    ∀ dirs, (candidatesLoop c fuel depth dirs).throwsListed
  | [] => Res.throwsListed_ok _
  | dir :: rest => by
    have ih := candidatesLoop_throwsListed c hc fuel depth rest
    have h1 := fun y => Res.throwsListed_of_quiet _ (loadAsFileSync_quiet c hc fuel y)
    have h2 := fun y => loadAsDirectorySync_throwsListed c hc fuel depth y
    simp only [candidatesLoop, Res.pure_eq]
    repeat' first
      | exact Res.throwsListed_ok _
      | exact ih
      | exact h1 _
      | exact h2 _
      | exact Res.throwsListed_of_quiet _ (hc.isDirectory _)
      | refine Res.throwsListed_bind _ _ ?_ (fun _ _ => ?_)
      | split_ifs

theorem getPackageCandidates_quiet (c : Ctx) (hc : Calm c) (x start : String) :
    (getPackageCandidates c.env x start).quiet := by
  simp only [getPackageCandidates, Res.pure_eq]
  exact Res.quiet_bind _ _ (hc.paths _ _) (fun _ _ => Res.quiet_ok _)

theorem candidateDirs_quiet (c : Ctx) (hc : Calm c) (x start : String) :
    (candidateDirs c x start).quiet := by
  unfold candidateDirs
  cases hpi : c.opts.packageIterator with
  | none => exact getPackageCandidates_quiet c hc x start
  | some f => exact hc.iterator f hpi x start _ (getPackageCandidates_quiet c hc x start)

theorem loadNodeModulesSync_throwsListed (c : Ctx) (hc : Calm c) (fuel depth : Nat)
    (x start : String) : (loadNodeModulesSync c fuel depth x start).throwsListed := by
  simp only [loadNodeModulesSync]
  exact Res.throwsListed_bind _ _ (Res.throwsListed_of_quiet _ (candidateDirs_quiet c hc x start))
    (fun dirs _ => candidatesLoop_throwsListed c hc fuel depth dirs)

theorem fileOrDirectory_throwsListed (c : Ctx) (hc : Calm c) (fuel depth : Nat) (x : String) :
    (fileOrDirectory c fuel depth x).throwsListed := by
  simp only [fileOrDirectory, Res.pure_eq]
  refine Res.throwsListed_bind _ _ (Res.throwsListed_of_quiet _ (loadAsFileSync_quiet c hc fuel x))
    (fun m _ => ?_)
  split_ifs
  · exact Res.throwsListed_ok _
  · exact loadAsDirectorySync_throwsListed c hc fuel depth x

theorem finish_throwsListed (c : Ctx) (hc : Calm c) (x parent : String) (m : Option String) :
    (finish c.env c.opts x parent m).throwsListed := by
  cases m with
  | none => exact Res.throwsListed_throw _ rfl
  | some p =>
    simp only [finish]
    split_ifs
    · exact Res.throwsListed_of_quiet _ (maybeRealpathSync_quiet c hc p)
    · exact Res.throwsListed_throw _ rfl

theorem basedirInvalid_quiet (c : Ctx) (hc : Calm c) (absoluteStart : String) :
    (basedirInvalid c.env c.opts absoluteStart).quiet := by
  unfold basedirInvalid
  cases c.opts.basedir with
  | none => exact Res.quiet_ok _
  | some b => exact Res.quiet_bind _ _ (hc.isDirectory _) (fun _ _ => Res.quiet_ok _)


theorem resolveSync_throwsListed (env : Env) (options : Opts) (cats : Categories)
    (conds : List Json) (fuel depth : Nat) (x : String)
    (hres : readResolution env (effectiveResolution env options) = .ok (cats, conds))
    (hflags : (options.hasReadFileSync && options.hasReadPackageSync) = false)
    (hc : Calm (mkCtx env options cats conds)) :
    (resolveSync env options fuel depth x).throwsListed := by
  have h1 := fun y => maybeRealpathSync_quiet (mkCtx env options cats conds) hc y
  have h2 := fun y => basedirInvalid_quiet (mkCtx env options cats conds) hc y
  have h3 := fun y =>
    fileOrDirectory_throwsListed (mkCtx env options cats conds) hc fuel depth y
  have h4 := fun y z =>
    loadNodeModulesSync_throwsListed (mkCtx env options cats conds) hc fuel depth y z
  have h5 := fun y z m => finish_throwsListed (mkCtx env options cats conds) hc y z m
  simp only [resolveSync, hres, Res.ok_bind, hflags, Bool.false_eq_true, if_false, Res.pure_eq,
    relativeBranch]
  refine Res.throwsListed_bind _ _ (Res.throwsListed_of_quiet _ (h1 _))
    (fun absoluteStart _ => ?_)
  refine Res.throwsListed_bind _ _ (Res.throwsListed_of_quiet _ (h2 _)) (fun invalid _ => ?_)
  split_ifs
  · exact Res.throwsListed_throw _ rfl
  · exact Res.throwsListed_bind _ _ (h3 _) (fun m _ => h5 _ _ m)
  · exact Res.throwsListed_ok _
  · exact Res.throwsListed_bind _ _ (h4 _ _) (fun n _ => h5 _ _ n)

/-- The world of one package `/pkg` with a `main` that names nothing, in a process that
binds `category` to `'pre-exports'`, satisfies the conditions of `Calm`. -/
theorem calm_mainValueWorld :
    Calm (mkCtx (calmEnv (mainValueWorld (.str "nope") []) (some "pre-exports"))
      (defaultOpts "/") (.list [some "pre-exports"]) cjsConditions) where
  isFile := fun _ _ h => by cases h
  isDirectory := fun _ _ h => by cases h
  realpath := fun _ _ h => by cases h
  read := by
    intro p e h
    simp only [mkCtx, calmEnv, Env.withRealpath, posixEnv, mainValueWorld, List.find?] at h
    by_cases hp : ("/pkg/package.json" == p) = true
    · rw [hp] at h
      cases h
    · rw [Bool.not_eq_true] at hp
      rw [hp] at h
      cases h
      rfl
  manifest := by
    intro p j h
    simp only [mkCtx, calmEnv, Env.withRealpath, posixEnv, mainValueWorld, List.find?] at h
    by_cases hp : ("/pkg/package.json" == p) = true
    · rw [hp] at h
      cases h
      rfl
    · rw [Bool.not_eq_true] at hp
      rw [hp] at h
      cases h
  validate := fun _ _ h => by cases h
  paths := fun _ _ _ h => by cases h
  packageFilter := fun _ h => by cases h
  pathFilter := fun _ h => by cases h
  iterator := fun _ h => by cases h
  conditions := by decide
  category := ⟨"pre-exports", rfl, by decide⟩
  categories := ⟨_, rfl⟩

/-- C16, counterexample: option validation succeeds and no hook is set. When
`/proj/package.json` cannot be read (`EACCES`), `resolveSync('./proj/lib/x.js')` fails with
that error, whose code is none of the five. The other failures shown carry no code at all:
in a process that does not bind `category`, `resolveSync('./proj')` fails with a
`ReferenceError`; for a manifest `{"name": {"toString": 1}, "main": 7}` the message of
`INVALID_PACKAGE_MAIN` cannot be built and the failure is a `TypeError`; and for a
`packageIterator` hook that returns the relative candidate `rel`, `loadpkg` walks from `.`
to `.` until the call stack is exhausted and the failure is a `RangeError`. -/
theorem C16_failures_with_other_codes :
    readResolution ((posixEnv mainWorld none).withRead deniedRead)
        (effectiveResolution ((posixEnv mainWorld none).withRead deniedRead) (defaultOpts "/"))
      = .ok (.list [some "pre-exports"], cjsConditions)
    ∧ resolveSync ((posixEnv mainWorld none).withRead deniedRead) (defaultOpts "/") 8 4
        "./proj/lib/x.js"
      = .throw { name := "Error", code := some "EACCES", message := "permission denied" }
    ∧ documentedCodes.contains "EACCES" = false
    ∧ resolveSync (posixEnv mainWorld none) (defaultOpts "/") 8 4 "./proj"
      = .throw categoryNotDefined
    ∧ categoryNotDefined.code = none
    ∧ resolveSync (posixEnv (namedMainWorld (.obj [("toString", .num "1")]) (.num "7") [])
        (some "pre-exports")) (defaultOpts "/") 8 4 "./pkg" = .throw cannotConvert
    ∧ cannotConvert.code = none
    ∧ resolveSync (posixEnv relativeWorld (some "pre-exports"))
        ((defaultOpts "/").withIterator (some (fun _ _ _ => .ok ["rel"]))) 8 4 "pkg"
      = .overflow :=
  ⟨rfl, by decide, by decide, by decide, rfl, by decide, rfl, by decide⟩

/-- C16, amended: let option validation succeed, and let the call be one in which the
probes `isFile`, `isDirectory` and `realpathSync`, the hooks and the required packages throw
nothing, a manifest read fails with a `SyntaxError` only, every manifest is a JSON object
whose `name` converts to a string (also after `packageFilter`), every condition converts to
a property key, the identifier `category` is bound to a string other than `'broken'` and
`categories` is an array. Then `resolveSync` returns, or it exhausts the call stack (a
`RangeError`), or the error it throws carries a `code` equal to one of `MODULE_NOT_FOUND`,
`INVALID_BASEDIR`, `ERR_PACKAGE_PATH_NOT_EXPORTED`, `INVALID_PACKAGE_MAIN`,
`INCORRECT_PACKAGE_MAIN`. -/
theorem C16_failures_carry_listed_code (env : Env) (options : Opts) (cats : Categories)
    (conds : List Json) (fuel depth : Nat) (x : String)
    (hres : readResolution env (effectiveResolution env options) = .ok (cats, conds))
    (hflags : (options.hasReadFileSync && options.hasReadPackageSync) = false)
    (hcalm : Calm (mkCtx env options cats conds)) :
    (∃ p, resolveSync env options fuel depth x = .ok p)
    ∨ resolveSync env options fuel depth x = .overflow
    ∨ ∃ e, resolveSync env options fuel depth x = .throw e
        ∧ ∃ code ∈ documentedCodes, e.code = some code := by
  have h := resolveSync_throwsListed env options cats conds fuel depth x hres hflags hcalm
  cases hr : resolveSync env options fuel depth x with
  | ok p => exact Or.inl ⟨p, rfl⟩
  | overflow => exact Or.inr (Or.inl rfl)
  | throw e =>
    refine Or.inr (Or.inr ⟨e, rfl, ?_⟩)
    have hd := h e hr
    unfold JsError.documented at hd
    cases hcode : e.code with
    | none =>
      rw [hcode] at hd
      cases hd
    | some code =>
      rw [hcode] at hd
      exact ⟨code, by simpa using hd, rfl⟩

/-- C16, witness of the amended statement: `/pkg/package.json` = `{"main": "nope"}` with
nothing else in `/pkg`; `resolveSync('./pkg')` fails with `INCORRECT_PACKAGE_MAIN`. -/
theorem C16_failures_carry_listed_code_witness :
    resolveSync (calmEnv (mainValueWorld (.str "nope") []) (some "pre-exports"))
        (defaultOpts "/") 8 4 "./pkg" = .throw (incorrectMainError "/pkg/nope")
    ∧ ((∃ p, resolveSync (calmEnv (mainValueWorld (.str "nope") []) (some "pre-exports"))
          (defaultOpts "/") 8 4 "./pkg" = .ok p)
      ∨ resolveSync (calmEnv (mainValueWorld (.str "nope") []) (some "pre-exports"))
          (defaultOpts "/") 8 4 "./pkg" = .overflow
      ∨ ∃ e, resolveSync (calmEnv (mainValueWorld (.str "nope") []) (some "pre-exports"))
          (defaultOpts "/") 8 4 "./pkg" = .throw e
          ∧ ∃ code ∈ documentedCodes, e.code = some code) :=
  ⟨by decide,
   C16_failures_carry_listed_code (calmEnv (mainValueWorld (.str "nope") [])
      (some "pre-exports")) (defaultOpts "/") (.list [some "pre-exports"]) cjsConditions 8 4
      "./pkg" rfl rfl calm_mainValueWorld⟩

end Resolve
